import Mathlib

/-!
Verification development for the `fullstack-ml-ai-agent-skills` repository.

The repository is a collection of standalone Python command-line scripts.  This
file gives a shallow embedding of the pure core of those scripts — the ledger
(progress-file) synchronizers, the apply operation, the repository-codebook
generator's exclusion/versioning/config logic, and the template scaffolders —
and proves the spec's testable properties about them.

Text files are modelled as Lean `String`s (with Python `str.splitlines`
modelled explicitly), filesystem facts (existence of a directory, the raw
output of `find`/`git ls-files`) are passed in as parameters, and fallible
script runs return `Except` values whose `.error` constructor models an
uncaught Python exception raised before the script writes its output.
-/

set_option maxRecDepth 80000

namespace Skills

/-- The Python whitespace set: the characters for which `str.isspace()` holds,
which is the set stripped by `str.strip()` and matched by `\s` in `re`
patterns over `str` (U+0009–U+000D, U+001C–U+001F, U+0020, U+0085, U+00A0,
U+1680, U+2000–U+200A, U+2028, U+2029, U+202F, U+205F, U+3000). -/
def pyWs (c : Char) : Bool :=
  [32, 9, 10, 13, 11, 12, 28, 29, 30, 31, 133, 160, 0x1680, 0x2028, 0x2029,
      0x202F, 0x205F, 0x3000].contains c.toNat ||
  (0x2000 ≤ c.toNat && c.toNat ≤ 0x200A)

/-- The Python line-break set: the characters at which `str.splitlines`
breaks a string. -/
def pyBreak (c : Char) : Bool :=
  [10, 13, 11, 12, 28, 29, 30, 133, 0x2028, 0x2029].contains c.toNat

/-- `str.lstrip()` on character lists. -/
def lstripL (cs : List Char) : List Char := cs.dropWhile pyWs

/-- `str.rstrip()` on character lists. -/
def rstripL (cs : List Char) : List Char := (cs.reverse.dropWhile pyWs).reverse

/-- `str.strip()` on character lists. -/
def stripL (cs : List Char) : List Char := rstripL (lstripL cs)

/-- `str.lstrip()`. -/
def pyLstrip (s : String) : String := ⟨lstripL s.data⟩

/-- `str.rstrip()`. -/
def pyRstrip (s : String) : String := ⟨rstripL s.data⟩

/-- `str.strip()`. -/
def pyStrip (s : String) : String := ⟨stripL s.data⟩

/-- Worker for `re.sub(r"\s+", " ", s)`: emit a single space at the first
character of each maximal whitespace run (the flag records whether the
previous character was whitespace), keep every other character. -/
def collapseGo : Bool → List Char → List Char
  | _, [] => []
  | prevWs, c :: cs =>
    if pyWs c then
      if prevWs then collapseGo true cs else ' ' :: collapseGo true cs
    else c :: collapseGo false cs

/-- `re.sub(r"\s+", " ", s)` on character lists: collapse each maximal
whitespace run to a single space. -/
def collapseWsL (l : List Char) : List Char := collapseGo false l

/-- `_norm` / `_norm_ws` in the ledger scripts:
`re.sub(r"\s+", " ", s).strip()`. -/
def normWs (s : String) : String := ⟨stripL (collapseWsL s.data)⟩

/-- Helper for `str.splitlines`: accumulating scanner that breaks at every
`pyBreak` character, treating `"\r\n"` as a single break, and drops a final
empty segment produced by a terminal break. -/
def pySplitGo : List Char → List Char → List (List Char)
  | [], acc => if acc.isEmpty then [] else [acc.reverse]
  | c :: cs, acc =>
    if c == '\r' then
      acc.reverse ::
        (match cs with
         | [] => []
         | c2 :: cs2 =>
           if c2 == '\n' then pySplitGo cs2 [] else pySplitGo (c2 :: cs2) [])
    else if pyBreak c then acc.reverse :: pySplitGo cs []
    else pySplitGo cs (c :: acc)

/-- `str.splitlines()`. -/
def pySplitlines (s : String) : List String :=
  (pySplitGo s.data []).map fun cs => ⟨cs⟩

/-- `"\n".join(lines)` on character lists. -/
def joinNL : List (List Char) → List Char
  | [] => []
  | [l] => l
  | l :: ls => l ++ '\n' :: joinNL ls

/-- `"\n".join(lines)` for strings. -/
def joinLines (ls : List String) : String := ⟨joinNL (ls.map String.data)⟩

/-- A string free of Python line-break characters (it renders as a single
line in a written text file). -/
def noBreak (s : String) : Bool := s.data.all fun c => !pyBreak c

/-- A line consisting entirely of Python whitespace. -/
def allWsLine (s : String) : Bool := s.data.all pyWs

/-- Strip a literal prefix from a character list, returning the remainder. -/
def dropPrefixL : List Char → List Char → Option (List Char)
  | [], rest => some rest
  | _ :: _, [] => none
  | p :: ps, c :: cs => if p == c then dropPrefixL ps cs else none

/-!
## Ledger text format

Shared between `update_dead_code_progress.py`, `update_tests_progress.py` and
`apply_tests_from_progress.py`: blocks are delimited by lines whose strip is
`---`, and fields are `Key: value` lines matched by the regex
`^\s*KEY\s*:\s*(.*)\s*$` (first matching line wins).
-/

/-- The regex `^\s*KEY\s*:\s*(.*)\s*$` applied to one line: leading
whitespace, the literal key, optional whitespace, a colon, then the value
with its leading whitespace consumed.  Because `(.*)` is greedy, the captured
group keeps any trailing whitespace of the line. -/
def colonValue : List Char → Option String
  | [] => none
  | c :: rest => if c == ':' then some ⟨rest.dropWhile pyWs⟩ else none

/-- After the leading whitespace and the key, the rest of the line must
carry `\s*:\s*`; the group is everything after. -/
def matchKeyLine (key line : String) : Option String :=
  (dropPrefixL key.data (lstripL line.data)).bind fun r =>
    colonValue (r.dropWhile pyWs)

/-- `pick(lines, key)` in the ledger scripts: value of the first line
matching the key pattern, or `""`. -/
def pick (lines : List String) (key : String) : String :=
  (lines.findSome? (matchKeyLine key)).getD ""

/-- Accumulating worker for block splitting: a line whose strip is `---`
flushes the (nonempty) buffer; a trailing nonempty buffer is also flushed. -/
def splitBlocksGo : List String → List String → List (List String)
  | [], buf => if buf.isEmpty then [] else [buf.reverse]
  | l :: ls, buf =>
    if pyStrip l == "---" then
      if buf.isEmpty then splitBlocksGo ls []
      else buf.reverse :: splitBlocksGo ls []
    else splitBlocksGo ls (l :: buf)

/-- Split ledger lines into blocks delimited by lines containing only `---`. -/
def splitBlocks (lines : List String) : List (List String) :=
  splitBlocksGo lines []

/-- Lookup in an insertion-ordered association list with Python-dict
overwrite semantics: the LAST binding of a key wins. -/
def lastLookup {α : Type} (entries : List (String × α)) (k : String) : Option α :=
  (entries.reverse.find? fun e => e.1 == k).map Prod.snd

/-- `"\n".join(out).rstrip() + "\n"` for a ledger: the header (itself
rstripped) and a blank line, followed by the flat list of block lines.
`update_dead_code_progress.py` joins each block into one string before the
outer join; since `"\n".join` is associative over such grouping, both
scripts produce this same text. -/
def ledgerText (header : String) (flat : List String) : String :=
  pyRstrip (joinLines (pyRstrip header :: "" :: flat)) ++ "\n"

/-!
## `update_tests_progress.py`
-/

/-- One element of the `proposed_tests` list of `tests_audit.json`, with the
string-typed fields the generator reads (`str(... or "")` coercions applied
by `_norm` are modelled by taking the fields as strings). -/
structure TestItem where
  id : String
  file_path : String
  scope : String
  targets : List String
  rationale : String
  evidence : List String
deriving DecidableEq, Repr

/-- `SavedChoice` in `update_tests_progress.py`. -/
structure SavedChoice where
  test_id : String
  create : String
  notes : String
deriving DecidableEq, Repr

/-- The saved choice read out of one block by `_parse_existing` (skipping
blocks without an `ID`). -/
def testsEntryOf (block : List String) : Option (String × SavedChoice) :=
  let tid := pyStrip (pick block "ID")
  if tid == "" then none
  else some (tid, { test_id := tid
                    create := pyStrip (pick block "Create?")
                    notes := pyRstrip (pick block "Notes") })

/-- `_parse_existing`: the insertion-ordered bindings of the saved-choice
dict (later blocks with the same ID overwrite earlier ones; see
`lastLookup`). -/
def parse_existing_entries (lines : List String) : List (String × SavedChoice) :=
  (splitBlocks lines).filterMap testsEntryOf

/-- The `HEADER` literal of `update_tests_progress.py`. -/
def HEADER_TESTS : String :=
  "# Minimal Tests Progress — User Selection\n\nHow to use:\n1) Mark `x` in the `Create?` field for tests you approve to create under tests/.\n2) Add context in `Notes` if needed (e.g., \"Not needed for current scope\").\n3) Then ask Codex:\n   - $minimal-tests-audit apply from progress\n"

/-- The field lines of one regenerated tests block (between its `---`
markers), given the carried-forward user choice. -/
def testsBlockBody (t : TestItem) (create notes : String) : List String :=
  let targets_str := normWs (String.intercalate ", " t.targets)
  let evidence_str := normWs (String.intercalate "; " t.evidence)
  ["ID: " ++ normWs t.id,
   "Create?: " ++ create,
   "File path: " ++ normWs t.file_path,
   "Scope: " ++ normWs t.scope,
   "Targets: " ++ targets_str,
   "Rationale: " ++ normWs t.rationale,
   "Evidence: " ++ evidence_str,
   pyRstrip ("Notes: " ++ notes)]

/-- The whole `---`-delimited block (with trailing blank line) emitted for
one tests item. -/
def testsBlock (t : TestItem) (create notes : String) : List String :=
  "---" :: testsBlockBody t create notes ++ ["---", ""]

/-- The choice carried forward for a tests item: the saved choice for its
normalized id, defaulting to empty flag and notes. -/
def testsChoiceFor (saved : List (String × SavedChoice)) (t : TestItem) :
    SavedChoice :=
  match lastLookup saved (normWs t.id) with
  | some c => c
  | none => { test_id := normWs t.id, create := "", notes := "" }

/-- The generator loop of `update_tests_progress.py` `main`: one block per
proposed test, raising (before any output is produced) on an item whose
normalized id is empty. -/
def testsBlocksFor (saved : List (String × SavedChoice)) :
    List TestItem → Except String (List String)
  | [] => .ok []
  | t :: ts =>
    let tid := normWs t.id
    if tid == "" then
      .error "Every proposed test must have a stable id (e.g., UT-001)."
    else
      let c := testsChoiceFor saved t
      (testsBlocksFor saved ts).map fun rest => testsBlock t c.create c.notes ++ rest

/-- The saved choices at the start of a run: empty when the progress file
does not exist, else parsed from its text. -/
def testsSavedOf (existing : Option String) : List (String × SavedChoice) :=
  match existing with
  | none => []
  | some text => parse_existing_entries (pySplitlines text)

/-- `update_tests_progress.py` `main` on parsed inputs: given the
`proposed_tests` items and the current progress-file text (`none` when the
file does not exist), produce the new progress-file text, or an error (in
which case the script raises before writing anything). -/
def update_tests_progress (items : List TestItem) (existing : Option String) :
    Except String String :=
  (testsBlocksFor (testsSavedOf existing) items).map fun flat =>
    ledgerText HEADER_TESTS flat

/-- The progress file on disk after a run of `update_tests_progress.py`:
unchanged when the script raises, replaced by the regenerated text when it
succeeds (the write is the last statement of `main`). -/
def tests_progress_on_disk (items : List TestItem) (disk : Option String) :
    Option String :=
  match update_tests_progress items disk with
  | .error _ => disk
  | .ok text => some text

/-!
## `update_dead_code_progress.py`
-/

/-- One audit item of `dead_code_audit.json`, with the string-typed fields
the generator reads. -/
structure DeadItem where
  id : String
  name : String
  type : String
  path : String
  why : String
  evidence : List String
  confidence : String
  risk : String
  recommendation : String
deriving DecidableEq, Repr

/-- `ProgressEntry` in `update_dead_code_progress.py`. -/
structure ProgressEntry where
  id : String
  category : String
  remove : String
  notes : String
deriving DecidableEq, Repr

/-- The saved entry read out of one block by `_parse_progress` (skipping
blocks without an `ID`; the dict key is the stripped id). -/
def deadEntryOf (block : List String) : Option (String × ProgressEntry) :=
  let entry_id := pick block "ID"
  if entry_id == "" then none
  else some (pyStrip entry_id,
             { id := pyStrip entry_id
               category := pyStrip (pick block "Category")
               remove := pyStrip (pick block "Remove?")
               notes := pyRstrip (pick block "Notes") })

/-- `_parse_progress`: insertion-ordered bindings of the saved-entry dict
(later blocks with the same ID overwrite earlier ones; see `lastLookup`). -/
def parse_progress_entries (lines : List String) : List (String × ProgressEntry) :=
  (splitBlocks lines).filterMap deadEntryOf

/-- The three audit lists read by `_iter_items`. -/
structure DeadAudit where
  safe_removal_candidates : List DeadItem
  needs_manual_confirmation : List DeadItem
  dependency_findings : List DeadItem
deriving DecidableEq, Repr

/-- `_iter_items`: the audit items with their category titles, in file
order. -/
def iter_items (p : DeadAudit) : List (String × DeadItem) :=
  p.safe_removal_candidates.map (fun i => ("Safe removal (high confidence)", i)) ++
  p.needs_manual_confirmation.map (fun i => ("Needs manual confirmation", i)) ++
  p.dependency_findings.map (fun i => ("Dependency findings", i))

/-- `_join_evidence` for a list-valued `evidence` field. -/
def join_evidence (ev : List String) : String :=
  if ev.isEmpty then "" else normWs (String.intercalate "; " ev)

/-- The `HEADER` literal of `update_dead_code_progress.py` (the source file
contains the mojibake bytes `â€”` verbatim). -/
def HEADER_DEAD : String :=
  "# Dead Code Progress â€” User Selection\n\nHow to use:\n1) Mark `x` in the `Remove?` column for items you approve to delete.\n2) Add context in `Notes` if needed (e.g., \"external API - do not remove\").\n3) Then ask Codex:\n   - $dead-code-audit apply from progress\n\nTable columns:\n- `Remove?`: put `x` to approve removal\n- `Notes`: free text\n"

/-- The field lines of one regenerated dead-code block (between its `---`
markers): `_format_block` applied exactly as `main` calls it. -/
def deadBlockBody (category : String) (t : DeadItem) (remove notes : String) :
    List String :=
  let item_id := pyStrip t.id
  let name := pyStrip t.name
  let why0 := pyStrip t.why
  let why := if why0 == "" then
      "Unreferenced in repo roots (per audit evidence); verify dynamic usage."
    else why0
  ["ID: " ++ item_id,
   "Category: " ++ category,
   "Remove?: " ++ remove,
   "Item: " ++ normWs (if name == "" then item_id else name),
   "Type: " ++ normWs (pyStrip t.type),
   "Location: " ++ normWs (pyStrip t.path),
   "Why it looks dead: " ++ normWs why,
   "Evidence (commands + results snippets): " ++ normWs (join_evidence t.evidence),
   "Confidence (0-1): " ++ normWs (pyStrip t.confidence),
   "Risk (L/M/H): " ++ normWs (pyStrip t.risk),
   "Recommendation: " ++ normWs (pyStrip t.recommendation),
   pyRstrip ("Notes: " ++ notes)]

/-- The whole `---`-delimited block emitted for one dead-code item. -/
def deadBlock (category : String) (t : DeadItem) (remove notes : String) :
    List String :=
  "---" :: deadBlockBody category t remove notes ++ ["---", ""]

/-- The entry carried forward for a dead-code item (empty flag and notes
when its stripped id was not seen before). -/
def deadEntryFor (saved : List (String × ProgressEntry)) (t : DeadItem) :
    ProgressEntry :=
  match lastLookup saved (pyStrip t.id) with
  | some e => e
  | none => { id := pyStrip t.id, category := "", remove := "", notes := "" }

/-- The generator loop of `update_dead_code_progress.py` `main`: one block
per audit item, raising (before any output is produced) on an item whose
stripped id is empty. -/
def deadBlocksFor (saved : List (String × ProgressEntry)) :
    List (String × DeadItem) → Except String (List String)
  | [] => .ok []
  | (category, t) :: ts =>
    if pyStrip t.id == "" then
      .error ("Missing id for item in category " ++ category ++
        ". Regenerate docs/audit/dead_code_audit.json with stable IDs.")
    else
      let e := deadEntryFor saved t
      (deadBlocksFor saved ts).map fun rest =>
        deadBlock category t e.remove e.notes ++ rest

/-- The saved entries at the start of a run: empty when the progress file
does not exist, else parsed from its text. -/
def deadSavedOf (existing : Option String) : List (String × ProgressEntry) :=
  match existing with
  | none => []
  | some text => parse_progress_entries (pySplitlines text)

/-- `update_dead_code_progress.py` `main` on parsed inputs. -/
def update_dead_code_progress (payload : DeadAudit) (existing : Option String) :
    Except String String :=
  (deadBlocksFor (deadSavedOf existing) (iter_items payload)).map fun flat =>
    ledgerText HEADER_DEAD flat

/-- The progress file on disk after a run of `update_dead_code_progress.py`. -/
def dead_progress_on_disk (payload : DeadAudit) (disk : Option String) :
    Option String :=
  match update_dead_code_progress payload disk with
  | .error _ => disk
  | .ok text => some text

/-!
## `pathlib.PurePosixPath` model

`apply_tests_from_progress.py` and `generate_repo_codebook.py` go through
`pathlib.Path` for their path strings.  A POSIX path is parsed into an
optional root (`/`, or the special double-slash root `//`) and its segments,
dropping empty and `.` segments (`..` segments are kept, exactly as
`pathlib` keeps them without resolving).
-/

/-- Split a character list at every occurrence of a separator character
(`str.split(sep)` semantics: empty segments are kept). -/
def splitOnChar (sep : Char) : List Char → List (List Char)
  | [] => [[]]
  | c :: cs =>
    let r := splitOnChar sep cs
    if c == sep then [] :: r
    else
      match r with
      | [] => [[c]]
      | seg :: rest => (c :: seg) :: rest

/-- `str.startswith`. -/
def strStartsWith (s pre : String) : Bool := (dropPrefixL pre.data s.data).isSome

/-- The root of a POSIX path as `pathlib` reports it: `//` for exactly two
leading slashes, `/` for one or for three and more, empty for a relative
path. -/
def pathRoot (s : String) : String :=
  if strStartsWith s "//" && !strStartsWith s "///" then "//"
  else if strStartsWith s "/" then "/"
  else ""

/-- The non-root segments of a POSIX path: split at `/`, dropping empty and
`.` segments. -/
def pathSegs (s : String) : List String :=
  (splitOnChar '/' s.data).filterMap fun seg =>
    if seg.isEmpty || seg == ['.'] then none else some ⟨seg⟩

/-- `PurePosixPath(s).parts`: the root (when any) followed by the segments. -/
def pathPartsFull (s : String) : List String :=
  let root := pathRoot s
  if root == "" then pathSegs s else root :: pathSegs s

/-- `PurePosixPath(s).as_posix()`. -/
def pathAsPosix (s : String) : String :=
  let root := pathRoot s
  let rel := String.intercalate "/" (pathSegs s)
  if root == "" then (if rel == "" then "." else rel)
  else root ++ rel

/-!
## `apply_tests_from_progress.py`
-/

/-- One element of `proposed_tests` as the apply script reads it. -/
structure ProposedTest where
  id : String
  file_path : String
  content : String
deriving DecidableEq, Repr

/-- `_parse_progress` of the apply script: insertion-ordered `ID` to
`Create?`-flag bindings (later blocks with the same ID overwrite earlier
ones via `lastLookup`). -/
def parse_progress_flags (lines : List String) : List (String × String) :=
  (splitBlocks lines).filterMap fun block =>
    let tid := pyStrip (pick block "ID")
    if tid == "" then none
    else some (tid, pyStrip (pick block "Create?"))

/-- `str.lower()` (characterwise; the script only compares the result with
the ASCII literal `"x"`). -/
def pyLower (s : String) : String := ⟨s.data.map Char.toLower⟩

/-- Membership of an id in `approved_ids`: its (last-bound) flag lowercases
to `x`. -/
def isApproved (selections : List (String × String)) (tid : String) : Bool :=
  match lastLookup selections tid with
  | some flag => pyLower flag == "x"
  | none => false

/-- The outcome of a run of the apply script: the test files written (in
order, with their contents), the error raised (if any), the ids marked
created, and whether the updated audit JSON was persisted (the JSON write is
the last statement of `main`, so it does not happen when the loop raises). -/
structure ApplyOutcome where
  writes : List (String × String)
  error : Option String
  created_ids : List String
  audit_saved : Bool
deriving DecidableEq, Repr

/-- The write loop of the apply script `main`: skip unapproved items; for an
approved item, refuse (raising, with all earlier writes already on disk)
unless the posix form of its stripped `file_path` starts with `tests/`;
otherwise write `content.rstrip() + "\n"` there. -/
def applyLoop (selections : List (String × String)) :
    List ProposedTest → List (String × String) × List String × Option String
  | [] => ([], [], none)
  | t :: ts =>
    let tid := pyStrip t.id
    if isApproved selections tid then
      let fp := pathAsPosix (pyStrip t.file_path)
      if strStartsWith fp "tests/" then
        let r := applyLoop selections ts
        ((fp, pyRstrip t.content ++ "\n") :: r.1, tid :: r.2.1, r.2.2)
      else ([], [], some ("Refusing to write outside tests/: " ++ fp))
    else applyLoop selections ts

/-- `apply_tests_from_progress.py` `main` on parsed inputs. -/
def apply_tests_from_progress (proposed : List ProposedTest)
    (progressText : String) : ApplyOutcome :=
  let selections := parse_progress_flags (pySplitlines progressText)
  let r := applyLoop selections proposed
  { writes := r.1, error := r.2.2, created_ids := r.2.1,
    audit_saved := r.2.2.isNone }

/-!
## `generate_repo_codebook.py`: semantic versioning
-/

/-- Numeric value of a (nonempty) ASCII digit run, as Python `int()` reads a
regex group such as `"03"`. -/
def digitsToNat (ds : List Char) : Nat :=
  ds.foldl (fun n c => 10 * n + (c.toNat - 48)) 0

/-- The Unicode decimal-digit set matched by `\d` in Python `re` patterns
over `str` (the characters for which `str.isdecimal()` holds), as the list
of its codepoint ranges; each range starts at a digit of decimal value `0`
and the values ascend cyclically, so a digit's decimal value is its offset
into its range modulo 10. -/
def pyDigitRanges : List (Nat × Nat) :=
  [(0x30, 0x39), (0x660, 0x669), (0x6f0, 0x6f9), (0x7c0, 0x7c9),
   (0x966, 0x96f), (0x9e6, 0x9ef), (0xa66, 0xa6f), (0xae6, 0xaef),
   (0xb66, 0xb6f), (0xbe6, 0xbef), (0xc66, 0xc6f), (0xce6, 0xcef),
   (0xd66, 0xd6f), (0xde6, 0xdef), (0xe50, 0xe59), (0xed0, 0xed9),
   (0xf20, 0xf29), (0x1040, 0x1049), (0x1090, 0x1099), (0x17e0, 0x17e9),
   (0x1810, 0x1819), (0x1946, 0x194f), (0x19d0, 0x19d9), (0x1a80, 0x1a89),
   (0x1a90, 0x1a99), (0x1b50, 0x1b59), (0x1bb0, 0x1bb9), (0x1c40, 0x1c49),
   (0x1c50, 0x1c59), (0xa620, 0xa629), (0xa8d0, 0xa8d9), (0xa900, 0xa909),
   (0xa9d0, 0xa9d9), (0xa9f0, 0xa9f9), (0xaa50, 0xaa59), (0xabf0, 0xabf9),
   (0xff10, 0xff19), (0x104a0, 0x104a9), (0x10d30, 0x10d39),
   (0x11066, 0x1106f), (0x110f0, 0x110f9), (0x11136, 0x1113f),
   (0x111d0, 0x111d9), (0x112f0, 0x112f9), (0x11450, 0x11459),
   (0x114d0, 0x114d9), (0x11650, 0x11659), (0x116c0, 0x116c9),
   (0x11730, 0x11739), (0x118e0, 0x118e9), (0x11950, 0x11959),
   (0x11c50, 0x11c59), (0x11d50, 0x11d59), (0x11da0, 0x11da9),
   (0x16a60, 0x16a69), (0x16ac0, 0x16ac9), (0x16b50, 0x16b59),
   (0x1d7ce, 0x1d7ff), (0x1e140, 0x1e149), (0x1e2f0, 0x1e2f9),
   (0x1e950, 0x1e959), (0x1fbf0, 0x1fbf9)]

/-- Python regex `\d` over `str`: a Unicode decimal digit. -/
def pyDigit (c : Char) : Bool :=
  pyDigitRanges.any fun r => r.1 ≤ c.toNat && c.toNat ≤ r.2

/-- The decimal value of a Unicode decimal digit, as `int()` reads it. -/
def pyDigitVal (c : Char) : Nat :=
  match pyDigitRanges.find? (fun r => r.1 ≤ c.toNat && c.toNat ≤ r.2) with
  | some r => (c.toNat - r.1) % 10
  | none => 0

/-- Numeric value of a digit run, as Python `int()` reads a regex `\d+`
group (Unicode decimal digits allowed, leading zeros forgotten). -/
def digitsVal (ds : List Char) : Nat :=
  ds.foldl (fun n c => 10 * n + pyDigitVal c) 0

/-- Parse `(D+)\.(D+)\.(D+)` at the head of a character list for a digit
class `isD` with value function `val`, returning the three numeric groups
and the remainder.  Each `D+` is greedy; since the digit class never
contains `.`, the match is deterministic. -/
def parseDotted (isD : Char → Bool) (val : List Char → Nat) (cs : List Char) :
    Option ((Nat × Nat × Nat) × List Char) :=
  let d1 := cs.takeWhile isD
  let r1 := cs.dropWhile isD
  if d1.isEmpty then none else
  match r1 with
  | '.' :: r2 =>
    let d2 := r2.takeWhile isD
    let r3 := r2.dropWhile isD
    if d2.isEmpty then none else
    match r3 with
    | '.' :: r4 =>
      let d3 := r4.takeWhile isD
      let r5 := r4.dropWhile isD
      if d3.isEmpty then none
      else some ((val d1, val d2, val d3), r5)
    | _ => none
  | _ => none

/-- `_SEMVER_RE` (`^(\d+)\.(\d+)\.(\d+)$`, `re.match`) against a stripped
string: `\d` is the Unicode decimal-digit class, and `$` with no trailing
newline in the (stripped) input means the match must exhaust the string. -/
def parseSemver (s : String) : Option (Nat × Nat × Nat) :=
  match parseDotted pyDigit digitsVal s.data with
  | some (t, []) => some t
  | _ => none

/-- `f"{major}.{minor}.{patch}"`. -/
def fmtVer (M m p : Nat) : String :=
  toString M ++ "." ++ toString m ++ "." ++ toString p

/-- `_bump_patch_semver`: strip, match `MAJOR.MINOR.PATCH` (via `int()` on
the groups, so leading zeros are forgotten), bump `PATCH`; fall back to
`1.0.0` on no match. -/
def bump_patch_semver (ver : String) : String :=
  match parseSemver (pyStrip ver) with
  | none => "1.0.0"
  | some (M, m, p) => fmtVer M m (p + 1)

/-- `_VERSION_RE`
(`^- codebook_version:\s*([0-9]+)\.([0-9]+)\.([0-9]+)\s*$`, MULTILINE)
attempted at one candidate start position: the literal prefix, then `\s*`
(greedy, and free to cross newlines), then the dotted version with ASCII
digit groups, then `\s*$`.  With MULTILINE, `$` matches at the end of the
string or before a `\n`; since `\s*` may consume any prefix of the maximal
whitespace run that follows the last digit, the tail matches exactly when
that run contains a `\n` or extends to the end of the string.  All
quantifiers here are deterministic because the whitespace class, the digit
class, `.` and `\n`-anchoring positions are mutually exclusive. -/
def matchVersionAt (cs : List Char) : Option (Nat × Nat × Nat) :=
  match dropPrefixL "- codebook_version:".data cs with
  | none => none
  | some r =>
    match parseDotted Char.isDigit digitsToNat (r.dropWhile pyWs) with
    | some (t, rest) =>
      if (rest.takeWhile pyWs).contains '\n' || (rest.dropWhile pyWs).isEmpty
      then some t else none
    | none => none

/-- The candidate start positions of a MULTILINE `^` other than the start
of the string itself: the suffix after each `\n`, in order of position. -/
def versionCandidates : List Char → List (List Char)
  | [] => []
  | c :: cs =>
    if c == '\n' then cs :: versionCandidates cs else versionCandidates cs

/-- `_extract_codebook_version`: `re.search` scans candidate start
positions left to right (under MULTILINE `^`, the start of the string and
each position after a `\n`) and returns the first position where
`_VERSION_RE` matches; the three ASCII-digit groups are reported here as
their numeric values, which is what `_bump_patch_semver` reads back out of
the `f"{g1}.{g2}.{g3}"` string the Python function returns. -/
def extract_codebook_version (md : String) : Option (Nat × Nat × Nat) :=
  (md.data :: versionCandidates md.data).findSome? matchVersionAt

/-- `_next_codebook_version` given `cfg.codebook_version` and the text of
the existing artifact (`none` when `repo_codebook.md` does not exist; an
empty string is falsy in Python, hence also takes the no-artifact branch).
When the artifact has a version marker the regex groups are re-parsed by
`_bump_patch_semver`, which reads the same numbers. -/
def next_codebook_version (cfgVer : Option String) (existing_md : Option String) :
    String :=
  let fallback : String :=
    match cfgVer with
    | some v => if v == "" then "1.0.0" else bump_patch_semver v
    | none => "1.0.0"
  match existing_md with
  | some md =>
    if md == "" then fallback
    else
      match extract_codebook_version md with
      | some (M, m, p) => fmtVer M m (p + 1)
      | none => fallback
  | none => fallback

/-!
## `generate_repo_codebook.py`: exclusion rules
-/

/-- `_GLOB_META_CHARS`. -/
def GLOB_META : List Char := ['*', '?', '[']

/-- `_has_glob_meta`. -/
def hasGlobMeta (s : String) : Bool := s.data.any fun c => GLOB_META.contains c

/-- `_normalize_glob`: strip, then drop one leading `./`. -/
def normalizeGlob (s : String) : String :=
  let t := pyStrip s
  if strStartsWith t "./" then ⟨t.data.drop 2⟩ else t

/-- `str.endswith` for a literal suffix. -/
def strEndsWith (s suffix : String) : Bool :=
  (dropPrefixL suffix.data.reverse s.data.reverse).isSome

/-- `p[:-n]` for a string known to be at least `n` long. -/
def strDropEnd (s : String) (n : Nat) : String :=
  ⟨(s.data.reverse.drop n).reverse⟩

/-- `p.rstrip("/")`. -/
def rstripSlash (s : String) : String :=
  ⟨(s.data.reverse.dropWhile fun c => c == '/').reverse⟩

/-- `_expand_ignore_pattern`; the filesystem test
`(repo_root / p).exists() and (repo_root / p).is_dir()` is the parameter
`isDir`. -/
def expand_ignore_pattern (isDir : String → Bool) (pat : String) : List String :=
  let p := normalizeGlob pat
  if p == "" then []
  else if strEndsWith p "/**" then
    let base := rstripSlash (strDropEnd p 3)
    if base == "" then [p] else [base, p]
  else if strEndsWith p "/*" then
    let base := rstripSlash (strDropEnd p 2)
    if base == "" then [p] else [base, p]
  else if strEndsWith p "/" then
    let base := rstripSlash p
    if base == "" then [] else [base, base ++ "/**"]
  else if !hasGlobMeta p && isDir p then
    let base := rstripSlash p
    if base == "" then [p] else [base, base ++ "/**"]
  else [p]

/-- `BUILTIN_EXCLUDE_GLOBS` (a Python set; modelled as a list, membership
being all that is consumed). -/
def BUILTIN_EXCLUDE_GLOBS : List String :=
  ["*.pyc", "*.egg-info", ".env", ".env.*", ".coverage", "uv.lock",
   ".python-version", ".dockerignore", ".gitignore", "docs/artifacts/*",
   "docs/artifacts/repo_codebook.md", "docs/artifacts/repo_codebook.config.json"]

/-- `BUILTIN_EXCLUDE_COMPONENTS`. -/
def BUILTIN_EXCLUDE_COMPONENTS : List String :=
  [".git", "__pycache__", ".venv", ".mypy_cache", ".ruff_cache",
   ".pytest_cache", "htmlcov", "tests"]

/-- `_merge_exclude_globs` applied to `cfg.ignore_globs_extra`. -/
def merge_exclude_globs (isDir : String → Bool) (ignore_extra : List String) :
    List String :=
  BUILTIN_EXCLUDE_GLOBS ++ ignore_extra.flatMap fun raw =>
    let r := pyStrip raw
    if r == "" then []
    else (expand_ignore_pattern isDir r).filter fun e => e ≠ ""

/-- Scan a bracket-class body up to its closing `]`, returning the class
characters and the remainder after the `]`. -/
def splitAtClose : List Char → Option (List Char × List Char)
  | [] => none
  | c :: t =>
    if c == ']' then some ([], t)
    else (splitAtClose t).map fun r => (c :: r.1, r.2)

/-- Bound used by the `fnmatch` recursion: a successful `splitAtClose`
consumes at least the closing bracket. -/
def splitAtClose_length : ∀ (cs cls rest : List Char),
    splitAtClose cs = some (cls, rest) → rest.length < cs.length := by
  intro cs
  induction cs with
  | nil => intro cls rest h; simp [splitAtClose] at h
  | cons c t ih =>
    intro cls rest h
    rw [splitAtClose] at h
    by_cases hc : c == ']'
    · rw [if_pos hc] at h
      injection h with h2
      injection h2 with _ h3
      subst h3
      simp
    · rw [if_neg hc] at h
      cases hsp : splitAtClose t with
      | none => rw [hsp] at h; simp at h
      | some r =>
        rw [hsp] at h
        simp only [Option.map_some'] at h
        injection h with h2
        have h3 : rest = r.2 := (congrArg Prod.snd h2).symm
        subst h3
        exact Nat.lt_succ_of_lt (ih r.1 r.2 hsp)

/-- Class body after the optional negation marker: a `]` in first position
is a literal member; the body runs to the next `]`. -/
def parseBracketBody (cs : List Char) : Option (List Char × List Char) :=
  match cs with
  | [] => none
  | c :: t =>
    if c == ']' then (splitAtClose t).map fun r => (']' :: r.1, r.2)
    else splitAtClose (c :: t)

/-- Bound used by the `fnmatch` recursion. -/
def parseBracketBody_length : ∀ (cs cls rest : List Char),
    parseBracketBody cs = some (cls, rest) → rest.length < cs.length := by
  intro cs cls rest h
  match cs, h with
  | c :: t, h =>
    rw [parseBracketBody] at h
    by_cases hc : c == ']'
    · rw [if_pos hc] at h
      cases hsp : splitAtClose t with
      | none => rw [hsp] at h; simp at h
      | some r =>
        rw [hsp] at h
        simp only [Option.map_some'] at h
        injection h with h2
        have h3 : rest = r.2 := (congrArg Prod.snd h2).symm
        subst h3
        exact Nat.lt_succ_of_lt (splitAtClose_length t r.1 r.2 hsp)
    · rw [if_neg hc] at h
      exact splitAtClose_length _ _ _ h

/-- Parse the class part of a `[...]` glob after the opening bracket
(`fnmatch.translate` rules: a leading `!` negates, a `]` directly after
that is a literal member, an unterminated class fails and the bracket is
then treated as a literal character). -/
def parseBracket (cs : List Char) : Option (Bool × List Char × List Char) :=
  match cs with
  | [] => none
  | c :: t =>
    if c == '!' then (parseBracketBody t).map fun r => (true, r.1, r.2)
    else (parseBracketBody (c :: t)).map fun r => (false, r.1, r.2)

/-- Bound used by the `fnmatch` recursion. -/
def parseBracket_length : ∀ (cs : List Char) (neg : Bool) (cls rest : List Char),
    parseBracket cs = some (neg, cls, rest) → rest.length < cs.length := by
  intro cs neg cls rest h
  match cs, h with
  | c :: t, h =>
    rw [parseBracket] at h
    by_cases hc : c == '!'
    · rw [if_pos hc] at h
      cases hb : parseBracketBody t with
      | none => rw [hb] at h; simp at h
      | some r =>
        rw [hb] at h
        simp only [Option.map_some'] at h
        injection h with h2
        have h3 : rest = r.2 := (congrArg (fun x => x.2.2) h2).symm
        subst h3
        exact Nat.lt_succ_of_lt (parseBracketBody_length t r.1 r.2 hb)
    · rw [if_neg hc] at h
      cases hb : parseBracketBody (c :: t) with
      | none => rw [hb] at h; simp at h
      | some r =>
        rw [hb] at h
        simp only [Option.map_some'] at h
        injection h with h2
        have h3 : rest = r.2 := (congrArg (fun x => x.2.2) h2).symm
        subst h3
        exact parseBracketBody_length _ _ _ hb

/-- Membership of a character in a bracket class (with `a-b` ranges; a `-`
at either end is a literal). -/
def classMatch : List Char → Char → Bool
  | [], _ => false
  | a :: '-' :: b :: rest, c =>
    (a.toNat ≤ c.toNat && c.toNat ≤ b.toNat) || classMatch rest c
  | a :: rest, c => a == c || classMatch rest c

/-- Fuel-driven worker for `fnmatch.fnmatchcase` on character lists: `*`
matches any sequence including `/`, `?` any single character, `[...]` a
class (an unclosed `[` matches itself literally); the translated regex is
anchored at both ends.  Every recursive call strictly decreases the summed
length of the pattern and the string (the bracket case via
`parseBracket_length`), so with fuel exceeding that sum the `0` case is
never reached. -/
def globFuel : Nat → List Char → List Char → Bool
  | 0, _, _ => false
  | n + 1, ps, s =>
    match ps with
    | [] => s.isEmpty
    | p :: pr =>
      if p == '*' then
        globFuel n pr s ||
          (match s with
           | [] => false
           | _ :: s2 => globFuel n ps s2)
      else if p == '?' then
        match s with
        | [] => false
        | _ :: s2 => globFuel n pr s2
      else if p == '[' then
        match parseBracket pr with
        | none =>
          match s with
          | [] => false
          | c :: s2 => if c == '[' then globFuel n pr s2 else false
        | some (neg, cls, rest) =>
          match s with
          | [] => false
          | c :: s2 => (neg != classMatch cls c) && globFuel n rest s2
      else
        match s with
        | [] => false
        | c :: s2 => p == c && globFuel n pr s2

/-- `fnmatch.fnmatchcase` on character lists, at sufficient fuel. -/
def globMatchL (ps s : List Char) : Bool :=
  globFuel (ps.length + s.length + 1) ps s

/-- `fnmatch.fnmatch(name, pat)` for strings. -/
def globMatch (pat name : String) : Bool := globMatchL pat.data name.data

/-- `_should_exclude`. -/
def should_exclude (rel : String) (exclude_globs : List String) : Bool :=
  (pathPartsFull rel).take 2 == ["docs", "artifacts"] ||
  (pathPartsFull rel).any (fun part => BUILTIN_EXCLUDE_COMPONENTS.contains part) ||
  exclude_globs.any fun pat => globMatch pat (pathAsPosix rel)

/-!
## `generate_repo_codebook.py`: configuration store
-/

/-- JSON values (as delivered by `json.loads`). -/
inductive Json where
  | null
  | bool (b : Bool)
  | num (n : Int)
  | str (s : String)
  | arr (xs : List Json)
  | obj (fields : List (String × Json))

/-- `dict.get(key, default)` on a parsed JSON object (`json.loads` keeps the
last of duplicate keys). -/
def jsonGetD (fields : List (String × Json)) (k : String) (d : Json) : Json :=
  (lastLookup fields k).getD d

/-- Python `int(value)` on a JSON value (booleans are 0/1; numeric strings
are parsed after stripping whitespace; anything else raises). -/
def pyIntOf : Json → Except String Int
  | .num n => .ok n
  | .bool b => .ok (if b then 1 else 0)
  | .str s =>
    let t := (pyStrip s).data
    let (sign, ds) : Int × List Char :=
      match t with
      | '+' :: r => (1, r)
      | '-' :: r => (-1, r)
      | r => (1, r)
    if ds.isEmpty || !ds.all Char.isDigit then .error "invalid literal for int"
    else .ok (sign * Int.ofNat (digitsToNat ds))
  | _ => .error "int() argument must be a string or a number"

/-- Python truthiness of a JSON value (`bool(value)`). -/
def pyTruthy : Json → Bool
  | .null => false
  | .bool b => b
  | .num n => n != 0
  | .str s => !s.isEmpty
  | .arr xs => !xs.isEmpty
  | .obj fs => !fs.isEmpty

/-- Python `list(value)` narrowed to the string lists the config stores: a
JSON array of strings (a string iterates to its characters, an object to its
keys; a non-string array member would only blow up later inside
`_merge_exclude_globs`, modelled as an error here). -/
def pyListOfStrings : Json → Except String (List String)
  | .arr xs =>
    xs.foldr
      (fun x acc =>
        match x, acc with
        | .str s, .ok l => .ok (s :: l)
        | _, .ok _ => .error "non-string ignore entry"
        | _, e => e)
      (.ok [])
  | .str s => .ok (s.data.map fun c => ⟨[c]⟩)
  | .obj fs => .ok (fs.map Prod.fst)
  | _ => .error "value is not iterable"

/-- A JSON value read into an optional-string field (`notes`,
`codebook_version`); Python stores whatever object is present, but only
`None` and strings ever flow through the scripts, so others are modelled as
an error. -/
def pyOptStr : Json → Except String (Option String)
  | .null => .ok none
  | .str s => .ok (some s)
  | _ => .error "expected a string or null"

/-- `DEFAULT_MAX_TEXT_FILE_BYTES = 512 * 1024`. -/
def DEFAULT_MAX_TEXT_FILE_BYTES : Int := 512 * 1024

/-- `CodebookConfig`. -/
structure CodebookConfig where
  version : Int
  ignore_globs_extra : List String
  skip_empty_files : Bool
  max_text_file_bytes : Int
  notes : Option String := none
  codebook_version : Option String := none
deriving DecidableEq, Repr

/-- `CodebookConfig.default()`. -/
def CodebookConfig.default : CodebookConfig :=
  { version := 1
    ignore_globs_extra := []
    skip_empty_files := true
    max_text_file_bytes := DEFAULT_MAX_TEXT_FILE_BYTES
    notes := some "Add patterns under ignore_globs_extra to exclude more paths."
    codebook_version := none }

/-- The JSON document `_save_config` writes for a config. -/
def cfgToJson (cfg : CodebookConfig) : Json :=
  .obj
    [("version", .num cfg.version),
     ("codebook_version",
       match cfg.codebook_version with
       | none => .null
       | some v => .str v),
     ("ignore_globs_extra", .arr (cfg.ignore_globs_extra.map .str)),
     ("skip_empty_files", .bool cfg.skip_empty_files),
     ("max_text_file_bytes", .num cfg.max_text_file_bytes),
     ("notes",
       match cfg.notes with
       | none => .null
       | some n => .str n)]

/-- The `CodebookConfig(...)` construction at the end of `_load_config`,
applied to parsed JSON `data` (raising — uncaught — when a field has an
unusable type). -/
def cfgOfJson : Json → Except String CodebookConfig
  | .obj fields => do
    let v ← pyIntOf (jsonGetD fields "version" (.num 1))
    let ig ← pyListOfStrings (jsonGetD fields "ignore_globs_extra" (.arr []))
    let se := pyTruthy (jsonGetD fields "skip_empty_files" (.bool true))
    let mx ← pyIntOf
      (jsonGetD fields "max_text_file_bytes" (.num DEFAULT_MAX_TEXT_FILE_BYTES))
    let nt ← pyOptStr (jsonGetD fields "notes" .null)
    let cv ← pyOptStr (jsonGetD fields "codebook_version" .null)
    .ok { version := v, ignore_globs_extra := ig, skip_empty_files := se,
          max_text_file_bytes := mx, notes := nt, codebook_version := cv }
  | _ => .error "config JSON is not an object"

/-- The state of a JSON file on disk as far as `_load_config` can observe
it: its bytes either parse to a JSON document or fail to parse. -/
inductive JsonDoc where
  | parsed (j : Json)
  | unparseable

/-- `_load_config` (with `_bootstrap_config_from_template`): `template` is
the state of the skill's `repo_codebook.config.json.tmpl` (`none` when
absent), `file` the state of the repo's config file.  Returns the loaded
config together with the config file's content (as parsed JSON) after the
call; `.error` models the uncaught exception when a PARSED config carries
unusable field types. -/
def load_config (template : Option JsonDoc) (file : Option JsonDoc) :
    Except String (CodebookConfig × Option Json) :=
  match file with
  | none =>
    match template with
    | some (.parsed j) => (cfgOfJson j).map fun c => (c, some j)
    | _ => .ok (CodebookConfig.default, some (cfgToJson CodebookConfig.default))
  | some .unparseable =>
    .ok (CodebookConfig.default, some (cfgToJson CodebookConfig.default))
  | some (.parsed j) => (cfgOfJson j).map fun c => (c, some j)

/-- Modelled from the spec: the skill's config template
`assets/templates/repo_codebook.config.json.tmpl` is part of this
repository but not under `src/`.  Per the spec (§3, §7(b)) the persisted
config document carries the documented default field values, so the
template is modelled as the serialization of `CodebookConfig.default`. -/
def specConfigTemplate : Json := cfgToJson CodebookConfig.default

/-!
## `generate_repo_codebook.py`: enumeration and rendering
-/

/-- `ln.lstrip("./")`: strip ALL leading `.` and `/` characters. -/
def lstripDotSlash (s : String) : String :=
  ⟨s.data.dropWhile fun c => c == '.' || c == '/'⟩

/-- Keep-first deduplication (the membership content of Python `set`). -/
def dedupGo (seen : List String) : List String → List String
  | [] => []
  | x :: xs =>
    if seen.contains x then dedupGo seen xs
    else x :: dedupGo (x :: seen) xs

/-- `sorted(set(lines))`. -/
def sortedSet (ls : List String) : List String :=
  (dedupGo [] ls).insertionSort fun a b => !(compare a b == Ordering.gt)

/-- The `find`-based branch of `_find_output` (the fallback tree rendering),
up to the final string join: the kept lines, given the raw output of
`find . -print`. -/
def find_output_list (rawFind : String) (exclude_globs : List String) :
    List String :=
  sortedSet ("./" ::
    (pySplitlines rawFind).filterMap fun ln0 =>
      let ln := pyStrip ln0
      if ln == "" || ln == "." then none
      else
        let rel := lstripDotSlash ln
        if should_exclude rel exclude_globs then none
        else some ("./" ++ rel))

/-- `_find_output`: the joined fallback tree text. -/
def find_output (rawFind : String) (exclude_globs : List String) : String :=
  joinLines (find_output_list rawFind exclude_globs)

/-- `_file_list`: the kept relative paths, given the raw output of
`git ls-files -co --exclude-standard` and the filesystem predicates for
`(repo_root / rel).exists()` and `.is_dir()`. -/
def file_list (rawGit : String) (existsF isDirF : String → Bool)
    (exclude_globs : List String) : List String :=
  (((pySplitlines rawGit).filter fun p => !((pyStrip p) == "")).filter
      fun rel =>
        !(should_exclude rel exclude_globs) && existsF rel && !(isDirF rel))
    |>.insertionSort fun a b =>
        !(compare (pathAsPosix a) (pathAsPosix b) == Ordering.gt)

/-- Fuel-driven worker for Python `str.replace` with a nonempty pattern
`p :: ps`: scan left to right, replacing each occurrence (non-overlapping,
leftmost first).  The fuel bounds the scanned length; every recursive call
shrinks both the fuel and the remaining input, so with the input length as
the initial fuel the `0` case is never reached. -/
def replaceFuel (p : Char) (ps rep : List Char) : Nat → List Char → List Char
  | _, [] => []
  | 0, s => s
  | n + 1, c :: cs =>
    if c == p then
      match dropPrefixL ps cs with
      | some rest => rep ++ replaceFuel p ps rep n rest
      | none => c :: replaceFuel p ps rep n cs
    else c :: replaceFuel p ps rep n cs

/-- Python `str.replace(pat, rep)`.  The scripts only ever call it with
nonempty literal patterns; an empty pattern is returned unchanged. -/
def pyReplace (s pat rep : String) : String :=
  match pat.data with
  | [] => s
  | p :: ps => ⟨replaceFuel p ps rep.data s.data.length s.data⟩

/-- The placeholder substitution chain of `generate_repo_codebook.py`
`main`, followed by the `out + "\n"` write. -/
def render_codebook (tmpl name bullets version tree descr code : String) :
    String :=
  pyReplace (pyReplace (pyReplace (pyReplace (pyReplace (pyReplace
    tmpl "__PROJECT_NAME__" name)
    "__PROJECT_DESCRIPTION_BULLETS__" bullets)
    "__CODEBOOK_VERSION__" version)
    "__TREE_OUTPUT__" tree)
    "__FILE_DESCRIPTIONS__" descr)
    "__FILE_CODE_BLOCKS__" code ++ "\n"

/-- One regeneration of the codebook artifact, as a function of the
template, the persisted `cfg.codebook_version`, the previous artifact text
(`none` when absent) and the computed page contents. -/
def generate_codebook (tmpl : String) (cfgVer : Option String)
    (existing_md : Option String) (name bullets tree descr code : String) :
    String :=
  render_codebook tmpl name bullets (next_codebook_version cfgVer existing_md)
    tree descr code

/-- Modelled from the spec: the template file
`assets/templates/repo_codebook.md.tmpl` is part of this repository but not
under `src/`.  Per the spec the generated artifact carries a
`- codebook_version: MAJOR.MINOR.PATCH` marker line (spec §4.4 versioning
algorithm, §8 version monotonicity), rendered through the
`__CODEBOOK_VERSION__` placeholder; this minimal template captures exactly
that marker plus the other placeholders. -/
def specCodebookTemplate : String :=
  "# Repo Codebook: __PROJECT_NAME__\n__PROJECT_DESCRIPTION_BULLETS__\n- codebook_version: __CODEBOOK_VERSION__\n\n__TREE_OUTPUT__\n\n__FILE_DESCRIPTIONS__\n\n__FILE_CODE_BLOCKS__\n"

/-!
## Scaffolders (`scaffold_fastapi_uv.py`, `scaffold_ralph_codex.py`)
-/

/-- A filesystem restricted to file contents: newest binding first. -/
abbrev FS := List (String × String)

/-- Content of a file, when present. -/
def fsGet (fs : FS) (p : String) : Option String :=
  (fs.find? fun e => e.1 == p).map Prod.snd

/-- File existence. -/
def fsHas (fs : FS) (p : String) : Bool := (fsGet fs p).isSome

/-- Overwrite/create a file. -/
def fsSet (fs : FS) (p c : String) : FS := (p, c) :: fs

/-- The two write primitives shared by the scaffolders: `_write_file` /
`_write_text` (skip when the destination exists and overwrite is off), and
`_touch_init` (write an empty `__init__.py` only when missing, regardless
of the overwrite flag). -/
inductive ScaffoldOp where
  | write (path content : String)
  | touchInit (dir : String)
deriving DecidableEq, Repr

/-- The destination path of an operation. -/
def opTarget : ScaffoldOp → String
  | .write p _ => p
  | .touchInit d => d ++ "/__init__.py"

/-- Execute one scaffold operation against the filesystem. -/
def applyOp (overwrite : Bool) (fs : FS) : ScaffoldOp → FS
  | .write p c => if fsHas fs p && !overwrite then fs else fsSet fs p c
  | .touchInit d =>
    let p := d ++ "/__init__.py"
    if fsHas fs p then fs else fsSet fs p ""

/-- A whole scaffolder run: the operations in program order. -/
def runScaffold (overwrite : Bool) (ops : List ScaffoldOp) (fs : FS) : FS :=
  ops.foldl (applyOp overwrite) fs

/-- Whether some `write` operation targets the path (its final content is
then determined by the templates alone when overwrite is on). -/
def writesPath (ops : List ScaffoldOp) (p : String) : Bool :=
  ops.any fun op =>
    match op with
    | .write q _ => q == p
    | .touchInit _ => false

/-- `_apply_replacements`: literal placeholder substitution in template
content, in dict order. -/
def apply_replacements (content : String) (repl : List (String × String)) :
    String :=
  repl.foldl (fun c kv => pyReplace c kv.1 kv.2) content

/-- The operation sequence of `scaffold_fastapi_uv.py` `scaffold` (paths
relative to the resolved project directory; `tmpl` maps a template file
name under `assets/templates/` — files of this repository outside `src/` —
to its content). -/
def scaffold_fastapi_ops (tmpl : String → String)
    (service_name app_title python_version : String) : List ScaffoldOp :=
  let repl := [("__SERVICE_NAME__", service_name),
               ("__APP_TITLE__", app_title),
               ("__PYTHON_VERSION__", python_version)]
  let w : String → String → ScaffoldOp := fun dest name =>
    .write dest (apply_replacements (tmpl name) repl)
  [w "pyproject.toml" "pyproject.toml.tmpl",
   w ".python-version" "python-version.tmpl",
   w "Dockerfile" "Dockerfile.tmpl",
   w "README.md" "README.md.tmpl",
   w ".env.example" "env.example.tmpl",
   .touchInit "src",
   .touchInit "src/core",
   .touchInit "src/api",
   .touchInit "src/api/v1",
   .touchInit "src/api/v1/endpoints",
   .touchInit "src/api/v2",
   .touchInit "src/schemas",
   .touchInit "src/services",
   .touchInit "src/services/clients",
   .touchInit "src/utils",
   w "src/main.py" "src_main.py.tmpl",
   w "src/core/config.py" "src_core_config.py.tmpl",
   w "src/core/log_config.py" "src_core_log_config.py.tmpl",
   w "src/core/logger_func.py" "src_core_logger_func.py.tmpl",
   w "src/core/errors.py" "src_core_errors.py.tmpl",
   w "src/api/deps.py" "src_api_deps.py.tmpl",
   w "src/api/v1/router.py" "src_api_v1_router.py.tmpl",
   w "src/api/v1/endpoints/health.py" "src_api_v1_health.py.tmpl",
   w "src/services/clients/httpx_client.py" "src_services_clients_httpx.py.tmpl",
   .touchInit "tests",
   w "tests/test_health.py" "tests_test_health.py.tmpl"]

/-- The operation sequence of `scaffold_ralph_codex.py` `main` (paths
relative to the resolved repo root; `started_at` is the
`datetime.now().isoformat(timespec="seconds")` value substituted into the
progress template — an input of the run in this embedding). -/
def scaffold_ralph_ops (tmpl : String → String) (started_at : String) :
    List ScaffoldOp :=
  [.write "ralph.sh" (tmpl "ralph.sh.tmpl"),
   .write "prompt.md" (tmpl "prompt.md.tmpl"),
   .write "CODEX.md" (tmpl "CODEX.md.tmpl"),
   .write "AGENTS.md" (tmpl "AGENTS.md.tmpl"),
   .write "progress.txt"
     (pyReplace (tmpl "progress.txt.tmpl") "\x7b\x7bSTARTED_AT\x7d\x7d" started_at),
   .write "prd.json.example" (tmpl "prd.json.example.tmpl"),
   .write ".codex/rules/ralph.rules" (tmpl "ralph.rules.tmpl")]

/-!
## Remaining proof-support definitions
-/

/-- The effect of `"\n".join(lines).rstrip()` at the level of the line
list: drop trailing all-whitespace lines, and rstrip the last survivor. -/
def rstripJoinedLines (ls : List String) : List String :=
  match ls.reverse.dropWhile allWsLine with
  | [] => []
  | l :: rest => ((pyRstrip l) :: rest).reverse

/-- The `---`-delimited blocks of a ledger text that carry an `ID:` field,
by their (stripped) ID values, in file order. -/
def ledgerIdBlocks (text : String) : List String :=
  (splitBlocks (pySplitlines text)).filterMap fun b =>
    let i := pyStrip (pick b "ID")
    if i == "" then none else some i

/-- The lines of `HEADER.rstrip()` in `update_tests_progress.py`. -/
def HEADER_TESTS_LINES : List String :=
  ["# Minimal Tests Progress — User Selection",
   "",
   "How to use:",
   "1) Mark `x` in the `Create?` field for tests you approve to create under tests/.",
   "2) Add context in `Notes` if needed (e.g., \"Not needed for current scope\").",
   "3) Then ask Codex:",
   "   - $minimal-tests-audit apply from progress"]

/-- The lines of `HEADER.rstrip()` in `update_dead_code_progress.py`. -/
def HEADER_DEAD_LINES : List String :=
  ["# Dead Code Progress â€” User Selection",
   "",
   "How to use:",
   "1) Mark `x` in the `Remove?` column for items you approve to delete.",
   "2) Add context in `Notes` if needed (e.g., \"external API - do not remove\").",
   "3) Then ask Codex:",
   "   - $dead-code-audit apply from progress",
   "",
   "Table columns:",
   "- `Remove?`: put `x` to approve removal",
   "- `Notes`: free text"]

/-- The flat line list of a sequence of ledger blocks after the final
`rstrip` of the joined text: every block contributes
`--- body --- (blank)`, except that the last block loses its trailing blank
line. -/
def ledgerBlocksTrim : List (List String) → List String
  | [] => []
  | [b] => "---" :: b ++ ["---"]
  | b :: bs => "---" :: b ++ ["---", ""] ++ ledgerBlocksTrim bs

/-- The block decomposition the parser sees for such a trimmed sequence:
the bodies, separated by stray single-blank-line blocks. -/
def interBlank : List (List String) → List (List String)
  | [] => []
  | [b] => [b]
  | b :: bs => b :: [""] :: interBlank bs

/-- The flat block-line list `update_tests_progress.py` computes for given
items against the saved choices of the existing ledger (the `.ok` payload of
`testsBlocksFor`, spelled out). -/
def testsFlatFor (existing : Option String) (items : List TestItem) :
    List String :=
  (items.map fun t =>
      testsBlockBody t (testsChoiceFor (testsSavedOf existing) t).create
        (testsChoiceFor (testsSavedOf existing) t).notes).flatMap
    fun b => "---" :: b ++ ["---", ""]

/-- The per-item block bodies of one `update_tests_progress.py` run. -/
def testsBodiesFor (existing : Option String) (items : List TestItem) :
    List (List String) :=
  items.map fun t =>
    testsBlockBody t (testsChoiceFor (testsSavedOf existing) t).create
      (testsChoiceFor (testsSavedOf existing) t).notes

/-- The per-item block bodies of one `update_dead_code_progress.py` run. -/
def deadBodiesFor (existing : Option String) (payload : DeadAudit) :
    List (List String) :=
  (iter_items payload).map fun p =>
    deadBlockBody p.1 p.2 (deadEntryFor (deadSavedOf existing) p.2).remove
      (deadEntryFor (deadSavedOf existing) p.2).notes

/-- The flat block-line list of one `update_dead_code_progress.py` run. -/
def deadFlatFor (existing : Option String) (payload : DeadAudit) :
    List String :=
  (deadBodiesFor existing payload).flatMap fun b => "---" :: b ++ ["---", ""]

/-- The saved-choice binding that parsing a regenerated tests ledger yields
for one proposed test. -/
def testsRegenEntry (existing : Option String) (t : TestItem) :
    String × SavedChoice :=
  (normWs t.id, testsChoiceFor (testsSavedOf existing) t)

/-- The saved-entry binding that parsing a regenerated dead-code ledger
yields for one audit item: keyed by the stripped id, carrying the item's
current category and the carried-forward flag and notes. -/
def deadRegenEntry (existing : Option String) (p : String × DeadItem) :
    String × ProgressEntry :=
  (pyStrip p.2.id,
   { id := pyStrip p.2.id
     category := p.1
     remove := (deadEntryFor (deadSavedOf existing) p.2).remove
     notes := (deadEntryFor (deadSavedOf existing) p.2).notes })

/-- A dead-code audit payload whose single item has an id with embedded
line-break characters (`str.strip` removes only leading and trailing
whitespace, so the stripped id keeps its interior line breaks). -/
def deadPayloadMultiline : DeadAudit :=
  { safe_removal_candidates :=
      [{ id := "DR-001\n---\nID: DR-999"
         name := "helper"
         type := "function"
         path := "pkg/mod.py"
         why := ""
         evidence := []
         confidence := "0.9"
         risk := "L"
         recommendation := "remove" }]
    needs_manual_confirmation := []
    dependency_findings := [] }

/-- A well-formed one-item dead-code audit payload. -/
def deadPayloadSimple : DeadAudit :=
  { safe_removal_candidates :=
      [{ id := "DR-001"
         name := "old_helper"
         type := "function"
         path := "pkg/mod.py"
         why := ""
         evidence := ["grep -rn old_helper src"]
         confidence := "0.8"
         risk := "L"
         recommendation := "remove" }]
    needs_manual_confirmation := []
    dependency_findings := [] }

/-- A dead-code audit payload whose single item has a whitespace-only id
(which strips to the empty string). -/
def deadPayloadNoId : DeadAudit :=
  { safe_removal_candidates :=
      [{ id := "   "
         name := "x"
         type := ""
         path := ""
         why := ""
         evidence := []
         confidence := ""
         risk := ""
         recommendation := "" }]
    needs_manual_confirmation := []
    dependency_findings := [] }

/-- A well-formed one-item proposed-tests list. -/
def testItemsSimple : List TestItem :=
  [{ id := "UT-001"
     file_path := "tests/test_mod.py"
     scope := "unit"
     targets := ["pkg.mod"]
     rationale := "covers the core branch"
     evidence := ["pkg/mod.py"] }]

/-- A proposed-tests list whose single item has a whitespace-only id. -/
def testItemsNoId : List TestItem :=
  [{ id := " \t "
     file_path := "tests/test_x.py"
     scope := "unit"
     targets := []
     rationale := ""
     evidence := [] }]

/-- A prior dead-code ledger carrying a user decision for `DR-001`. -/
def deadLedgerPrior : String :=
  "---\nID: DR-001\nRemove?: x\nNotes: keep\n---\n"

/-- A prior tests ledger carrying a user decision for `UT-001`. -/
def testsLedgerPrior : String :=
  "---\nID: UT-001\nCreate?: x\nNotes: keep\n---\n"

/-- Proposed tests for the apply script: one destination under `tests/`,
one outside it. -/
def applyProposedGuard : List ProposedTest :=
  [{ id := "T1", file_path := "tests/a.py", content := "print(1)" },
   { id := "T2", file_path := "/etc/passwd", content := "x" }]

/-- A progress ledger approving both proposed tests. -/
def applyProgressGuard : String :=
  "---\nID: T1\nCreate?: x\n---\n---\nID: T2\nCreate?: x\n---\n"

/-- The value a fold of one scaffold operation leaves at a fixed path `p`
(used to characterize `runScaffold` pointwise). -/
def stepVal (ow : Bool) (p : String) (v : Option String) :
    ScaffoldOp → Option String
  | .write q c =>
    if q == p then
      match v with
      | some x => if ow then some c else some x
      | none => some c
    else v
  | .touchInit d =>
    if (d ++ "/__init__.py") == p then
      match v with
      | some x => some x
      | none => some ""
    else v

/-!
## Toolkit lemmas about the Python string primitives
-/

theorem dropWhile_length_le {α : Type} (p : α → Bool) :
    ∀ l : List α, (l.dropWhile p).length ≤ l.length := by
  intro l
  induction l with
  | nil => simp
  | cons a l ih =>
    by_cases h : p a
    · simpa [List.dropWhile, h] using Nat.le_succ_of_le ih
    · simp [List.dropWhile, h]

theorem dropWhile_head_false (p : Char → Bool) (l : List Char) (c : Char)
    (rest : List Char) (h : l.dropWhile p = c :: rest) : p c = false := by
  have := List.head?_dropWhile_not p l
  rw [h] at this
  simpa using this

theorem dropWhile_idem (p : Char → Bool) (l : List Char) :
    (l.dropWhile p).dropWhile p = l.dropWhile p := by
  cases h : l.dropWhile p with
  | nil => simp
  | cons c rest =>
    have hc := dropWhile_head_false p l c rest h
    simp [List.dropWhile, hc]

theorem dropWhile_mem (p : Char → Bool) (l : List Char) (c : Char)
    (h : c ∈ l.dropWhile p) : c ∈ l :=
  (List.dropWhile_suffix p).subset h

theorem rstripL_mem (l : List Char) (c : Char) (h : c ∈ rstripL l) : c ∈ l := by
  unfold rstripL at h
  rw [List.mem_reverse] at h
  simpa using List.mem_reverse.1 (List.mem_reverse.2 (dropWhile_mem _ _ _ h))

theorem lstripL_mem (l : List Char) (c : Char) (h : c ∈ lstripL l) : c ∈ l :=
  dropWhile_mem _ _ _ h

theorem stripL_mem (l : List Char) (c : Char) (h : c ∈ stripL l) : c ∈ l :=
  lstripL_mem _ _ (rstripL_mem _ _ h)

theorem rstripL_eq_nil (b : List Char) (h : ∀ c ∈ b, pyWs c = true) :
    rstripL b = [] := by
  unfold rstripL
  have : b.reverse.dropWhile pyWs = [] := by
    rw [List.dropWhile_eq_nil_iff]
    intro x hx
    exact h x (List.mem_reverse.1 hx)
  simp [this]

theorem rstripL_ne_nil (b : List Char) (c : Char) (hc : c ∈ b)
    (hw : pyWs c = false) : rstripL b ≠ [] := by
  intro hnil
  unfold rstripL at hnil
  have h0 : b.reverse.dropWhile pyWs = [] := by
    have := congrArg List.reverse hnil
    simpa using this
  rw [List.dropWhile_eq_nil_iff] at h0
  have := h0 c (List.mem_reverse.2 hc)
  rw [hw] at this
  simp at this

theorem rstripL_append_of_ne_nil (a b : List Char) (h : rstripL b ≠ []) :
    rstripL (a ++ b) = a ++ rstripL b := by
  unfold rstripL at *
  have hb : ¬ (b.reverse.dropWhile pyWs).isEmpty := by
    intro he
    rw [List.isEmpty_iff] at he
    simp [he] at h
  rw [List.reverse_append, List.dropWhile_append, if_neg hb]
  simp

theorem rstripL_append_of_allWs (a b : List Char) (h : ∀ c ∈ b, pyWs c = true) :
    rstripL (a ++ b) = rstripL a := by
  unfold rstripL
  have hb : b.reverse.dropWhile pyWs = [] := by
    rw [List.dropWhile_eq_nil_iff]
    intro x hx
    exact h x (List.mem_reverse.1 hx)
  rw [List.reverse_append, List.dropWhile_append, hb]
  simp

theorem rstripL_idem (l : List Char) : rstripL (rstripL l) = rstripL l := by
  unfold rstripL
  simp [dropWhile_idem]

theorem lstripL_rstripL (l : List Char) (h : lstripL l = l) :
    lstripL (rstripL l) = rstripL l := by
  cases l with
  | nil => rfl
  | cons c cs =>
    have hc : pyWs c = false := by
      unfold lstripL at h
      by_contra hcc
      rw [Bool.not_eq_false] at hcc
      rw [List.dropWhile_cons, if_pos hcc] at h
      have := congrArg List.length h
      have hle := dropWhile_length_le pyWs cs
      simp at this
      omega
    unfold rstripL lstripL
    rw [List.reverse_cons, List.dropWhile_append]
    by_cases he : (cs.reverse.dropWhile pyWs).isEmpty
    · rw [if_pos he]
      simp [List.dropWhile, hc]
    · rw [if_neg he]
      simp [List.dropWhile, hc]

theorem stripL_idem (l : List Char) : stripL (stripL l) = stripL l := by
  unfold stripL
  rw [lstripL_rstripL (lstripL l) (dropWhile_idem pyWs l), rstripL_idem]

theorem pyStrip_idem (s : String) : pyStrip (pyStrip s) = pyStrip s := by
  unfold pyStrip
  rw [stripL_idem]

theorem pyBreak_ws {c : Char} (h : pyBreak c = true) : pyWs c = true := by
  unfold pyBreak at h
  unfold pyWs
  rw [List.contains_eq_any_beq] at h
  simp only [List.any_cons, List.any_nil, Bool.or_eq_true, beq_iff_eq] at h
  rw [Bool.or_eq_true, List.contains_eq_any_beq]
  apply Or.inl
  simp only [List.any_cons, List.any_nil, Bool.or_eq_true, beq_iff_eq]
  rcases h with h|h|h|h|h|h|h|h|h|h|h <;> simp [h]

theorem collapseGo_mem (l : List Char) : ∀ (b : Bool) (c : Char),
    c ∈ collapseGo b l → c = ' ' ∨ (c ∈ l ∧ pyWs c = false) := by
  induction l with
  | nil => intro b c h; simp [collapseGo] at h
  | cons d cs ih =>
    intro b c h
    by_cases hd : pyWs d
    · cases b with
      | true =>
        simp only [collapseGo, if_pos hd, if_pos rfl] at h
        rcases ih true c h with h1 | h1
        · exact Or.inl h1
        · exact Or.inr ⟨List.mem_cons_of_mem d h1.1, h1.2⟩
      | false =>
        simp only [collapseGo, if_pos hd, Bool.false_eq_true, if_false] at h
        rcases List.mem_cons.1 h with h1 | h1
        · exact Or.inl h1
        · rcases ih true c h1 with h2 | h2
          · exact Or.inl h2
          · exact Or.inr ⟨List.mem_cons_of_mem d h2.1, h2.2⟩
    · rw [collapseGo, if_neg hd] at h
      rcases List.mem_cons.1 h with h1 | h1
      · subst h1
        exact Or.inr ⟨List.mem_cons_self _ _, by simpa using hd⟩
      · rcases ih false c h1 with h2 | h2
        · exact Or.inl h2
        · exact Or.inr ⟨List.mem_cons_of_mem d h2.1, h2.2⟩

theorem collapseWsL_mem (l : List Char) (c : Char) (h : c ∈ collapseWsL l) :
    c = ' ' ∨ (c ∈ l ∧ pyWs c = false) :=
  collapseGo_mem l false c h

theorem noBreak_normWs (s : String) : noBreak (normWs s) = true := by
  rw [noBreak, List.all_eq_true]
  intro c hc
  have hc2 := collapseWsL_mem s.data c (stripL_mem _ _ hc)
  cases hbr : pyBreak c with
  | false => simp
  | true =>
    exfalso
    rcases hc2 with h | h
    · subst h
      exact absurd hbr (by decide)
    · rw [pyBreak_ws hbr] at h
      simp at h

theorem normWs_lstrip (s : String) : lstripL (normWs s).data = (normWs s).data := by
  show lstripL (stripL (collapseWsL s.data)) = stripL (collapseWsL s.data)
  unfold stripL
  exact lstripL_rstripL _ (dropWhile_idem pyWs _)

theorem normWs_rstrip (s : String) : rstripL (normWs s).data = (normWs s).data := by
  show rstripL (stripL (collapseWsL s.data)) = stripL (collapseWsL s.data)
  unfold stripL
  rw [rstripL_idem]

theorem pyStrip_lstrip (s : String) : lstripL (pyStrip s).data = (pyStrip s).data := by
  show lstripL (stripL s.data) = stripL s.data
  unfold stripL
  exact lstripL_rstripL _ (dropWhile_idem pyWs _)

theorem pyStrip_rstrip (s : String) : rstripL (pyStrip s).data = (pyStrip s).data := by
  show rstripL (stripL s.data) = stripL s.data
  unfold stripL
  rw [rstripL_idem]

/-!
## Lemmas: `splitlines` of a written ledger recovers its lines
-/

theorem noBreak_data {s : String} (h : noBreak s = true) :
    ∀ c ∈ s.data, pyBreak c = false := by
  rw [noBreak, List.all_eq_true] at h
  intro c hc
  simpa using h c hc

theorem allWsLine_false_exists {l : String} (h : allWsLine l = false) :
    ∃ c ∈ l.data, pyWs c = false := by
  rw [allWsLine] at h
  rcases List.all_eq_false.1 h with ⟨c, hc, hw⟩
  exact ⟨c, hc, by simpa using hw⟩

theorem dropWhile_ne_nil_of_exists {p : String → Bool} {L : List String}
    (h : ∃ x ∈ L, p x = false) : L.dropWhile p ≠ [] := by
  intro hnil
  rw [List.dropWhile_eq_nil_iff] at hnil
  rcases h with ⟨x, hx, hpx⟩
  rw [hnil x hx] at hpx
  simp at hpx

theorem pySplitGo_nil_eq (acc : List Char) :
    pySplitGo [] acc = if acc.isEmpty then [] else [acc.reverse] := by
  rw [pySplitGo.eq_def]

theorem pySplitGo_cons (c : Char) (cs acc : List Char) :
    pySplitGo (c :: cs) acc =
      if c == '\r' then
        acc.reverse ::
          (match cs with
           | [] => []
           | c2 :: cs2 =>
             if c2 == '\n' then pySplitGo cs2 [] else pySplitGo (c2 :: cs2) [])
      else if pyBreak c then acc.reverse :: pySplitGo cs []
      else pySplitGo cs (c :: acc) := by
  rw [pySplitGo.eq_def]

theorem pySplitGo_chunk (l : List Char) (h : ∀ c ∈ l, pyBreak c = false) :
    ∀ cs acc, pySplitGo (l ++ cs) acc = pySplitGo cs (l.reverse ++ acc) := by
  induction l with
  | nil => intro cs acc; simp
  | cons c l ih =>
    intro cs acc
    have hc : pyBreak c = false := h c (List.mem_cons_self _ _)
    have hcr : (c == '\r') = false := by
      cases hb : c == '\r'
      · rfl
      · exfalso
        have hce : c = '\r' := by simpa using hb
        subst hce
        exact absurd hc (by decide)
    have hl : ∀ x ∈ l, pyBreak x = false := fun x hx =>
      h x (List.mem_cons_of_mem _ hx)
    rw [List.cons_append, pySplitGo_cons]
    rw [if_neg (by simp [hcr]), if_neg (by simp [hc])]
    rw [ih hl cs (c :: acc)]
    simp

theorem pySplitGo_end (l : List Char) (h : ∀ c ∈ l, pyBreak c = false) :
    pySplitGo (l ++ ['\n']) [] = [l] := by
  rw [pySplitGo_chunk l h ['\n'] []]
  have h1 : pySplitGo ['\n'] (l.reverse ++ []) =
      (l.reverse ++ []).reverse :: pySplitGo ([] : List Char) [] := by
    rw [pySplitGo_cons]
    rw [if_neg (by decide), if_pos (by decide)]
  rw [h1]
  simp [pySplitGo_nil_eq]

theorem joinNL_cons (l : List Char) (ls : List (List Char)) (h : ls ≠ []) :
    joinNL (l :: ls) = l ++ '\n' :: joinNL ls := by
  cases ls with
  | nil => exact absurd rfl h
  | cons a as => rfl

theorem joinNL_mem (ls : List (List Char)) (l : List Char) (hl : l ∈ ls)
    (c : Char) (hc : c ∈ l) : c ∈ joinNL ls := by
  induction ls with
  | nil => simp at hl
  | cons a as ih =>
    cases as with
    | nil =>
      have : l = a := by simpa using hl
      subst this
      simpa [joinNL] using hc
    | cons b bs =>
      rw [joinNL_cons a _ (by simp)]
      rcases List.mem_cons.1 hl with h1 | h1
      · subst h1
        exact List.mem_append_left _ hc
      · exact List.mem_append_right _ (List.mem_cons_of_mem _ (ih h1))

theorem joinNL_allWs (ls : List (List Char))
    (h : ∀ l ∈ ls, ∀ c ∈ l, pyWs c = true) :
    ∀ c ∈ joinNL ls, pyWs c = true := by
  induction ls with
  | nil => simp [joinNL]
  | cons a as ih =>
    cases as with
    | nil =>
      intro c hc
      exact h a (by simp) c (by simpa [joinNL] using hc)
    | cons b bs =>
      rw [joinNL_cons a _ (by simp)]
      intro c hc
      rcases List.mem_append.1 hc with h1 | h1
      · exact h a (by simp) c h1
      · rcases List.mem_cons.1 h1 with h2 | h2
        · subst h2
          decide

        · exact ih (fun l hl => h l (List.mem_cons_of_mem _ hl)) c h2

theorem rstripJoined_cons_of_tail (l : String) (tail : List String)
    (h : ∃ x ∈ tail, allWsLine x = false) :
    rstripJoinedLines (l :: tail) = l :: rstripJoinedLines tail := by
  unfold rstripJoinedLines
  rw [List.reverse_cons, List.dropWhile_append]
  have hne : tail.reverse.dropWhile allWsLine ≠ [] := by
    apply dropWhile_ne_nil_of_exists
    rcases h with ⟨x, hx, hxw⟩
    exact ⟨x, List.mem_reverse.2 hx, hxw⟩
  have hie : ¬ (tail.reverse.dropWhile allWsLine).isEmpty := by
    intro hi
    rw [List.isEmpty_iff] at hi
    exact hne hi
  rw [if_neg hie]
  cases hd : tail.reverse.dropWhile allWsLine with
  | nil => exact absurd hd hne
  | cons m rest => simp

theorem splitlines_written (ls : List String)
    (hnb : ∀ l ∈ ls, noBreak l = true)
    (hnw : ∃ l ∈ ls, allWsLine l = false) :
    pySplitlines (pyRstrip (joinLines ls) ++ "\n") = rstripJoinedLines ls := by
  induction ls with
  | nil => simp at hnw
  | cons l tail ih =>
    have hnbl : ∀ c ∈ l.data, pyBreak c = false :=
      noBreak_data (hnb l (List.mem_cons_self _ _))
    cases tail with
    | nil =>
      have hlw : allWsLine l = false := by
        rcases hnw with ⟨x, hx, hxw⟩
        have : x = l := by simpa using hx
        subst this
        exact hxw
      rcases allWsLine_false_exists hlw with ⟨c, hc, hcw⟩
      have hrne : rstripL l.data ≠ [] := rstripL_ne_nil l.data c hc hcw
      have hdata : (pyRstrip (joinLines [l]) ++ "\n").data =
          rstripL l.data ++ ['\n'] := by
        simp [joinLines, joinNL, pyRstrip, String.data_append]
      unfold pySplitlines
      rw [hdata, pySplitGo_end (rstripL l.data)
        (fun c hc => hnbl c (rstripL_mem _ _ hc))]
      unfold rstripJoinedLines
      simp [List.dropWhile, hlw, pyRstrip]
    | cons l2 ls2 =>
      set tl := l2 :: ls2 with htl
      have htlne : tl.map String.data ≠ [] := by simp [htl]
      have hjoin : (joinLines (l :: tl)).data =
          l.data ++ '\n' :: joinNL (tl.map String.data) := by
        simp only [joinLines, List.map_cons]
        exact joinNL_cons l.data _ (by simp [htl])
      by_cases hws : ∃ x ∈ tl, allWsLine x = false
      · have hJne : rstripL (joinNL (tl.map String.data)) ≠ [] := by
          rcases hws with ⟨x, hx, hxw⟩
          rcases allWsLine_false_exists hxw with ⟨c, hc, hcw⟩
          exact rstripL_ne_nil _ c
            (joinNL_mem _ x.data (List.mem_map_of_mem _ hx) c hc) hcw
        have hdata : (pyRstrip (joinLines (l :: tl)) ++ "\n").data =
            l.data ++ '\n' :: (rstripL (joinNL (tl.map String.data)) ++ ['\n']) := by
          simp only [pyRstrip, String.data_append, hjoin]
          rw [show l.data ++ '\n' :: joinNL (tl.map String.data) =
              (l.data ++ ['\n']) ++ joinNL (tl.map String.data) by simp]
          rw [rstripL_append_of_ne_nil _ _ hJne]
          simp
        unfold pySplitlines
        rw [hdata]
        rw [show l.data ++ '\n' :: (rstripL (joinNL (tl.map String.data)) ++ ['\n']) =
            l.data ++ ('\n' :: (rstripL (joinNL (tl.map String.data)) ++ ['\n']))
            from rfl]
        rw [pySplitGo_chunk l.data hnbl]
        have hstep : pySplitGo
            ('\n' :: (rstripL (joinNL (tl.map String.data)) ++ ['\n']))
            (l.data.reverse ++ []) =
            (l.data.reverse ++ []).reverse ::
              pySplitGo (rstripL (joinNL (tl.map String.data)) ++ ['\n']) [] := by
          rw [pySplitGo_cons]
          rw [if_neg (by decide), if_pos (by decide)]
        rw [hstep]
        have ihx := ih (fun x hx => hnb x (List.mem_cons_of_mem _ hx)) hws
        have ihdata : (pyRstrip (joinLines tl) ++ "\n").data =
            rstripL (joinNL (tl.map String.data)) ++ ['\n'] := by
          simp [pyRstrip, joinLines, String.data_append]
        unfold pySplitlines at ihx
        rw [ihdata] at ihx
        rw [rstripJoined_cons_of_tail l tl hws]
        simp only [List.map_cons, List.append_nil, List.reverse_reverse]
        rw [ihx]
      · have htw : ∀ x ∈ tl, allWsLine x = true := by
          intro x hx
          cases hxw : allWsLine x with
          | false => exact absurd ⟨x, hx, hxw⟩ hws
          | true => rfl
        have hlw : allWsLine l = false := by
          rcases hnw with ⟨x, hx, hxw⟩
          rcases List.mem_cons.1 hx with h1 | h1
          · subst h1; exact hxw
          · rw [htw x h1] at hxw; simp at hxw
        rcases allWsLine_false_exists hlw with ⟨c, hc, hcw⟩
        have hJw : ∀ d ∈ ('\n' :: joinNL (tl.map String.data)), pyWs d = true := by
          intro d hd
          rcases List.mem_cons.1 hd with h1 | h1
          · subst h1; decide
          · apply joinNL_allWs (tl.map String.data) _ d h1
            intro m hm e he
            rcases List.mem_map.1 hm with ⟨x, hx, hxe⟩
            subst hxe
            have := htw x hx
            rw [allWsLine, List.all_eq_true] at this
            exact this e he
        have hdata : (pyRstrip (joinLines (l :: tl)) ++ "\n").data =
            rstripL l.data ++ ['\n'] := by
          simp only [pyRstrip, String.data_append, hjoin]
          rw [show l.data ++ '\n' :: joinNL (tl.map String.data) =
              l.data ++ ('\n' :: joinNL (tl.map String.data)) from rfl]
          rw [rstripL_append_of_allWs _ _ hJw]
        unfold pySplitlines
        rw [hdata, pySplitGo_end (rstripL l.data)
          (fun e he => hnbl e (rstripL_mem _ _ he))]
        unfold rstripJoinedLines
        rw [List.reverse_cons, List.dropWhile_append]
        have htwrev : tl.reverse.dropWhile allWsLine = [] := by
          rw [List.dropWhile_eq_nil_iff]
          intro x hx
          exact htw x (List.mem_reverse.1 hx)
        rw [htwrev]
        simp [List.dropWhile, hlw, pyRstrip]

/-!
## Lemmas: block splitting and field picking
-/

theorem splitBlocksGo_sep (ys : List String) :
    ∀ (xs buf : List String),
      splitBlocksGo (xs ++ "---" :: ys) buf =
        splitBlocksGo xs buf ++ splitBlocksGo ys [] := by
  intro xs
  induction xs with
  | nil =>
    intro buf
    rw [List.nil_append]
    by_cases hb : buf.isEmpty
    · simp only [splitBlocksGo, if_pos (show (pyStrip "---" == "---") = true by decide),
        hb, if_true, if_pos rfl]
      simp
    · simp only [splitBlocksGo, if_pos (show (pyStrip "---" == "---") = true by decide), hb]
      simp
  | cons x xs ih =>
    intro buf
    rw [List.cons_append]
    by_cases hx : pyStrip x == "---"
    · by_cases hb : buf.isEmpty
      · simp only [splitBlocksGo, hx, if_true, hb, ih]
      · simp only [splitBlocksGo, hx, if_true, hb, ih]
        simp
    · simp only [splitBlocksGo, hx, Bool.false_eq_true, if_false, ih]

theorem splitBlocksGo_noSep :
    ∀ (ls buf : List String),
      (∀ l ∈ ls, (pyStrip l == "---") = false) →
      splitBlocksGo ls buf =
        if (buf.reverse ++ ls).isEmpty then [] else [buf.reverse ++ ls] := by
  intro ls
  induction ls with
  | nil =>
    intro buf _
    simp [splitBlocksGo]
  | cons l ls ih =>
    intro buf h
    have hl := h l (List.mem_cons_self _ _)
    simp only [splitBlocksGo, hl, Bool.false_eq_true, if_false]
    rw [ih (l :: buf) (fun x hx => h x (List.mem_cons_of_mem _ hx))]
    have h1 : (l :: buf).reverse ++ ls = buf.reverse ++ l :: ls := by simp
    rw [h1]

theorem splitBlocks_sep (xs ys : List String) :
    splitBlocks (xs ++ "---" :: ys) = splitBlocks xs ++ splitBlocks ys := by
  unfold splitBlocks
  exact splitBlocksGo_sep ys xs []

theorem splitBlocks_noSep (ls : List String)
    (h : ∀ l ∈ ls, (pyStrip l == "---") = false) (hne : ls ≠ []) :
    splitBlocks ls = [ls] := by
  unfold splitBlocks
  rw [splitBlocksGo_noSep ls [] h]
  cases ls with
  | nil => exact absurd rfl hne
  | cons a as => simp

theorem splitBlocksGo_lines_mem :
    ∀ (ls buf b : List String), b ∈ splitBlocksGo ls buf →
      ∀ l ∈ b, l ∈ ls ∨ l ∈ buf := by
  intro ls
  induction ls with
  | nil =>
    intro buf b hb l hl
    by_cases he : buf.isEmpty
    · simp [splitBlocksGo, he] at hb
    · simp only [splitBlocksGo, he, Bool.false_eq_true, if_false,
        List.mem_singleton] at hb
      subst hb
      exact Or.inr (List.mem_reverse.1 hl)
  | cons x xs ih =>
    intro buf b hb l hl
    by_cases hx : pyStrip x == "---"
    · by_cases he : buf.isEmpty
      · simp only [splitBlocksGo, hx, if_true, he] at hb
        rcases ih [] b hb l hl with h1 | h1
        · exact Or.inl (List.mem_cons_of_mem _ h1)
        · simp at h1
      · simp only [splitBlocksGo, hx, if_true, he, Bool.false_eq_true, if_false,
          List.mem_cons] at hb
        rcases hb with hb | hb
        · subst hb
          exact Or.inr (List.mem_reverse.1 hl)
        · rcases ih [] b hb l hl with h1 | h1
          · exact Or.inl (List.mem_cons_of_mem _ h1)
          · simp at h1
    · simp only [splitBlocksGo, hx, Bool.false_eq_true, if_false] at hb
      rcases ih (x :: buf) b hb l hl with h1 | h1
      · exact Or.inl (List.mem_cons_of_mem _ h1)
      · rcases List.mem_cons.1 h1 with h2 | h2
        · subst h2
          exact Or.inl (List.mem_cons_self _ _)
        · exact Or.inr h2

theorem dropPrefixL_self : ∀ (p rest : List Char),
    dropPrefixL p (p ++ rest) = some rest := by
  intro p
  induction p with
  | nil => intro rest; rfl
  | cons c cs ih => intro rest; simp [dropPrefixL, ih]

theorem dropPrefixL_mem : ∀ (p s r : List Char), dropPrefixL p s = some r →
    ∀ c ∈ r, c ∈ s := by
  intro p
  induction p with
  | nil =>
    intro s r h c hc
    injection h with h1
    subst h1
    exact hc
  | cons a p ih =>
    intro s r h c hc
    cases s with
    | nil => simp [dropPrefixL] at h
    | cons b s =>
      rw [dropPrefixL] at h
      by_cases hab : a == b
      · rw [if_pos hab] at h
        exact List.mem_cons_of_mem _ (ih s r h c hc)
      · rw [if_neg hab] at h
        simp at h

theorem mkl_make (key v : String) (k : Char) (kr : List Char)
    (hk : key.data = k :: kr) (hws : pyWs k = false) :
    matchKeyLine key (key ++ ": " ++ v) = some ⟨v.data.dropWhile pyWs⟩ := by
  unfold matchKeyLine
  have hd : (key ++ ": " ++ v).data = key.data ++ (':' :: ' ' :: v.data) := by
    rw [String.data_append, String.data_append]
    rw [show (": " : String).data = [':', ' '] from rfl]
    simp
  rw [hd]
  have hls : lstripL (key.data ++ (':' :: ' ' :: v.data)) =
      key.data ++ (':' :: ' ' :: v.data) := by
    rw [hk]
    unfold lstripL
    rw [List.cons_append, List.dropWhile_cons, if_neg (by simp [hws])]
  rw [hls, dropPrefixL_self, Option.some_bind]
  have h2 : (':' :: ' ' :: v.data).dropWhile pyWs = ':' :: ' ' :: v.data := by
    rw [List.dropWhile_cons, if_neg (by decide)]
  rw [h2, colonValue, if_pos (by decide)]
  have h3 : (' ' :: v.data).dropWhile pyWs = v.data.dropWhile pyWs := by
    rw [List.dropWhile_cons, if_pos (by decide)]
  rw [h3]

theorem mkl_none (key line : String) (k c : Char)
    (hk : key.data.head? = some k) (hl : line.data.head? = some c)
    (hws : pyWs c = false) (hne : (k == c) = false) :
    matchKeyLine key line = none := by
  unfold matchKeyLine
  cases hld : line.data with
  | nil => rw [hld] at hl; simp at hl
  | cons c0 cr =>
    rw [hld] at hl
    have hc0 : c0 = c := by simpa using hl
    subst hc0
    have hlstrip : lstripL (c0 :: cr) = c0 :: cr := by
      unfold lstripL
      rw [List.dropWhile_cons, if_neg (by simp [hws])]
    rw [hlstrip]
    cases hkd : key.data with
    | nil => rw [hkd] at hk; simp at hk
    | cons k0 kr =>
      rw [hkd] at hk
      have hk0 : k0 = k := by simpa using hk
      subst hk0
      simp [dropPrefixL, hne]

theorem pick_cons_some (lines : List String) (key l v : String)
    (h : matchKeyLine key l = some v) : pick (l :: lines) key = v := by
  simp [pick, List.findSome?_cons, h]

theorem pick_cons_none (lines : List String) (key l : String)
    (h : matchKeyLine key l = none) : pick (l :: lines) key = pick lines key := by
  simp [pick, List.findSome?_cons, h]

theorem matchKeyLine_val_noLead (key line v : String)
    (h : matchKeyLine key line = some v) : lstripL v.data = v.data := by
  unfold matchKeyLine at h
  cases hdp : dropPrefixL key.data (lstripL line.data) with
  | none => rw [hdp] at h; simp at h
  | some r =>
    rw [hdp, Option.some_bind] at h
    cases hdw : r.dropWhile pyWs with
    | nil => rw [hdw] at h; simp [colonValue] at h
    | cons c rest =>
      rw [hdw, colonValue] at h
      by_cases hc : c == ':'
      · rw [if_pos hc] at h
        injection h with h1
        subst h1
        exact dropWhile_idem pyWs rest
      · rw [if_neg hc] at h
        simp at h

theorem matchKeyLine_val_mem (key line v : String)
    (h : matchKeyLine key line = some v) : ∀ c ∈ v.data, c ∈ line.data := by
  unfold matchKeyLine at h
  cases hdp : dropPrefixL key.data (lstripL line.data) with
  | none => rw [hdp] at h; simp at h
  | some r =>
    rw [hdp, Option.some_bind] at h
    cases hdw : r.dropWhile pyWs with
    | nil => rw [hdw] at h; simp [colonValue] at h
    | cons c0 rest =>
      rw [hdw, colonValue] at h
      by_cases hc : c0 == ':'
      · rw [if_pos hc] at h
        injection h with h1
        subst h1
        intro c hc2
        have h3 : c ∈ rest := dropWhile_mem pyWs rest c hc2
        have h4 : c ∈ r.dropWhile pyWs := by
          rw [hdw]
          exact List.mem_cons_of_mem _ h3
        have h5 : c ∈ r := dropWhile_mem pyWs r c h4
        have h6 : c ∈ lstripL line.data := dropPrefixL_mem _ _ _ hdp c h5
        exact lstripL_mem _ _ h6
      · rw [if_neg hc] at h
        simp at h

/-!
## Lemmas: values picked from parsed blocks
-/

theorem findSome?_mkl_exists (ls : List String) (key v : String)
    (h : ls.findSome? (matchKeyLine key) = some v) :
    ∃ x ∈ ls, matchKeyLine key x = some v :=
  List.exists_of_findSome?_eq_some h

theorem pick_noLead (ls : List String) (key : String) :
    lstripL (pick ls key).data = (pick ls key).data := by
  unfold pick
  cases h : ls.findSome? (matchKeyLine key) with
  | none => rfl
  | some v =>
    rcases findSome?_mkl_exists ls key v h with ⟨x, _, hx⟩
    simpa using matchKeyLine_val_noLead key x v hx

theorem pick_noBreak (ls : List String) (key : String)
    (h : ∀ l ∈ ls, noBreak l = true) : noBreak (pick ls key) = true := by
  unfold pick
  cases hf : ls.findSome? (matchKeyLine key) with
  | none => rfl
  | some v =>
    rcases findSome?_mkl_exists ls key v hf with ⟨x, hxm, hx⟩
    rw [noBreak, List.all_eq_true]
    intro c hc
    have hcm : c ∈ x.data := matchKeyLine_val_mem key x v hx c (by simpa using hc)
    have := noBreak_data (h x hxm) c hcm
    simp [this]

theorem noBreak_append (a b : String) (ha : noBreak a = true)
    (hb : noBreak b = true) : noBreak (a ++ b) = true := by
  rw [noBreak, String.data_append, List.all_append]
  rw [noBreak] at ha hb
  rw [ha, hb]
  rfl

theorem noBreak_pyRstrip (s : String) (h : noBreak s = true) :
    noBreak (pyRstrip s) = true := by
  rw [noBreak, List.all_eq_true] at h ⊢
  intro c hc
  exact h c (rstripL_mem s.data c hc)

theorem noBreak_pyStrip (s : String) (h : noBreak s = true) :
    noBreak (pyStrip s) = true := by
  rw [noBreak, List.all_eq_true] at h ⊢
  intro c hc
  exact h c (stripL_mem s.data c hc)

theorem strExt (a b : String) (h : a.data = b.data) : a = b := by
  cases a
  cases b
  cases h
  rfl

theorem rstripL_cons_head (c : Char) (cr : List Char) (hws : pyWs c = false) :
    ∃ r2, rstripL (c :: cr) = c :: r2 := by
  unfold rstripL
  rw [List.reverse_cons, List.dropWhile_append]
  by_cases he : (cr.reverse.dropWhile pyWs).isEmpty
  · rw [if_pos he]
    rw [List.dropWhile_cons, if_neg (by simp [hws])]
    exact ⟨[], by simp⟩
  · rw [if_neg he]
    cases hd : cr.reverse.dropWhile pyWs with
    | nil => rw [hd] at he; simp at he
    | cons m rest => exact ⟨(m :: rest).reverse, by simp⟩

theorem strip_head_ne_dashes (line : String) (c : Char) (cr : List Char)
    (hl : line.data = c :: cr) (hws : pyWs c = false) (hc : (c == '-') = false) :
    (pyStrip line == "---") = false := by
  rw [beq_eq_false_iff_ne]
  intro heq
  have hdata := congrArg String.data heq
  have hstrip : (pyStrip line).data = stripL (c :: cr) := by
    simp [pyStrip, hl]
  rw [hstrip] at hdata
  unfold stripL lstripL at hdata
  rw [List.dropWhile_cons, if_neg (by simp [hws])] at hdata
  rcases rstripL_cons_head c cr hws with ⟨r2, hr2⟩
  rw [hr2] at hdata
  have hcd : c = '-' := by
    have := congrArg List.head? hdata
    simpa using this
  rw [hcd] at hc
  simp at hc

/-!
## Lemmas: the regenerated tests block parses back to the carried choice
-/

theorem mkl_make2 (key line v : String) (k : Char) (kr : List Char)
    (hk : key.data = k :: kr) (hws : pyWs k = false)
    (hline : line.data = key.data ++ (':' :: ' ' :: v.data)) :
    matchKeyLine key line = some ⟨v.data.dropWhile pyWs⟩ := by
  unfold matchKeyLine
  rw [hline]
  have hls : lstripL (key.data ++ (':' :: ' ' :: v.data)) =
      key.data ++ (':' :: ' ' :: v.data) := by
    rw [hk]
    unfold lstripL
    rw [List.cons_append, List.dropWhile_cons, if_neg (by simp [hws])]
  rw [hls, dropPrefixL_self, Option.some_bind]
  have h2 : (':' :: ' ' :: v.data).dropWhile pyWs = ':' :: ' ' :: v.data := by
    rw [List.dropWhile_cons, if_neg (by decide)]
  rw [h2, colonValue, if_pos (by decide)]
  have h3 : (' ' :: v.data).dropWhile pyWs = v.data.dropWhile pyWs := by
    rw [List.dropWhile_cons, if_pos (by decide)]
  rw [h3]

theorem pick_testsBody_ID (t : TestItem) (create notes : String) :
    pick (testsBlockBody t create notes) "ID" = normWs t.id := by
  unfold testsBlockBody
  rw [pick_cons_some _ _ _ _ (mkl_make2 "ID" _ (normWs t.id) 'I' ['D'] rfl
    (by decide) (by rw [String.data_append]; rfl))]
  have h := normWs_lstrip t.id
  unfold lstripL at h
  rw [h]

theorem pick_testsBody_create (t : TestItem) (create notes : String)
    (hcl : lstripL create.data = create.data) :
    pick (testsBlockBody t create notes) "Create?" = create := by
  unfold testsBlockBody
  rw [pick_cons_none _ _ _ (mkl_none "Create?" _ 'C' 'I' rfl
    (by rw [String.data_append]; rfl) (by decide) (by decide))]
  rw [pick_cons_some _ _ _ _ (mkl_make2 "Create?" _ create 'C' "reate?".data rfl
    (by decide) (by rw [String.data_append]; rfl))]
  unfold lstripL at hcl
  rw [hcl]

theorem pick_testsBody_notes (t : TestItem) (create notes : String)
    (hnl : lstripL notes.data = notes.data)
    (hnr : rstripL notes.data = notes.data) :
    pick (testsBlockBody t create notes) "Notes" = notes := by
  unfold testsBlockBody
  rw [pick_cons_none _ _ _ (mkl_none "Notes" _ 'N' 'I' rfl
    (by rw [String.data_append]; rfl) (by decide) (by decide))]
  rw [pick_cons_none _ _ _ (mkl_none "Notes" _ 'N' 'C' rfl
    (by rw [String.data_append]; rfl) (by decide) (by decide))]
  rw [pick_cons_none _ _ _ (mkl_none "Notes" _ 'N' 'F' rfl
    (by rw [String.data_append]; rfl) (by decide) (by decide))]
  rw [pick_cons_none _ _ _ (mkl_none "Notes" _ 'N' 'S' rfl
    (by rw [String.data_append]; rfl) (by decide) (by decide))]
  rw [pick_cons_none _ _ _ (mkl_none "Notes" _ 'N' 'T' rfl
    (by rw [String.data_append]; rfl) (by decide) (by decide))]
  rw [pick_cons_none _ _ _ (mkl_none "Notes" _ 'N' 'R' rfl
    (by rw [String.data_append]; rfl) (by decide) (by decide))]
  rw [pick_cons_none _ _ _ (mkl_none "Notes" _ 'N' 'E' rfl
    (by rw [String.data_append]; rfl) (by decide) (by decide))]
  cases hnd : notes.data with
  | nil =>
    have hnotes : notes = "" := strExt _ _ (by rw [hnd])
    subst hnotes
    rw [show pyRstrip ("Notes: " ++ "") = "Notes:" by decide]
    rw [pick_cons_some _ _ _ ""
      (show matchKeyLine "Notes" "Notes:" = some "" by decide)]
  | cons c cr =>
    have hline : pyRstrip ("Notes: " ++ notes) = "Notes: " ++ notes := by
      apply strExt
      show rstripL ("Notes: " ++ notes).data = _
      rw [String.data_append]
      rw [rstripL_append_of_ne_nil _ _ (by rw [hnr, hnd]; simp)]
      rw [hnr]
    rw [hline]
    rw [pick_cons_some _ _ _ _ (mkl_make2 "Notes" _ notes 'N' "otes".data rfl
      (by decide) (by rw [String.data_append]; rfl))]
    unfold lstripL at hnl
    rw [hnl]

theorem pyStrip_normWs (s : String) : pyStrip (normWs s) = normWs s := by
  apply strExt
  show stripL (normWs s).data = (normWs s).data
  unfold stripL
  have h1 := normWs_lstrip s
  unfold lstripL at h1 ⊢
  rw [h1, normWs_rstrip]

theorem testsEntryOf_body (t : TestItem) (create notes : String)
    (hid : (normWs t.id == "") = false)
    (hcl : lstripL create.data = create.data)
    (hcr : rstripL create.data = create.data)
    (hnl : lstripL notes.data = notes.data)
    (hnr : rstripL notes.data = notes.data) :
    testsEntryOf (testsBlockBody t create notes) =
      some (normWs t.id,
        { test_id := normWs t.id, create := create, notes := notes }) := by
  have hsc : pyStrip create = create := by
    apply strExt
    show stripL create.data = create.data
    unfold stripL
    rw [hcl, hcr]
  have hrn : pyRstrip notes = notes := by
    apply strExt
    show rstripL notes.data = notes.data
    exact hnr
  unfold testsEntryOf
  rw [pick_testsBody_ID, pick_testsBody_create t create notes hcl,
    pick_testsBody_notes t create notes hnl hnr, pyStrip_normWs, hsc, hrn]
  simp [hid]

theorem testsBody_ne_nil (t : TestItem) (create notes : String) :
    testsBlockBody t create notes ≠ [] := by
  simp [testsBlockBody]

theorem rstrip_head? (pre rest : String) (c : Char)
    (h : pre.data.head? = some c) (hws : pyWs c = false) :
    (pyRstrip (pre ++ rest)).data.head? = some c := by
  cases hpd : pre.data with
  | nil => rw [hpd] at h; simp at h
  | cons c0 cr =>
    rw [hpd] at h
    have hc0 : c0 = c := by simpa using h
    subst hc0
    show (rstripL ((pre ++ rest)).data).head? = some c0
    rw [String.data_append, hpd, List.cons_append]
    rcases rstripL_cons_head c0 (cr ++ rest.data) hws with ⟨r2, hr2⟩
    rw [hr2]
    rfl

theorem strip_head_ne_dashes2 (line : String) (c : Char)
    (hl : line.data.head? = some c) (hws : pyWs c = false)
    (hc : (c == '-') = false) : (pyStrip line == "---") = false := by
  cases hld : line.data with
  | nil => rw [hld] at hl; simp at hl
  | cons c0 cr =>
    rw [hld] at hl
    have hc0 : c0 = c := by simpa using hl
    subst hc0
    exact strip_head_ne_dashes line c0 cr hld hws hc

theorem testsBody_noSep (t : TestItem) (create notes : String) :
    ∀ l ∈ testsBlockBody t create notes, (pyStrip l == "---") = false := by
  intro l hl
  unfold testsBlockBody at hl
  simp only [List.mem_cons, List.not_mem_nil, or_false] at hl
  rcases hl with h|h|h|h|h|h|h|h <;> subst h
  · exact strip_head_ne_dashes2 _ 'I' (by rw [String.data_append]; rfl)
      (by decide) (by decide)
  · exact strip_head_ne_dashes2 _ 'C' (by rw [String.data_append]; rfl)
      (by decide) (by decide)
  · exact strip_head_ne_dashes2 _ 'F' (by rw [String.data_append]; rfl)
      (by decide) (by decide)
  · exact strip_head_ne_dashes2 _ 'S' (by rw [String.data_append]; rfl)
      (by decide) (by decide)
  · exact strip_head_ne_dashes2 _ 'T' (by rw [String.data_append]; rfl)
      (by decide) (by decide)
  · exact strip_head_ne_dashes2 _ 'R' (by rw [String.data_append]; rfl)
      (by decide) (by decide)
  · exact strip_head_ne_dashes2 _ 'E' (by rw [String.data_append]; rfl)
      (by decide) (by decide)
  · exact strip_head_ne_dashes2 _ 'N'
      (rstrip_head? "Notes: " notes 'N' rfl (by decide)) (by decide) (by decide)

theorem testsBody_noBreak (t : TestItem) (create notes : String)
    (hc : noBreak create = true) (hn : noBreak notes = true) :
    ∀ l ∈ testsBlockBody t create notes, noBreak l = true := by
  intro l hl
  unfold testsBlockBody at hl
  simp only [List.mem_cons, List.not_mem_nil, or_false] at hl
  rcases hl with h|h|h|h|h|h|h|h <;> subst h
  · exact noBreak_append _ _ (by decide) (noBreak_normWs _)
  · exact noBreak_append _ _ (by decide) hc
  · exact noBreak_append _ _ (by decide) (noBreak_normWs _)
  · exact noBreak_append _ _ (by decide) (noBreak_normWs _)
  · exact noBreak_append _ _ (by decide) (noBreak_normWs _)
  · exact noBreak_append _ _ (by decide) (noBreak_normWs _)
  · exact noBreak_append _ _ (by decide) (noBreak_normWs _)
  · exact noBreak_pyRstrip _ (noBreak_append _ _ (by decide) hn)

theorem testsBlocksFor_ok (saved : List (String × SavedChoice)) :
    ∀ items : List TestItem, (∀ t ∈ items, (normWs t.id == "") = false) →
      testsBlocksFor saved items = .ok
        ((items.map fun t => testsBlockBody t (testsChoiceFor saved t).create
            (testsChoiceFor saved t).notes).flatMap
          fun b => "---" :: b ++ ["---", ""]) := by
  intro items
  induction items with
  | nil => intro _; rfl
  | cons t ts ih =>
    intro h
    have ht := h t (List.mem_cons_self _ _)
    simp only [testsBlocksFor, ht, Bool.false_eq_true, if_false]
    rw [ih (fun x hx => h x (List.mem_cons_of_mem _ hx))]
    simp [testsBlock, Except.map]

theorem testsBlocksFor_error (saved : List (String × SavedChoice)) :
    ∀ items : List TestItem, (∃ t ∈ items, (normWs t.id == "") = true) →
      testsBlocksFor saved items =
        .error "Every proposed test must have a stable id (e.g., UT-001)." := by
  intro items
  induction items with
  | nil => intro h; simp at h
  | cons t ts ih =>
    intro h
    by_cases ht : (normWs t.id == "") = true
    · simp only [testsBlocksFor, ht, if_true]
    · have hts : ∃ x ∈ ts, (normWs x.id == "") = true := by
        rcases h with ⟨x, hx, hxe⟩
        rcases List.mem_cons.1 hx with h1 | h1
        · subst h1; exact absurd hxe ht
        · exact ⟨x, h1, hxe⟩
      simp only [testsBlocksFor, ht, Bool.false_eq_true, if_false]
      rw [ih hts]
      rfl

theorem joinNL_append (xs ys : List (List Char)) (hx : xs ≠ []) (hy : ys ≠ []) :
    joinNL (xs ++ ys) = joinNL xs ++ '\n' :: joinNL ys := by
  induction xs with
  | nil => exact absurd rfl hx
  | cons a as ih =>
    cases as with
    | nil =>
      rw [List.cons_append, List.nil_append, joinNL_cons a ys hy]
      rfl
    | cons b bs =>
      have h1 : (b :: bs : List (List Char)) ≠ [] := by simp
      have h2 : (b :: bs) ++ ys ≠ [] := by simp
      rw [List.cons_append, joinNL_cons a _ h2, ih h1, joinNL_cons a _ h1]
      simp

theorem joinLines_graft (h0 : String) (hLines rest : List String)
    (hh : h0.data = joinNL (hLines.map String.data)) (hne : hLines ≠ [])
    (hrne : rest ≠ []) :
    joinLines (h0 :: rest) = joinLines (hLines ++ rest) := by
  unfold joinLines
  apply congrArg
  rw [List.map_cons, joinNL_cons _ _ (by simpa using hrne), List.map_append,
    joinNL_append _ _ (by simpa using hne) (by simpa using hrne), hh]

theorem rstripJoined_append_keep (A B : List String)
    (h : ∃ x ∈ B, allWsLine x = false) :
    rstripJoinedLines (A ++ B) = A ++ rstripJoinedLines B := by
  unfold rstripJoinedLines
  rw [List.reverse_append, List.dropWhile_append]
  have hne : B.reverse.dropWhile allWsLine ≠ [] := by
    apply dropWhile_ne_nil_of_exists
    rcases h with ⟨x, hx, hxw⟩
    exact ⟨x, List.mem_reverse.2 hx, hxw⟩
  have hie : ¬ (B.reverse.dropWhile allWsLine).isEmpty := by
    intro hi
    rw [List.isEmpty_iff] at hi
    exact hne hi
  rw [if_neg hie]
  cases hd : B.reverse.dropWhile allWsLine with
  | nil => exact absurd hd hne
  | cons m rest2 => simp

theorem rstripJoined_drop_blank (xs : List String) :
    rstripJoinedLines (xs ++ [""]) = rstripJoinedLines xs := by
  unfold rstripJoinedLines
  have h : List.dropWhile allWsLine ((xs ++ [""]).reverse) =
      List.dropWhile allWsLine xs.reverse := by
    rw [List.reverse_append]
    show List.dropWhile allWsLine ("" :: xs.reverse) = _
    rw [List.dropWhile_cons, if_pos (by decide)]
  simp only [h]

theorem rstripJoined_last_solid (xs : List String) (m : String)
    (hm : allWsLine m = false) (hr : pyRstrip m = m) :
    rstripJoinedLines (xs ++ [m]) = xs ++ [m] := by
  unfold rstripJoinedLines
  have h : List.dropWhile allWsLine ((xs ++ [m]).reverse) = m :: xs.reverse := by
    rw [List.reverse_append]
    show List.dropWhile allWsLine (m :: xs.reverse) = _
    rw [List.dropWhile_cons, if_neg (by simp [hm])]
  simp only [h, hr]
  simp

theorem ledgerBlocksTrim_one (b : List String) :
    ledgerBlocksTrim [b] = "---" :: b ++ ["---"] := rfl

theorem ledgerBlocksTrim_cons2 (b b2 : List String) (bs2 : List (List String)) :
    ledgerBlocksTrim (b :: b2 :: bs2) =
      "---" :: b ++ ["---", ""] ++ ledgerBlocksTrim (b2 :: bs2) := rfl

theorem interBlank_cons2 (b b2 : List String) (bs2 : List (List String)) :
    interBlank (b :: b2 :: bs2) = b :: [""] :: interBlank (b2 :: bs2) := rfl

theorem ledgerBlocksTrim_cons_shape (blocks : List (List String))
    (hne : blocks ≠ []) :
    ∃ R, ledgerBlocksTrim blocks = "---" :: R := by
  cases blocks with
  | nil => exact absurd rfl hne
  | cons b bs =>
    cases bs with
    | nil => exact ⟨b ++ ["---"], rfl⟩
    | cons b2 bs2 =>
      refine ⟨b ++ ["---", ""] ++ ledgerBlocksTrim (b2 :: bs2), ?_⟩
      rw [ledgerBlocksTrim_cons2]
      simp

theorem rstripJoined_blockSeq :
    ∀ blocks : List (List String), blocks ≠ [] →
      rstripJoinedLines (blocks.flatMap fun b => "---" :: b ++ ["---", ""]) =
        ledgerBlocksTrim blocks := by
  intro blocks
  induction blocks with
  | nil => intro h; exact absurd rfl h
  | cons b bs ih =>
    intro _
    cases bs with
    | nil =>
      have h0 : ([b].flatMap fun b => "---" :: b ++ ["---", ""]) =
          ("---" :: b ++ ["---"]) ++ [""] := by simp
      rw [h0, rstripJoined_drop_blank]
      have h1 : ("---" :: b ++ ["---"]) = ("---" :: b) ++ ["---"] := by simp
      rw [h1, rstripJoined_last_solid _ "---" (by decide) (by decide)]
      rw [ledgerBlocksTrim_one]
    | cons b2 bs2 =>
      have h0 : ((b :: b2 :: bs2).flatMap fun b => "---" :: b ++ ["---", ""]) =
          ("---" :: b ++ ["---", ""]) ++
            ((b2 :: bs2).flatMap fun b => "---" :: b ++ ["---", ""]) := by
        simp
      rw [h0, rstripJoined_append_keep _ _ ⟨"---", by simp, by decide⟩,
        ih (by simp), ledgerBlocksTrim_cons2]

theorem splitBlocks_trim :
    ∀ blocks : List (List String),
      (∀ b ∈ blocks, (∀ l ∈ b, (pyStrip l == "---") = false) ∧ b ≠ []) →
      splitBlocks (ledgerBlocksTrim blocks) = interBlank blocks := by
  intro blocks
  induction blocks with
  | nil => intro _; rfl
  | cons b bs ih =>
    intro h
    rcases h b (List.mem_cons_self _ _) with ⟨hb1, hb2⟩
    cases bs with
    | nil =>
      have h0 : ledgerBlocksTrim [b] = [] ++ "---" :: (b ++ "---" :: []) := by
        rw [ledgerBlocksTrim_one]
        simp
      rw [h0, splitBlocks_sep, splitBlocks_sep, splitBlocks_noSep b hb1 hb2]
      rfl
    | cons b2 bs2 =>
      rcases ledgerBlocksTrim_cons_shape (b2 :: bs2) (by simp) with ⟨R, hR⟩
      have h0 : ledgerBlocksTrim (b :: b2 :: bs2) =
          [] ++ "---" :: (b ++ "---" :: ("" :: ("---" :: R))) := by
        rw [ledgerBlocksTrim_cons2, hR]
        simp
      rw [h0, splitBlocks_sep, splitBlocks_sep, splitBlocks_noSep b hb1 hb2]
      have h1 : ("" :: "---" :: R) = [""] ++ "---" :: R := rfl
      rw [h1, splitBlocks_sep]
      rw [splitBlocks_noSep [""] (by intro l hl; simp at hl; subst hl; decide)
        (by simp)]
      have hsb : splitBlocks R = interBlank (b2 :: bs2) := by
        have h2 := ih (fun x hx => h x (List.mem_cons_of_mem _ hx))
        rw [hR] at h2
        have h3 : ("---" :: R) = [] ++ "---" :: R := rfl
        rw [h3, splitBlocks_sep] at h2
        simpa using h2
      rw [hsb, interBlank_cons2]
      rw [show splitBlocks ([] : List String) = [] from rfl]
      simp

theorem filterMap_interBlank {α : Type} (f : List String → Option α)
    (hf : f [""] = none) :
    ∀ blocks, (interBlank blocks).filterMap f = blocks.filterMap f := by
  intro blocks
  induction blocks with
  | nil => rfl
  | cons b bs ih =>
    cases bs with
    | nil => rfl
    | cons b2 bs2 =>
      rw [show interBlank (b :: b2 :: bs2) = b :: [""] :: interBlank (b2 :: bs2)
        from rfl]
      rw [List.filterMap_cons, List.filterMap_cons, hf]
      rw [List.filterMap_cons f b (b2 :: bs2)]
      rw [ih]

/-!
## Lemmas: parsed values are single-line, and saved choices are stripped
-/

theorem pySplitGo_nil_pieces (acc : List Char) (hacc : ∀ c ∈ acc, pyBreak c = false) :
    ∀ p ∈ pySplitGo [] acc, ∀ c ∈ p, pyBreak c = false := by
  intro p hp c hc
  by_cases he : acc.isEmpty
  · simp [pySplitGo_nil_eq, he] at hp
  · simp only [pySplitGo_nil_eq, he, Bool.false_eq_true, if_false,
      List.mem_singleton] at hp
    subst hp
    exact hacc c (List.mem_reverse.1 hc)

theorem pySplitGo_pieces_noBreak :
    ∀ (n : Nat) (cs : List Char), cs.length ≤ n → ∀ (acc : List Char),
      (∀ c ∈ acc, pyBreak c = false) →
      ∀ p ∈ pySplitGo cs acc, ∀ c ∈ p, pyBreak c = false := by
  intro n
  induction n with
  | zero =>
    intro cs hlen acc hacc
    have hcs : cs = [] := List.length_eq_zero.1 (Nat.le_zero.1 hlen)
    subst hcs
    exact pySplitGo_nil_pieces acc hacc
  | succ n ih =>
    intro cs hlen acc hacc
    cases cs with
    | nil => exact pySplitGo_nil_pieces acc hacc
    | cons d ds =>
      intro p hp c hc
      rw [List.length_cons, Nat.succ_le_succ_iff] at hlen
      by_cases hdr : (d == '\r') = true
      · rw [pySplitGo_cons, if_pos hdr] at hp
        rcases List.mem_cons.1 hp with h1 | h1
        · subst h1
          exact hacc c (List.mem_reverse.1 hc)
        · cases ds with
          | nil =>
            have h1x : p ∈ ([] : List (List Char)) := h1
            simp at h1x
          | cons d2 ds2 =>
            have h1x : p ∈ (if (d2 == '\n') = true then pySplitGo ds2 []
                else pySplitGo (d2 :: ds2) []) := h1
            by_cases hh : (d2 == '\n') = true
            · rw [if_pos hh] at h1x
              refine ih ds2 ?_ [] (by simp) p h1x c hc
              rw [List.length_cons] at hlen
              omega
            · rw [if_neg hh] at h1x
              exact ih (d2 :: ds2) hlen [] (by simp) p h1x c hc
      · by_cases hdb : pyBreak d = true
        · rw [pySplitGo_cons, if_neg hdr, if_pos hdb] at hp
          rcases List.mem_cons.1 hp with h1 | h1
          · subst h1
            exact hacc c (List.mem_reverse.1 hc)
          · exact ih ds hlen [] (by simp) p h1 c hc
        · rw [pySplitGo_cons, if_neg hdr, if_neg hdb] at hp
          refine ih ds hlen (d :: acc) ?_ p hp c hc
          intro e he
          rcases List.mem_cons.1 he with h1 | h1
          · subst h1
            simpa using hdb
          · exact hacc e h1

theorem pySplitlines_noBreak (s : String) :
    ∀ l ∈ pySplitlines s, noBreak l = true := by
  intro l hl
  unfold pySplitlines at hl
  rcases List.mem_map.1 hl with ⟨p, hp, hpe⟩
  subst hpe
  rw [noBreak, List.all_eq_true]
  intro c hc
  have := pySplitGo_pieces_noBreak s.data.length s.data le_rfl [] (by simp)
    p hp c hc
  simp [this]

theorem lastLookup_mem {α : Type} (xs : List (String × α)) (k : String) (v : α)
    (h : lastLookup xs k = some v) : (k, v) ∈ xs := by
  unfold lastLookup at h
  cases hf : xs.reverse.find? (fun e => e.1 == k) with
  | none => rw [hf] at h; simp at h
  | some e =>
    rw [hf] at h
    simp only [Option.map_some'] at h
    injection h with h1
    have hm := List.mem_of_find?_eq_some hf
    have hp := List.find?_some hf
    have hk : e.1 = k := by simpa using hp
    have he : e = (k, v) := by
      cases e
      cases hk
      cases h1
      rfl
    subst he
    exact List.mem_reverse.1 hm

theorem lastLookup_cons {α : Type} (k1 : String) (v1 : α)
    (xs : List (String × α)) (k : String) :
    lastLookup ((k1, v1) :: xs) k =
      match lastLookup xs k with
      | some v => some v
      | none => if k1 == k then some v1 else none := by
  unfold lastLookup
  rw [List.reverse_cons, List.find?_append]
  cases hf : xs.reverse.find? (fun e => e.1 == k) with
  | none =>
    by_cases hk : (k1 == k) = true
    · simp [Option.or, List.find?, hk]
    · simp [Option.or, List.find?, hk]
  | some e => simp [Option.or]

theorem lastLookup_map_keyed {β α : Type} (key : β → String) (g : String → α) :
    ∀ (items : List β) (k : String),
      lastLookup (items.map fun t => (key t, g (key t))) k =
        if k ∈ items.map key then some (g k) else none := by
  intro items
  induction items with
  | nil => intro k; simp [lastLookup]
  | cons t ts ih =>
    intro k
    rw [List.map_cons, lastLookup_cons, ih k, List.map_cons]
    by_cases h : k ∈ ts.map key
    · rw [if_pos h, if_pos (List.mem_cons_of_mem _ h)]
    · rw [if_neg h]
      by_cases h2 : (key t == k) = true
      · have hkk : key t = k := by simpa using h2
        show (if (key t == k) = true then some (g (key t)) else none) = _
        rw [if_pos h2, hkk, if_pos (List.mem_cons_self _ _)]
      · have h3 : k ∉ (key t :: ts.map key) := by
          simp only [List.mem_cons]
          rintro (h4 | h4)
          · rw [h4] at h2
            simp at h2
          · exact h h4
        show (if (key t == k) = true then some (g (key t)) else none) = _
        rw [if_neg h2, if_neg h3]

theorem parse_entry_props (lines : List String)
    (hnb : ∀ l ∈ lines, noBreak l = true) :
    ∀ p ∈ parse_existing_entries lines,
      p.2.test_id = p.1 ∧
      lstripL p.2.create.data = p.2.create.data ∧
      rstripL p.2.create.data = p.2.create.data ∧
      noBreak p.2.create = true ∧
      lstripL p.2.notes.data = p.2.notes.data ∧
      rstripL p.2.notes.data = p.2.notes.data ∧
      noBreak p.2.notes = true := by
  intro p hp
  unfold parse_existing_entries at hp
  rcases List.mem_filterMap.1 hp with ⟨block, hb, hbe⟩
  have hbl : ∀ l ∈ block, noBreak l = true := by
    intro l hl
    rcases splitBlocksGo_lines_mem lines [] block hb l hl with h1 | h1
    · exact hnb l h1
    · simp at h1
  unfold testsEntryOf at hbe
  by_cases hid : (pyStrip (pick block "ID") == "") = true
  · rw [if_pos hid] at hbe
    simp at hbe
  · rw [if_neg hid] at hbe
    injection hbe with h1
    subst h1
    refine ⟨rfl, ?_, ?_, ?_, ?_, ?_, ?_⟩
    · exact pyStrip_lstrip _
    · exact pyStrip_rstrip _
    · exact noBreak_pyStrip _ (pick_noBreak _ _ hbl)
    · exact lstripL_rstripL _ (pick_noLead block "Notes")
    · exact rstripL_idem _
    · exact noBreak_pyRstrip _ (pick_noBreak _ _ hbl)

theorem testsChoiceFor_props (existing : Option String) (t : TestItem) :
    (testsChoiceFor (testsSavedOf existing) t).test_id = normWs t.id ∧
    lstripL (testsChoiceFor (testsSavedOf existing) t).create.data =
      (testsChoiceFor (testsSavedOf existing) t).create.data ∧
    rstripL (testsChoiceFor (testsSavedOf existing) t).create.data =
      (testsChoiceFor (testsSavedOf existing) t).create.data ∧
    noBreak (testsChoiceFor (testsSavedOf existing) t).create = true ∧
    lstripL (testsChoiceFor (testsSavedOf existing) t).notes.data =
      (testsChoiceFor (testsSavedOf existing) t).notes.data ∧
    rstripL (testsChoiceFor (testsSavedOf existing) t).notes.data =
      (testsChoiceFor (testsSavedOf existing) t).notes.data ∧
    noBreak (testsChoiceFor (testsSavedOf existing) t).notes = true := by
  unfold testsChoiceFor
  cases hl : lastLookup (testsSavedOf existing) (normWs t.id) with
  | none => exact ⟨rfl, rfl, rfl, rfl, rfl, rfl, rfl⟩
  | some c =>
    have hmem := lastLookup_mem _ _ _ hl
    cases existing with
    | none => simp [testsSavedOf] at hmem
    | some text =>
      have hprops := parse_entry_props (pySplitlines text)
        (pySplitlines_noBreak text) (normWs t.id, c) (by simpa [testsSavedOf] using hmem)
      exact ⟨hprops.1, hprops.2.1, hprops.2.2.1, hprops.2.2.2.1,
        hprops.2.2.2.2.1, hprops.2.2.2.2.2.1, hprops.2.2.2.2.2.2⟩

theorem filterMap_all_some {β γ : Type} (f : β → Option γ) (g : β → γ) :
    ∀ l : List β, (∀ x ∈ l, f x = some (g x)) → l.filterMap f = l.map g := by
  intro l
  induction l with
  | nil => intro _; rfl
  | cons x xs ih =>
    intro h
    rw [List.filterMap_cons, h x (List.mem_cons_self _ _),
      ih (fun y hy => h y (List.mem_cons_of_mem _ hy))]
    rfl

/-!
## Lemmas: the dead-code ledger blocks
-/

theorem pick_deadBody_ID (category : String) (t : DeadItem) (remove notes : String) :
    pick (deadBlockBody category t remove notes) "ID" = pyStrip t.id := by
  unfold deadBlockBody
  rw [pick_cons_some _ _ _ _ (mkl_make2 "ID" _ (pyStrip t.id) 'I' ['D'] rfl
    (by decide) (by rw [String.data_append]; rfl))]
  have h := pyStrip_lstrip t.id
  unfold lstripL at h
  rw [h]

theorem pick_deadBody_category (category : String) (t : DeadItem)
    (remove notes : String) (hcl : lstripL category.data = category.data) :
    pick (deadBlockBody category t remove notes) "Category" = category := by
  unfold deadBlockBody
  rw [pick_cons_none _ _ _ (mkl_none "Category" _ 'C' 'I' rfl
    (by rw [String.data_append]; rfl) (by decide) (by decide))]
  rw [pick_cons_some _ _ _ _ (mkl_make2 "Category" _ category 'C' "ategory".data rfl
    (by decide) (by rw [String.data_append]; rfl))]
  unfold lstripL at hcl
  rw [hcl]

theorem pick_deadBody_remove (category : String) (t : DeadItem)
    (remove notes : String) (hrl : lstripL remove.data = remove.data) :
    pick (deadBlockBody category t remove notes) "Remove?" = remove := by
  unfold deadBlockBody
  rw [pick_cons_none _ _ _ (mkl_none "Remove?" _ 'R' 'I' rfl
    (by rw [String.data_append]; rfl) (by decide) (by decide))]
  rw [pick_cons_none _ _ _ (mkl_none "Remove?" _ 'R' 'C' rfl
    (by rw [String.data_append]; rfl) (by decide) (by decide))]
  rw [pick_cons_some _ _ _ _ (mkl_make2 "Remove?" _ remove 'R' "emove?".data rfl
    (by decide) (by rw [String.data_append]; rfl))]
  unfold lstripL at hrl
  rw [hrl]

theorem pick_deadBody_notes (category : String) (t : DeadItem)
    (remove notes : String)
    (hnl : lstripL notes.data = notes.data)
    (hnr : rstripL notes.data = notes.data) :
    pick (deadBlockBody category t remove notes) "Notes" = notes := by
  unfold deadBlockBody
  rw [pick_cons_none _ _ _ (mkl_none "Notes" _ 'N' 'I' rfl
    (by rw [String.data_append]; rfl) (by decide) (by decide))]
  rw [pick_cons_none _ _ _ (mkl_none "Notes" _ 'N' 'C' rfl
    (by rw [String.data_append]; rfl) (by decide) (by decide))]
  rw [pick_cons_none _ _ _ (mkl_none "Notes" _ 'N' 'R' rfl
    (by rw [String.data_append]; rfl) (by decide) (by decide))]
  rw [pick_cons_none _ _ _ (mkl_none "Notes" _ 'N' 'I' rfl
    (by rw [String.data_append]; rfl) (by decide) (by decide))]
  rw [pick_cons_none _ _ _ (mkl_none "Notes" _ 'N' 'T' rfl
    (by rw [String.data_append]; rfl) (by decide) (by decide))]
  rw [pick_cons_none _ _ _ (mkl_none "Notes" _ 'N' 'L' rfl
    (by rw [String.data_append]; rfl) (by decide) (by decide))]
  rw [pick_cons_none _ _ _ (mkl_none "Notes" _ 'N' 'W' rfl
    (by rw [String.data_append]; rfl) (by decide) (by decide))]
  rw [pick_cons_none _ _ _ (mkl_none "Notes" _ 'N' 'E' rfl
    (by rw [String.data_append]; rfl) (by decide) (by decide))]
  rw [pick_cons_none _ _ _ (mkl_none "Notes" _ 'N' 'C' rfl
    (by rw [String.data_append]; rfl) (by decide) (by decide))]
  rw [pick_cons_none _ _ _ (mkl_none "Notes" _ 'N' 'R' rfl
    (by rw [String.data_append]; rfl) (by decide) (by decide))]
  rw [pick_cons_none _ _ _ (mkl_none "Notes" _ 'N' 'R' rfl
    (by rw [String.data_append]; rfl) (by decide) (by decide))]
  cases hnd : notes.data with
  | nil =>
    have hnotes : notes = "" := strExt _ _ (by rw [hnd])
    subst hnotes
    rw [show pyRstrip ("Notes: " ++ "") = "Notes:" by decide]
    rw [pick_cons_some _ _ _ ""
      (show matchKeyLine "Notes" "Notes:" = some "" by decide)]
  | cons c cr =>
    have hline : pyRstrip ("Notes: " ++ notes) = "Notes: " ++ notes := by
      apply strExt
      show rstripL ("Notes: " ++ notes).data = _
      rw [String.data_append]
      rw [rstripL_append_of_ne_nil _ _ (by rw [hnr, hnd]; simp)]
      rw [hnr]
    rw [hline]
    rw [pick_cons_some _ _ _ _ (mkl_make2 "Notes" _ notes 'N' "otes".data rfl
      (by decide) (by rw [String.data_append]; rfl))]
    unfold lstripL at hnl
    rw [hnl]

theorem deadEntryOf_body (category : String) (t : DeadItem)
    (remove notes : String)
    (hid : (pyStrip t.id == "") = false)
    (hcatl : lstripL category.data = category.data)
    (hcatr : rstripL category.data = category.data)
    (hrl : lstripL remove.data = remove.data)
    (hrr : rstripL remove.data = remove.data)
    (hnl : lstripL notes.data = notes.data)
    (hnr : rstripL notes.data = notes.data) :
    deadEntryOf (deadBlockBody category t remove notes) =
      some (pyStrip t.id,
        { id := pyStrip t.id, category := category, remove := remove,
          notes := notes }) := by
  have hsc : pyStrip category = category := by
    apply strExt
    show stripL category.data = category.data
    unfold stripL
    rw [hcatl, hcatr]
  have hsr : pyStrip remove = remove := by
    apply strExt
    show stripL remove.data = remove.data
    unfold stripL
    rw [hrl, hrr]
  have hrn : pyRstrip notes = notes := by
    apply strExt
    show rstripL notes.data = notes.data
    exact hnr
  unfold deadEntryOf
  rw [pick_deadBody_ID, pick_deadBody_category category t remove notes hcatl,
    pick_deadBody_remove category t remove notes hrl,
    pick_deadBody_notes category t remove notes hnl hnr]
  simp [pyStrip_idem, hsc, hsr, hrn, hid]

theorem deadBody_ne_nil (category : String) (t : DeadItem)
    (remove notes : String) :
    deadBlockBody category t remove notes ≠ [] := by
  simp [deadBlockBody]

theorem deadBody_noSep (category : String) (t : DeadItem)
    (remove notes : String) :
    ∀ l ∈ deadBlockBody category t remove notes,
      (pyStrip l == "---") = false := by
  intro l hl
  unfold deadBlockBody at hl
  simp only [List.mem_cons, List.not_mem_nil, or_false] at hl
  rcases hl with h|h|h|h|h|h|h|h|h|h|h|h <;> subst h
  · exact strip_head_ne_dashes2 _ 'I' (by rw [String.data_append]; rfl)
      (by decide) (by decide)
  · exact strip_head_ne_dashes2 _ 'C' (by rw [String.data_append]; rfl)
      (by decide) (by decide)
  · exact strip_head_ne_dashes2 _ 'R' (by rw [String.data_append]; rfl)
      (by decide) (by decide)
  · exact strip_head_ne_dashes2 _ 'I' (by rw [String.data_append]; rfl)
      (by decide) (by decide)
  · exact strip_head_ne_dashes2 _ 'T' (by rw [String.data_append]; rfl)
      (by decide) (by decide)
  · exact strip_head_ne_dashes2 _ 'L' (by rw [String.data_append]; rfl)
      (by decide) (by decide)
  · exact strip_head_ne_dashes2 _ 'W' (by rw [String.data_append]; rfl)
      (by decide) (by decide)
  · exact strip_head_ne_dashes2 _ 'E' (by rw [String.data_append]; rfl)
      (by decide) (by decide)
  · exact strip_head_ne_dashes2 _ 'C' (by rw [String.data_append]; rfl)
      (by decide) (by decide)
  · exact strip_head_ne_dashes2 _ 'R' (by rw [String.data_append]; rfl)
      (by decide) (by decide)
  · exact strip_head_ne_dashes2 _ 'R' (by rw [String.data_append]; rfl)
      (by decide) (by decide)
  · exact strip_head_ne_dashes2 _ 'N'
      (rstrip_head? "Notes: " notes 'N' rfl (by decide)) (by decide) (by decide)

theorem deadBody_noBreak (category : String) (t : DeadItem)
    (remove notes : String)
    (hi : noBreak (pyStrip t.id) = true) (hcat : noBreak category = true)
    (hr : noBreak remove = true) (hn : noBreak notes = true) :
    ∀ l ∈ deadBlockBody category t remove notes, noBreak l = true := by
  intro l hl
  unfold deadBlockBody at hl
  simp only [List.mem_cons, List.not_mem_nil, or_false] at hl
  rcases hl with h|h|h|h|h|h|h|h|h|h|h|h <;> subst h
  · exact noBreak_append _ _ (by decide) hi
  · exact noBreak_append _ _ (by decide) hcat
  · exact noBreak_append _ _ (by decide) hr
  · exact noBreak_append _ _ (by decide) (noBreak_normWs _)
  · exact noBreak_append _ _ (by decide) (noBreak_normWs _)
  · exact noBreak_append _ _ (by decide) (noBreak_normWs _)
  · exact noBreak_append _ _ (by decide) (noBreak_normWs _)
  · exact noBreak_append _ _ (by decide) (noBreak_normWs _)
  · exact noBreak_append _ _ (by decide) (noBreak_normWs _)
  · exact noBreak_append _ _ (by decide) (noBreak_normWs _)
  · exact noBreak_append _ _ (by decide) (noBreak_normWs _)
  · exact noBreak_pyRstrip _ (noBreak_append _ _ (by decide) hn)

theorem deadBlocksFor_ok (saved : List (String × ProgressEntry)) :
    ∀ items : List (String × DeadItem),
      (∀ p ∈ items, (pyStrip p.2.id == "") = false) →
      deadBlocksFor saved items = .ok
        ((items.map fun p => deadBlockBody p.1 p.2
            (deadEntryFor saved p.2).remove (deadEntryFor saved p.2).notes).flatMap
          fun b => "---" :: b ++ ["---", ""]) := by
  intro items
  induction items with
  | nil => intro _; rfl
  | cons p ps ih =>
    intro h
    obtain ⟨category, t⟩ := p
    have ht := h (category, t) (List.mem_cons_self _ _)
    simp only [deadBlocksFor, ht, Bool.false_eq_true, if_false]
    rw [ih (fun x hx => h x (List.mem_cons_of_mem _ hx))]
    simp [deadBlock, Except.map]

theorem deadBlocksFor_error (saved : List (String × ProgressEntry)) :
    ∀ items : List (String × DeadItem),
      (∃ p ∈ items, (pyStrip p.2.id == "") = true) →
      ∃ msg, deadBlocksFor saved items = .error msg := by
  intro items
  induction items with
  | nil => intro h; simp at h
  | cons p ps ih =>
    intro h
    obtain ⟨category, t⟩ := p
    by_cases ht : (pyStrip t.id == "") = true
    · refine ⟨"Missing id for item in category " ++ category ++
        ". Regenerate docs/audit/dead_code_audit.json with stable IDs.", ?_⟩
      simp only [deadBlocksFor, ht, if_true]
    · have hts : ∃ x ∈ ps, (pyStrip x.2.id == "") = true := by
        rcases h with ⟨x, hx, hxe⟩
        rcases List.mem_cons.1 hx with h1 | h1
        · subst h1; exact absurd hxe ht
        · exact ⟨x, h1, hxe⟩
      rcases ih hts with ⟨msg, hmsg⟩
      refine ⟨msg, ?_⟩
      simp only [deadBlocksFor, ht, Bool.false_eq_true, if_false]
      rw [hmsg]
      rfl

theorem parse_dead_entry_props (lines : List String)
    (hnb : ∀ l ∈ lines, noBreak l = true) :
    ∀ p ∈ parse_progress_entries lines,
      p.2.id = p.1 ∧
      lstripL p.2.remove.data = p.2.remove.data ∧
      rstripL p.2.remove.data = p.2.remove.data ∧
      noBreak p.2.remove = true ∧
      lstripL p.2.notes.data = p.2.notes.data ∧
      rstripL p.2.notes.data = p.2.notes.data ∧
      noBreak p.2.notes = true := by
  intro p hp
  unfold parse_progress_entries at hp
  rcases List.mem_filterMap.1 hp with ⟨block, hb, hbe⟩
  have hbl : ∀ l ∈ block, noBreak l = true := by
    intro l hl
    rcases splitBlocksGo_lines_mem lines [] block hb l hl with h1 | h1
    · exact hnb l h1
    · simp at h1
  unfold deadEntryOf at hbe
  by_cases hid : (pick block "ID" == "") = true
  · rw [if_pos hid] at hbe
    simp at hbe
  · rw [if_neg hid] at hbe
    injection hbe with h1
    subst h1
    refine ⟨rfl, ?_, ?_, ?_, ?_, ?_, ?_⟩
    · exact pyStrip_lstrip _
    · exact pyStrip_rstrip _
    · exact noBreak_pyStrip _ (pick_noBreak _ _ hbl)
    · exact lstripL_rstripL _ (pick_noLead block "Notes")
    · exact rstripL_idem _
    · exact noBreak_pyRstrip _ (pick_noBreak _ _ hbl)

theorem deadEntryFor_props (existing : Option String) (t : DeadItem) :
    (deadEntryFor (deadSavedOf existing) t).id = pyStrip t.id ∧
    lstripL (deadEntryFor (deadSavedOf existing) t).remove.data =
      (deadEntryFor (deadSavedOf existing) t).remove.data ∧
    rstripL (deadEntryFor (deadSavedOf existing) t).remove.data =
      (deadEntryFor (deadSavedOf existing) t).remove.data ∧
    noBreak (deadEntryFor (deadSavedOf existing) t).remove = true ∧
    lstripL (deadEntryFor (deadSavedOf existing) t).notes.data =
      (deadEntryFor (deadSavedOf existing) t).notes.data ∧
    rstripL (deadEntryFor (deadSavedOf existing) t).notes.data =
      (deadEntryFor (deadSavedOf existing) t).notes.data ∧
    noBreak (deadEntryFor (deadSavedOf existing) t).notes = true := by
  unfold deadEntryFor
  cases hl : lastLookup (deadSavedOf existing) (pyStrip t.id) with
  | none => exact ⟨rfl, rfl, rfl, rfl, rfl, rfl, rfl⟩
  | some e =>
    have hmem := lastLookup_mem _ _ _ hl
    cases existing with
    | none => simp [deadSavedOf] at hmem
    | some text =>
      have hprops := parse_dead_entry_props (pySplitlines text)
        (pySplitlines_noBreak text) (pyStrip t.id, e)
        (by simpa [deadSavedOf] using hmem)
      exact ⟨hprops.1, hprops.2.1, hprops.2.2.1, hprops.2.2.2.1,
        hprops.2.2.2.2.1, hprops.2.2.2.2.2.1, hprops.2.2.2.2.2.2⟩

theorem lastLookup_map_last {β α : Type} (key : β → String) (val : β → α) :
    ∀ (items : List β) (k : String), k ∈ items.map key →
      ∃ s ∈ items, key s = k ∧
        lastLookup (items.map fun x => (key x, val x)) k = some (val s) := by
  intro items
  induction items with
  | nil => intro k h; simp at h
  | cons x xs ih =>
    intro k hk
    rw [List.map_cons] at hk
    rw [List.map_cons, lastLookup_cons]
    by_cases hmem : k ∈ xs.map key
    · rcases ih k hmem with ⟨s, hs, hks, hls⟩
      exact ⟨s, List.mem_cons_of_mem _ hs, hks, by rw [hls]⟩
    · have hkx : key x = k := by
        rcases List.mem_cons.1 hk with h1 | h1
        · exact h1.symm
        · exact absurd h1 hmem
      cases hl : lastLookup (xs.map fun x => (key x, val x)) k with
      | some v =>
        exfalso
        have hm := lastLookup_mem _ _ _ hl
        rcases List.mem_map.1 hm with ⟨y, hy, hye⟩
        have : key y = k := congrArg Prod.fst hye
        exact hmem (this ▸ List.mem_map_of_mem key hy)
      | none =>
        refine ⟨x, List.mem_cons_self _ _, hkx, ?_⟩
        show (match (none : Option α) with
          | some v => some v
          | none => if key x == k then some (val x) else none) = some (val x)
        rw [show (key x == k) = true by simp [hkx]]
        rfl

/-!
## Assembly: what a regenerated ledger looks like, and what parsing it
back yields
-/

theorem flat_mem_noBreak (blocks : List (List String))
    (h : ∀ b ∈ blocks, ∀ l ∈ b, noBreak l = true) :
    ∀ l ∈ blocks.flatMap (fun b => "---" :: b ++ ["---", ""]),
      noBreak l = true := by
  intro l hl
  rcases List.mem_flatMap.1 hl with ⟨b, hb, hlb⟩
  rcases List.mem_cons.1 hlb with h1 | h1
  · subst h1; decide
  · rcases List.mem_append.1 h1 with h2 | h2
    · exact h b hb l h2
    · rcases List.mem_cons.1 h2 with h3 | h3
      · subst h3; decide
      · have : l = "" := by simpa using h3
        subst this; decide

theorem splitlines_ledgerText (header : String) (headerLines : List String)
    (blocks : List (List String))
    (hh : (pyRstrip header).data = joinNL (headerLines.map String.data))
    (hhne : headerLines ≠ [])
    (hhnb : ∀ l ∈ headerLines, noBreak l = true)
    (hhnw : ∃ l ∈ headerLines, allWsLine l = false)
    (hbnb : ∀ b ∈ blocks, ∀ l ∈ b, noBreak l = true)
    (hbne : blocks ≠ []) :
    pySplitlines (ledgerText header
        (blocks.flatMap fun b => "---" :: b ++ ["---", ""])) =
      (headerLines ++ [""]) ++ ledgerBlocksTrim blocks := by
  have hsolid : "---" ∈ blocks.flatMap fun b => "---" :: b ++ ["---", ""] := by
    cases blocks with
    | nil => exact absurd rfl hbne
    | cons b bs => simp
  unfold ledgerText
  rw [joinLines_graft (pyRstrip header) headerLines
    ("" :: blocks.flatMap fun b => "---" :: b ++ ["---", ""]) hh hhne (by simp)]
  have hshape :
      headerLines ++ "" :: (blocks.flatMap fun b => "---" :: b ++ ["---", ""]) =
      (headerLines ++ [""]) ++
        blocks.flatMap fun b => "---" :: b ++ ["---", ""] := by
    simp
  rw [hshape]
  have hnb : ∀ l ∈ (headerLines ++ [""]) ++
      blocks.flatMap (fun b => "---" :: b ++ ["---", ""]), noBreak l = true := by
    intro l hl
    rcases List.mem_append.1 hl with h1 | h1
    · rcases List.mem_append.1 h1 with h2 | h2
      · exact hhnb l h2
      · have : l = "" := by simpa using h2
        subst this; decide
    · exact flat_mem_noBreak blocks hbnb l h1
  have hnw : ∃ l ∈ (headerLines ++ [""]) ++
      blocks.flatMap (fun b => "---" :: b ++ ["---", ""]), allWsLine l = false := by
    rcases hhnw with ⟨l, hl, hlw⟩
    exact ⟨l, List.mem_append_left _ (List.mem_append_left _ hl), hlw⟩
  rw [splitlines_written _ hnb hnw]
  rw [rstripJoined_append_keep _ _ ⟨"---", hsolid, by decide⟩]
  rw [rstripJoined_blockSeq blocks hbne]

theorem parse_ledgerLines {α : Type} (f : List String → Option α)
    (headerLines : List String) (blocks : List (List String))
    (hfh : f (headerLines ++ [""]) = none) (hfe : f [""] = none)
    (hhsep : ∀ l ∈ headerLines, (pyStrip l == "---") = false)
    (hsep : ∀ b ∈ blocks, (∀ l ∈ b, (pyStrip l == "---") = false) ∧ b ≠ [])
    (hbne : blocks ≠ []) :
    (splitBlocks ((headerLines ++ [""]) ++ ledgerBlocksTrim blocks)).filterMap f
      = blocks.filterMap f := by
  rcases ledgerBlocksTrim_cons_shape blocks hbne with ⟨R, hR⟩
  rw [hR, splitBlocks_sep]
  have hA : splitBlocks (headerLines ++ [""]) = [headerLines ++ [""]] := by
    apply splitBlocks_noSep
    · intro l hl
      rcases List.mem_append.1 hl with h1 | h1
      · exact hhsep l h1
      · have : l = "" := by simpa using h1
        subst this; decide
    · simp
  have hRB : splitBlocks R = interBlank blocks := by
    have h2 := splitBlocks_trim blocks hsep
    rw [hR] at h2
    have h3 : ("---" :: R) = [] ++ "---" :: R := rfl
    rw [h3, splitBlocks_sep] at h2
    simpa using h2
  rw [hA, hRB, List.filterMap_append, filterMap_interBlank f hfe blocks]
  simp [List.filterMap_cons, hfh]

theorem update_tests_ok (items : List TestItem) (existing : Option String)
    (hids : ∀ t ∈ items, (normWs t.id == "") = false) :
    update_tests_progress items existing =
      .ok (ledgerText HEADER_TESTS (testsFlatFor existing items)) := by
  unfold update_tests_progress
  rw [testsBlocksFor_ok (testsSavedOf existing) items hids]
  rfl

theorem tests_reparse (items : List TestItem) (existing : Option String)
    (hids : ∀ t ∈ items, (normWs t.id == "") = false) (hne : items ≠ []) :
    parse_existing_entries (pySplitlines
        (ledgerText HEADER_TESTS (testsFlatFor existing items))) =
      items.map (testsRegenEntry existing) := by
  have hbne : testsBodiesFor existing items ≠ [] := by
    cases items with
    | nil => exact absurd rfl hne
    | cons t ts => simp [testsBodiesFor]
  have hbnb : ∀ b ∈ testsBodiesFor existing items, ∀ l ∈ b,
      noBreak l = true := by
    intro b hb
    rcases List.mem_map.1 hb with ⟨t, ht, hte⟩
    subst hte
    exact testsBody_noBreak t _ _ (testsChoiceFor_props existing t).2.2.2.1
      (testsChoiceFor_props existing t).2.2.2.2.2.2
  have hsep : ∀ b ∈ testsBodiesFor existing items,
      (∀ l ∈ b, (pyStrip l == "---") = false) ∧ b ≠ [] := by
    intro b hb
    rcases List.mem_map.1 hb with ⟨t, ht, hte⟩
    subst hte
    exact ⟨testsBody_noSep t _ _, testsBody_ne_nil t _ _⟩
  have hflat : testsFlatFor existing items =
      (testsBodiesFor existing items).flatMap
        fun b => "---" :: b ++ ["---", ""] := rfl
  rw [hflat, splitlines_ledgerText HEADER_TESTS HEADER_TESTS_LINES _
    (by decide) (by decide) (by decide) (by decide) hbnb hbne]
  unfold parse_existing_entries
  rw [parse_ledgerLines testsEntryOf HEADER_TESTS_LINES _ (by decide)
    (by decide) (by decide) hsep hbne]
  unfold testsBodiesFor
  rw [List.filterMap_map]
  apply filterMap_all_some
  intro t ht
  have hprops := testsChoiceFor_props existing t
  have h := testsEntryOf_body t
    (testsChoiceFor (testsSavedOf existing) t).create
    (testsChoiceFor (testsSavedOf existing) t).notes (hids t ht)
    hprops.2.1 hprops.2.2.1 hprops.2.2.2.2.1 hprops.2.2.2.2.2.1
  show testsEntryOf (testsBlockBody t
    (testsChoiceFor (testsSavedOf existing) t).create
    (testsChoiceFor (testsSavedOf existing) t).notes) =
      some (testsRegenEntry existing t)
  rw [h]
  unfold testsRegenEntry
  rw [← hprops.1]

theorem iter_items_cases (p : DeadAudit) :
    ∀ q ∈ iter_items p,
      q.1 = "Safe removal (high confidence)" ∨
      q.1 = "Needs manual confirmation" ∨
      q.1 = "Dependency findings" := by
  intro q hq
  unfold iter_items at hq
  rcases List.mem_append.1 hq with h1 | h1
  · rcases List.mem_append.1 h1 with h2 | h2
    · rcases List.mem_map.1 h2 with ⟨i, _, he⟩
      subst he
      exact Or.inl rfl
    · rcases List.mem_map.1 h2 with ⟨i, _, he⟩
      subst he
      exact Or.inr (Or.inl rfl)
  · rcases List.mem_map.1 h1 with ⟨i, _, he⟩
    subst he
    exact Or.inr (Or.inr rfl)

theorem iter_cat_facts (p : DeadAudit) :
    ∀ q ∈ iter_items p, noBreak q.1 = true ∧
      lstripL q.1.data = q.1.data ∧ rstripL q.1.data = q.1.data := by
  intro q hq
  rcases iter_items_cases p q hq with h | h | h <;> rw [h] <;>
    exact ⟨by decide, by decide, by decide⟩

theorem update_dead_ok (payload : DeadAudit) (existing : Option String)
    (hids : ∀ p ∈ iter_items payload, (pyStrip p.2.id == "") = false) :
    update_dead_code_progress payload existing =
      .ok (ledgerText HEADER_DEAD (deadFlatFor existing payload)) := by
  unfold update_dead_code_progress
  rw [deadBlocksFor_ok (deadSavedOf existing) (iter_items payload) hids]
  rfl

theorem dead_reparse (payload : DeadAudit) (existing : Option String)
    (hids : ∀ p ∈ iter_items payload, (pyStrip p.2.id == "") = false)
    (hidnb : ∀ p ∈ iter_items payload, noBreak (pyStrip p.2.id) = true)
    (hne : iter_items payload ≠ []) :
    parse_progress_entries (pySplitlines
        (ledgerText HEADER_DEAD (deadFlatFor existing payload))) =
      (iter_items payload).map (deadRegenEntry existing) := by
  have hbne : deadBodiesFor existing payload ≠ [] := by
    cases hii : iter_items payload with
    | nil => exact absurd hii hne
    | cons q qs => simp [deadBodiesFor, hii]
  have hbnb : ∀ b ∈ deadBodiesFor existing payload, ∀ l ∈ b,
      noBreak l = true := by
    intro b hb
    rcases List.mem_map.1 hb with ⟨q, hq, hqe⟩
    subst hqe
    exact deadBody_noBreak q.1 q.2 _ _ (hidnb q hq)
      (iter_cat_facts payload q hq).1
      (deadEntryFor_props existing q.2).2.2.2.1
      (deadEntryFor_props existing q.2).2.2.2.2.2.2
  have hsep : ∀ b ∈ deadBodiesFor existing payload,
      (∀ l ∈ b, (pyStrip l == "---") = false) ∧ b ≠ [] := by
    intro b hb
    rcases List.mem_map.1 hb with ⟨q, hq, hqe⟩
    subst hqe
    exact ⟨deadBody_noSep q.1 q.2 _ _, deadBody_ne_nil q.1 q.2 _ _⟩
  have hflat : deadFlatFor existing payload =
      (deadBodiesFor existing payload).flatMap
        fun b => "---" :: b ++ ["---", ""] := rfl
  rw [hflat, splitlines_ledgerText HEADER_DEAD HEADER_DEAD_LINES _
    (by decide) (by decide) (by decide) (by decide) hbnb hbne]
  unfold parse_progress_entries
  rw [parse_ledgerLines deadEntryOf HEADER_DEAD_LINES _ (by decide)
    (by decide) (by decide) hsep hbne]
  unfold deadBodiesFor
  rw [List.filterMap_map]
  apply filterMap_all_some
  intro q hq
  have hprops := deadEntryFor_props existing q.2
  have hcat := iter_cat_facts payload q hq
  have h := deadEntryOf_body q.1 q.2
    (deadEntryFor (deadSavedOf existing) q.2).remove
    (deadEntryFor (deadSavedOf existing) q.2).notes (hids q hq)
    hcat.2.1 hcat.2.2 hprops.2.1 hprops.2.2.1
    hprops.2.2.2.2.1 hprops.2.2.2.2.2.1
  show deadEntryOf (deadBlockBody q.1 q.2
    (deadEntryFor (deadSavedOf existing) q.2).remove
    (deadEntryFor (deadSavedOf existing) q.2).notes) =
      some (deadRegenEntry existing q)
  rw [h]
  rfl

theorem dead_idblocks (payload : DeadAudit) (existing : Option String)
    (hids : ∀ p ∈ iter_items payload, (pyStrip p.2.id == "") = false)
    (hidnb : ∀ p ∈ iter_items payload, noBreak (pyStrip p.2.id) = true)
    (hne : iter_items payload ≠ []) :
    ledgerIdBlocks (ledgerText HEADER_DEAD (deadFlatFor existing payload)) =
      (iter_items payload).map fun p => pyStrip p.2.id := by
  have hbne : deadBodiesFor existing payload ≠ [] := by
    cases hii : iter_items payload with
    | nil => exact absurd hii hne
    | cons q qs => simp [deadBodiesFor, hii]
  have hbnb : ∀ b ∈ deadBodiesFor existing payload, ∀ l ∈ b,
      noBreak l = true := by
    intro b hb
    rcases List.mem_map.1 hb with ⟨q, hq, hqe⟩
    subst hqe
    exact deadBody_noBreak q.1 q.2 _ _ (hidnb q hq)
      (iter_cat_facts payload q hq).1
      (deadEntryFor_props existing q.2).2.2.2.1
      (deadEntryFor_props existing q.2).2.2.2.2.2.2
  have hsep : ∀ b ∈ deadBodiesFor existing payload,
      (∀ l ∈ b, (pyStrip l == "---") = false) ∧ b ≠ [] := by
    intro b hb
    rcases List.mem_map.1 hb with ⟨q, hq, hqe⟩
    subst hqe
    exact ⟨deadBody_noSep q.1 q.2 _ _, deadBody_ne_nil q.1 q.2 _ _⟩
  have hflat : deadFlatFor existing payload =
      (deadBodiesFor existing payload).flatMap
        fun b => "---" :: b ++ ["---", ""] := rfl
  unfold ledgerIdBlocks
  rw [hflat, splitlines_ledgerText HEADER_DEAD HEADER_DEAD_LINES _
    (by decide) (by decide) (by decide) (by decide) hbnb hbne]
  rw [parse_ledgerLines _ HEADER_DEAD_LINES _ (by decide)
    (by decide) (by decide) hsep hbne]
  unfold deadBodiesFor
  rw [List.filterMap_map]
  apply filterMap_all_some
  intro q hq
  show (let i := pyStrip (pick (deadBlockBody q.1 q.2
      (deadEntryFor (deadSavedOf existing) q.2).remove
      (deadEntryFor (deadSavedOf existing) q.2).notes) "ID");
    if i == "" then none else some i) = some (pyStrip q.2.id)
  simp [pick_deadBody_ID, pyStrip_idem, hids q hq]

theorem testsChoiceFor_of_lookup (saved : List (String × SavedChoice))
    (t : TestItem) (c : SavedChoice)
    (h : lastLookup saved (normWs t.id) = some c) :
    testsChoiceFor saved t = c := by
  unfold testsChoiceFor
  rw [h]

theorem testsChoiceFor_key (saved : List (String × SavedChoice))
    (s t : TestItem) (h : normWs s.id = normWs t.id) :
    testsChoiceFor saved s = testsChoiceFor saved t := by
  unfold testsChoiceFor
  rw [h]

theorem deadEntryFor_of_lookup (saved : List (String × ProgressEntry))
    (t : DeadItem) (e : ProgressEntry)
    (h : lastLookup saved (pyStrip t.id) = some e) :
    deadEntryFor saved t = e := by
  unfold deadEntryFor
  rw [h]

theorem deadEntryFor_key (saved : List (String × ProgressEntry))
    (s t : DeadItem) (h : pyStrip s.id = pyStrip t.id) :
    deadEntryFor saved s = deadEntryFor saved t := by
  unfold deadEntryFor
  rw [h]

set_option maxHeartbeats 2000000 in
theorem update_tests_idem (items : List TestItem) (existing : Option String)
    (hids : ∀ t ∈ items, (normWs t.id == "") = false) :
    update_tests_progress items
        (some (ledgerText HEADER_TESTS (testsFlatFor existing items))) =
      .ok (ledgerText HEADER_TESTS (testsFlatFor existing items)) := by
  generalize hT : ledgerText HEADER_TESTS (testsFlatFor existing items) = T
  rw [update_tests_ok items _ hids]
  have hbody : ∀ t ∈ items, testsChoiceFor (testsSavedOf (some T)) t =
      testsChoiceFor (testsSavedOf existing) t := by
    intro t ht
    have hne : items ≠ [] := by
      intro h0
      rw [h0] at ht
      simp at ht
    have h1 : testsSavedOf (some T) =
        parse_existing_entries (pySplitlines T) := rfl
    rw [h1, ← hT, tests_reparse items existing hids hne]
    have hkey : normWs t.id ∈ items.map fun x => normWs x.id :=
      List.mem_map_of_mem _ ht
    rcases lastLookup_map_last (fun x => normWs x.id)
      (fun x => testsChoiceFor (testsSavedOf existing) x) items
      (normWs t.id) hkey with ⟨s, hs, hks, hls⟩
    calc testsChoiceFor (items.map (testsRegenEntry existing)) t
        = testsChoiceFor (testsSavedOf existing) s :=
          testsChoiceFor_of_lookup _ t _ hls
      _ = testsChoiceFor (testsSavedOf existing) t :=
          testsChoiceFor_key _ s t hks
  suffices hf : testsFlatFor (some T) items = testsFlatFor existing items by
    rw [hf, hT]
  unfold testsFlatFor
  congr 1
  apply List.map_congr_left
  intro t ht
  rw [hbody t ht]

set_option maxHeartbeats 2000000 in
theorem update_dead_idem (payload : DeadAudit) (existing : Option String)
    (hids : ∀ p ∈ iter_items payload, (pyStrip p.2.id == "") = false)
    (hidnb : ∀ p ∈ iter_items payload, noBreak (pyStrip p.2.id) = true) :
    update_dead_code_progress payload
        (some (ledgerText HEADER_DEAD (deadFlatFor existing payload))) =
      .ok (ledgerText HEADER_DEAD (deadFlatFor existing payload)) := by
  generalize hT : ledgerText HEADER_DEAD (deadFlatFor existing payload) = T
  rw [update_dead_ok payload _ hids]
  have hbody : ∀ q ∈ iter_items payload,
      (deadEntryFor (deadSavedOf (some T)) q.2).remove =
        (deadEntryFor (deadSavedOf existing) q.2).remove ∧
      (deadEntryFor (deadSavedOf (some T)) q.2).notes =
        (deadEntryFor (deadSavedOf existing) q.2).notes := by
    intro q hq
    have hne : iter_items payload ≠ [] := by
      intro h0
      rw [h0] at hq
      simp at hq
    have h1 : deadSavedOf (some T) =
        parse_progress_entries (pySplitlines T) := rfl
    have hkey : pyStrip q.2.id ∈ (iter_items payload).map
        fun x => pyStrip x.2.id :=
      List.mem_map_of_mem _ hq
    rcases lastLookup_map_last (fun x : String × DeadItem => pyStrip x.2.id)
      (fun x => (deadRegenEntry existing x).2) (iter_items payload)
      (pyStrip q.2.id) hkey with ⟨s, hs, hks, hls⟩
    have hch : deadEntryFor (deadSavedOf (some T)) q.2 =
        (deadRegenEntry existing s).2 := by
      rw [h1, ← hT, dead_reparse payload existing hids hidnb hne]
      exact deadEntryFor_of_lookup _ q.2 _ hls
    have hse : deadEntryFor (deadSavedOf existing) s.2 =
        deadEntryFor (deadSavedOf existing) q.2 :=
      deadEntryFor_key _ s.2 q.2 hks
    rw [hch]
    refine ⟨?_, ?_⟩
    · rw [show (deadRegenEntry existing s).2.remove =
          (deadEntryFor (deadSavedOf existing) s.2).remove from rfl, hse]
    · rw [show (deadRegenEntry existing s).2.notes =
          (deadEntryFor (deadSavedOf existing) s.2).notes from rfl, hse]
  suffices hf : deadFlatFor (some T) payload = deadFlatFor existing payload by
    rw [hf, hT]
  unfold deadFlatFor deadBodiesFor
  congr 1
  apply List.map_congr_left
  intro q hq
  rw [(hbody q hq).1, (hbody q hq).2]

theorem tests_idblocks (items : List TestItem) (existing : Option String)
    (hids : ∀ t ∈ items, (normWs t.id == "") = false) (hne : items ≠ []) :
    ledgerIdBlocks (ledgerText HEADER_TESTS (testsFlatFor existing items)) =
      items.map fun t => normWs t.id := by
  have hbne : testsBodiesFor existing items ≠ [] := by
    cases items with
    | nil => exact absurd rfl hne
    | cons t ts => simp [testsBodiesFor]
  have hbnb : ∀ b ∈ testsBodiesFor existing items, ∀ l ∈ b,
      noBreak l = true := by
    intro b hb
    rcases List.mem_map.1 hb with ⟨t, ht, hte⟩
    subst hte
    exact testsBody_noBreak t _ _ (testsChoiceFor_props existing t).2.2.2.1
      (testsChoiceFor_props existing t).2.2.2.2.2.2
  have hsep : ∀ b ∈ testsBodiesFor existing items,
      (∀ l ∈ b, (pyStrip l == "---") = false) ∧ b ≠ [] := by
    intro b hb
    rcases List.mem_map.1 hb with ⟨t, ht, hte⟩
    subst hte
    exact ⟨testsBody_noSep t _ _, testsBody_ne_nil t _ _⟩
  have hflat : testsFlatFor existing items =
      (testsBodiesFor existing items).flatMap
        fun b => "---" :: b ++ ["---", ""] := rfl
  unfold ledgerIdBlocks
  rw [hflat, splitlines_ledgerText HEADER_TESTS HEADER_TESTS_LINES _
    (by decide) (by decide) (by decide) (by decide) hbnb hbne]
  rw [parse_ledgerLines _ HEADER_TESTS_LINES _ (by decide)
    (by decide) (by decide) hsep hbne]
  unfold testsBodiesFor
  rw [List.filterMap_map]
  apply filterMap_all_some
  intro t ht
  show (let i := pyStrip (pick (testsBlockBody t
      (testsChoiceFor (testsSavedOf existing) t).create
      (testsChoiceFor (testsSavedOf existing) t).notes) "ID");
    if i == "" then none else some i) = some (normWs t.id)
  simp [pick_testsBody_ID, pyStrip_normWs, hids t ht]

theorem lastLookup_append {α : Type} (A B : List (String × α)) (k : String) :
    lastLookup (A ++ B) k =
      match lastLookup B k with
      | some v => some v
      | none => lastLookup A k := by
  unfold lastLookup
  rw [List.reverse_append, List.find?_append]
  cases hf : B.reverse.find? (fun e => e.1 == k) with
  | none => simp [Option.or]
  | some e => simp [Option.or]

/-- C1, counterexample.  An audit item whose id carries embedded line
breaks survives `str.strip` with the breaks intact; the dead-code generator
writes the id verbatim, so the regenerated ledger does not have one
delimited block per audit item (here one item yields two id-bearing
blocks, `DR-001` and `DR-999`). -/
theorem C1_counterexample :
    ∃ text, update_dead_code_progress deadPayloadMultiline none = .ok text ∧
      ledgerIdBlocks text ≠
        (iter_items deadPayloadMultiline).map fun q => pyStrip q.2.id := by
  refine ⟨_, update_dead_ok deadPayloadMultiline none (by decide), ?_⟩
  decide

/-- C1, amended.  For every audit payload and prior ledger text, provided
every item id is (after the script's own normalization) non-empty and free
of line-break characters, regeneration succeeds and the written ledger has
exactly one id-bearing block per audit item, in audit order; parsing the
written ledger recovers exactly the per-item bindings, and the binding
carried into each block preserves the prior decision flag and notes of any
identifier bound in the existing ledger (fields are picked by exact key
match, first occurrence within a block winning, per `pick`). -/
theorem C1_ledger_merge_amended
    (payload : DeadAudit) (existing : Option String)
    (hids : ∀ q ∈ iter_items payload, (pyStrip q.2.id == "") = false)
    (hidnb : ∀ q ∈ iter_items payload, noBreak (pyStrip q.2.id) = true)
    (hne : iter_items payload ≠ [])
    (items : List TestItem) (texisting : Option String)
    (tids : ∀ t ∈ items, (normWs t.id == "") = false)
    (tne : items ≠ []) :
    (∃ text, update_dead_code_progress payload existing = .ok text ∧
      ledgerIdBlocks text = (iter_items payload).map (fun q => pyStrip q.2.id) ∧
      parse_progress_entries (pySplitlines text) =
        (iter_items payload).map (deadRegenEntry existing) ∧
      ∀ q ∈ iter_items payload, ∀ e,
        lastLookup (deadSavedOf existing) (pyStrip q.2.id) = some e →
          (deadRegenEntry existing q).2.remove = e.remove ∧
          (deadRegenEntry existing q).2.notes = e.notes) ∧
    (∃ text, update_tests_progress items texisting = .ok text ∧
      ledgerIdBlocks text = items.map (fun t => normWs t.id) ∧
      parse_existing_entries (pySplitlines text) =
        items.map (testsRegenEntry texisting) ∧
      ∀ t ∈ items, ∀ c,
        lastLookup (testsSavedOf texisting) (normWs t.id) = some c →
          (testsRegenEntry texisting t).2 = c) := by
  constructor
  · refine ⟨_, update_dead_ok payload existing hids,
      dead_idblocks payload existing hids hidnb hne,
      dead_reparse payload existing hids hidnb hne, ?_⟩
    intro q hq e he
    constructor
    · show (deadEntryFor (deadSavedOf existing) q.2).remove = e.remove
      rw [deadEntryFor_of_lookup _ q.2 e he]
    · show (deadEntryFor (deadSavedOf existing) q.2).notes = e.notes
      rw [deadEntryFor_of_lookup _ q.2 e he]
  · refine ⟨_, update_tests_ok items texisting tids,
      tests_idblocks items texisting tids tne,
      tests_reparse items texisting tids tne, ?_⟩
    intro t ht c hc
    show testsChoiceFor (testsSavedOf texisting) t = c
    exact testsChoiceFor_of_lookup _ t c hc

theorem C1_ledger_merge_amended_witness :
    ((∀ q ∈ iter_items deadPayloadSimple, (pyStrip q.2.id == "") = false) ∧
     (∀ q ∈ iter_items deadPayloadSimple, noBreak (pyStrip q.2.id) = true) ∧
     iter_items deadPayloadSimple ≠ [] ∧
     (∀ t ∈ testItemsSimple, (normWs t.id == "") = false) ∧
     testItemsSimple ≠ []) ∧
    ((∃ text, update_dead_code_progress deadPayloadSimple
        (some deadLedgerPrior) = .ok text ∧
      ledgerIdBlocks text =
        (iter_items deadPayloadSimple).map (fun q => pyStrip q.2.id) ∧
      parse_progress_entries (pySplitlines text) =
        (iter_items deadPayloadSimple).map
          (deadRegenEntry (some deadLedgerPrior)) ∧
      ∀ q ∈ iter_items deadPayloadSimple, ∀ e,
        lastLookup (deadSavedOf (some deadLedgerPrior))
            (pyStrip q.2.id) = some e →
          (deadRegenEntry (some deadLedgerPrior) q).2.remove = e.remove ∧
          (deadRegenEntry (some deadLedgerPrior) q).2.notes = e.notes) ∧
    (∃ text, update_tests_progress testItemsSimple
        (some testsLedgerPrior) = .ok text ∧
      ledgerIdBlocks text = testItemsSimple.map (fun t => normWs t.id) ∧
      parse_existing_entries (pySplitlines text) =
        testItemsSimple.map (testsRegenEntry (some testsLedgerPrior)) ∧
      ∀ t ∈ testItemsSimple, ∀ c,
        lastLookup (testsSavedOf (some testsLedgerPrior))
            (normWs t.id) = some c →
          (testsRegenEntry (some testsLedgerPrior) t).2 = c)) :=
  ⟨⟨by decide, by decide, by decide, by decide, by decide⟩,
   C1_ledger_merge_amended deadPayloadSimple (some deadLedgerPrior)
     (by decide) (by decide) (by decide)
     testItemsSimple (some testsLedgerPrior) (by decide) (by decide)⟩

/-- C2.  When any audit item id is empty after the script's normalization,
both ledger generators raise before writing, so the progress file on disk
is unchanged. -/
theorem C2_fatal_on_missing_id (payload : DeadAudit) (disk : Option String)
    (h : ∃ q ∈ iter_items payload, (pyStrip q.2.id == "") = true)
    (items : List TestItem) (tdisk : Option String)
    (h2 : ∃ t ∈ items, (normWs t.id == "") = true) :
    dead_progress_on_disk payload disk = disk ∧
    tests_progress_on_disk items tdisk = tdisk := by
  constructor
  · unfold dead_progress_on_disk update_dead_code_progress
    rcases deadBlocksFor_error (deadSavedOf disk) (iter_items payload) h
      with ⟨msg, hmsg⟩
    rw [hmsg]
    rfl
  · unfold tests_progress_on_disk update_tests_progress
    rw [testsBlocksFor_error (testsSavedOf tdisk) items h2]
    rfl

theorem C2_fatal_on_missing_id_witness :
    ((∃ q ∈ iter_items deadPayloadNoId, (pyStrip q.2.id == "") = true) ∧
     (∃ t ∈ testItemsNoId, (normWs t.id == "") = true)) ∧
    dead_progress_on_disk deadPayloadNoId (some deadLedgerPrior) =
      some deadLedgerPrior ∧
    tests_progress_on_disk testItemsNoId (some testsLedgerPrior) =
      some testsLedgerPrior :=
  ⟨⟨by decide, by decide⟩,
   (C2_fatal_on_missing_id deadPayloadNoId (some deadLedgerPrior) (by decide)
     testItemsNoId (some testsLedgerPrior) (by decide)).1,
   (C2_fatal_on_missing_id deadPayloadNoId (some deadLedgerPrior) (by decide)
     testItemsNoId (some testsLedgerPrior) (by decide)).2⟩

/-- C10.  A `---` separator splits the parsed entry sequence, and the
last-bound entry for a duplicated ID wins in both parsers (later blocks
overwrite earlier dict bindings). -/
theorem C10_duplicate_id_last_wins (xs ys : List String) :
    parse_existing_entries (xs ++ "---" :: ys) =
      parse_existing_entries xs ++ parse_existing_entries ys ∧
    parse_progress_entries (xs ++ "---" :: ys) =
      parse_progress_entries xs ++ parse_progress_entries ys ∧
    (∀ (k : String) (c : SavedChoice),
      lastLookup (parse_existing_entries ys) k = some c →
      lastLookup (parse_existing_entries (xs ++ "---" :: ys)) k = some c) ∧
    (∀ (k : String) (e : ProgressEntry),
      lastLookup (parse_progress_entries ys) k = some e →
      lastLookup (parse_progress_entries (xs ++ "---" :: ys)) k = some e) := by
  have h1 : parse_existing_entries (xs ++ "---" :: ys) =
      parse_existing_entries xs ++ parse_existing_entries ys := by
    unfold parse_existing_entries
    rw [splitBlocks_sep, List.filterMap_append]
  have h2 : parse_progress_entries (xs ++ "---" :: ys) =
      parse_progress_entries xs ++ parse_progress_entries ys := by
    unfold parse_progress_entries
    rw [splitBlocks_sep, List.filterMap_append]
  refine ⟨h1, h2, ?_, ?_⟩
  · intro k c hc
    rw [h1, lastLookup_append, hc]
  · intro k e he
    rw [h2, lastLookup_append, he]

theorem C10_duplicate_id_last_wins_witness :
    lastLookup (parse_existing_entries
      ["ID: T1", "Create?: x", "Notes: b"]) "T1" =
        some { test_id := "T1", create := "x", notes := "b" } ∧
    lastLookup (parse_existing_entries
      (["ID: T1", "Create?: ", "Notes: a"] ++ "---" ::
        ["ID: T1", "Create?: x", "Notes: b"])) "T1" =
      some { test_id := "T1", create := "x", notes := "b" } :=
  ⟨by decide,
   (C10_duplicate_id_last_wins ["ID: T1", "Create?: ", "Notes: a"]
     ["ID: T1", "Create?: x", "Notes: b"]).2.2.1 "T1" _ (by decide)⟩

/-- C4.  The next codebook version comes from the artifact's
`- codebook_version:` marker when one is present, else from the config
version, else `1.0.0`; in each case only PATCH is incremented.  In
particular an artifact carrying `2.3.1` yields `2.3.2`, and no artifact
plus no config version yields `1.0.0`. -/
theorem C4_versioning_algorithm (cfgVer : Option String) (md : String)
    (M m p : Nat) (hx : extract_codebook_version md = some (M, m, p))
    (hmd : (md == "") = false) :
    next_codebook_version cfgVer (some md) = fmtVer M m (p + 1) ∧
    next_codebook_version none none = "1.0.0" ∧
    next_codebook_version (some "") none = "1.0.0" ∧
    (∀ (v : String) (M2 m2 p2 : Nat), (v == "") = false →
      parseSemver (pyStrip v) = some (M2, m2, p2) →
      next_codebook_version (some v) none = fmtVer M2 m2 (p2 + 1)) ∧
    (∀ md2 : String, extract_codebook_version md2 = none →
      (md2 == "") = false →
      next_codebook_version cfgVer (some md2) =
        next_codebook_version cfgVer none) ∧
    next_codebook_version none (some "- codebook_version: 2.3.1\n") =
      "2.3.2" := by
  refine ⟨?_, rfl, rfl, ?_, ?_, by decide⟩
  · unfold next_codebook_version
    simp [hx, hmd]
  · intro v M2 m2 p2 hv hparse
    unfold next_codebook_version bump_patch_semver
    simp [hparse, hv]
  · intro md2 hnone hmd2
    unfold next_codebook_version
    simp [hnone, hmd2]

theorem C4_versioning_algorithm_witness :
    (extract_codebook_version "- codebook_version: 2.3.1\n" =
      some (2, 3, 1) ∧
     (("- codebook_version: 2.3.1\n" : String) == "") = false ∧
     extract_codebook_version
       "- codebook_version:\n9.9.9\n- codebook_version: 2.3.1\n" =
         some (9, 9, 9)) ∧
    next_codebook_version (some "7.7.7")
        (some "- codebook_version: 2.3.1\n") = fmtVer 2 3 2 ∧
    next_codebook_version (some "7.7.7")
        (some "- codebook_version:\n9.9.9\n- codebook_version: 2.3.1\n") =
      fmtVer 9 9 10 :=
  ⟨⟨by decide, by decide, by decide⟩,
   (C4_versioning_algorithm (some "7.7.7") "- codebook_version: 2.3.1\n"
     2 3 1 (by decide) (by decide)).1,
   (C4_versioning_algorithm (some "7.7.7")
     "- codebook_version:\n9.9.9\n- codebook_version: 2.3.1\n"
     9 9 9 (by decide) (by decide)).1⟩

/-- C6, counterexample.  Regenerating the codebook from the artifact the
previous run produced yields a different artifact, because the PATCH
component of the rendered `- codebook_version:` line is incremented on
every run, so codebook regeneration with unchanged inputs is not
idempotent. -/
theorem C6_counterexample :
    generate_codebook specCodebookTemplate none
        (some (generate_codebook specCodebookTemplate none none
          "p" "b" "t" "d" "c"))
        "p" "b" "t" "d" "c" ≠
      generate_codebook specCodebookTemplate none none "p" "b" "t" "d" "c" := by
  decide

/-- C6, amended.  Regenerating a ledger from the ledger a run just
produced (same audit input, unchanged annotations) reproduces that ledger
byte for byte, for both ledger scripts; the codebook artifact is a pure
function of its inputs, but a second run over the produced artifact
renders the bumped PATCH version instead of the same artifact. -/
theorem C6_regeneration_idempotence_amended
    (items : List TestItem) (existing : Option String)
    (hids : ∀ t ∈ items, (normWs t.id == "") = false)
    (payload : DeadAudit) (dexisting : Option String)
    (dhids : ∀ q ∈ iter_items payload, (pyStrip q.2.id == "") = false)
    (dhidnb : ∀ q ∈ iter_items payload, noBreak (pyStrip q.2.id) = true)
    (tmpl : String) (cfgVer : Option String) (md : String)
    (name bullets tree descr code : String) (M m p : Nat)
    (hx : extract_codebook_version md = some (M, m, p))
    (hmd : (md == "") = false) :
    update_tests_progress items
        (some (ledgerText HEADER_TESTS (testsFlatFor existing items))) =
      .ok (ledgerText HEADER_TESTS (testsFlatFor existing items)) ∧
    update_dead_code_progress payload
        (some (ledgerText HEADER_DEAD (deadFlatFor dexisting payload))) =
      .ok (ledgerText HEADER_DEAD (deadFlatFor dexisting payload)) ∧
    generate_codebook tmpl cfgVer (some md) name bullets tree descr code =
      render_codebook tmpl name bullets (fmtVer M m (p + 1))
        tree descr code := by
  refine ⟨update_tests_idem items existing hids,
    update_dead_idem payload dexisting dhids dhidnb, ?_⟩
  unfold generate_codebook next_codebook_version
  simp [hx, hmd]

theorem C6_regeneration_idempotence_amended_witness :
    ((∀ t ∈ testItemsSimple, (normWs t.id == "") = false) ∧
     (∀ q ∈ iter_items deadPayloadSimple, (pyStrip q.2.id == "") = false) ∧
     (∀ q ∈ iter_items deadPayloadSimple, noBreak (pyStrip q.2.id) = true) ∧
     extract_codebook_version "- codebook_version: 1.2.3\n" =
       some (1, 2, 3) ∧
     (("- codebook_version: 1.2.3\n" : String) == "") = false) ∧
    (update_tests_progress testItemsSimple
        (some (ledgerText HEADER_TESTS
          (testsFlatFor (some testsLedgerPrior) testItemsSimple))) =
      .ok (ledgerText HEADER_TESTS
        (testsFlatFor (some testsLedgerPrior) testItemsSimple)) ∧
    update_dead_code_progress deadPayloadSimple
        (some (ledgerText HEADER_DEAD
          (deadFlatFor (some deadLedgerPrior) deadPayloadSimple))) =
      .ok (ledgerText HEADER_DEAD
        (deadFlatFor (some deadLedgerPrior) deadPayloadSimple)) ∧
    generate_codebook specCodebookTemplate none
        (some "- codebook_version: 1.2.3\n") "n" "b" "t" "d" "c" =
      render_codebook specCodebookTemplate "n" "b" (fmtVer 1 2 4)
        "t" "d" "c") :=
  ⟨⟨by decide, by decide, by decide, by decide, by decide⟩,
   C6_regeneration_idempotence_amended testItemsSimple
     (some testsLedgerPrior) (by decide) deadPayloadSimple
     (some deadLedgerPrior) (by decide) (by decide)
     specCodebookTemplate none "- codebook_version: 1.2.3\n"
     "n" "b" "t" "d" "c" 1 2 3 (by decide) (by decide)⟩

/-- C7.  A missing or unparseable config file is recovered by loading the
documented default configuration (bootstrapped from the skill template
when that is available, which serializes the same defaults) and rewriting
it to disk; no such input makes `_load_config` raise. -/
theorem C7_malformed_config_recovery :
    (∀ template : Option JsonDoc,
      load_config template (some JsonDoc.unparseable) =
        .ok (CodebookConfig.default,
          some (cfgToJson CodebookConfig.default))) ∧
    load_config none none =
      .ok (CodebookConfig.default, some (cfgToJson CodebookConfig.default)) ∧
    load_config (some JsonDoc.unparseable) none =
      .ok (CodebookConfig.default, some (cfgToJson CodebookConfig.default)) ∧
    load_config (some (JsonDoc.parsed specConfigTemplate)) none =
      .ok (CodebookConfig.default, some specConfigTemplate) := by
  refine ⟨fun template => rfl, rfl, rfl, rfl⟩

theorem C7_malformed_config_recovery_witness :
    load_config (some (JsonDoc.parsed specConfigTemplate))
        (some JsonDoc.unparseable) =
      .ok (CodebookConfig.default, some (cfgToJson CodebookConfig.default)) :=
  C7_malformed_config_recovery.1 (some (JsonDoc.parsed specConfigTemplate))

theorem applyLoop_writes_tests (sel : List (String × String)) :
    ∀ ts : List ProposedTest, ∀ w ∈ (applyLoop sel ts).1,
      strStartsWith w.1 "tests/" = true := by
  intro ts
  induction ts with
  | nil => intro w hw; simp [applyLoop] at hw
  | cons t ts ih =>
    intro w hw
    simp only [applyLoop] at hw
    by_cases happ : isApproved sel (pyStrip t.id) = true
    · rw [if_pos happ] at hw
      by_cases hfp :
          strStartsWith (pathAsPosix (pyStrip t.file_path)) "tests/" = true
      · rw [if_pos hfp] at hw
        have hw2 : w ∈ (pathAsPosix (pyStrip t.file_path),
            pyRstrip t.content ++ "\n") :: (applyLoop sel ts).1 := hw
        rcases List.mem_cons.1 hw2 with h1 | h1
        · subst h1
          exact hfp
        · exact ih w h1
      · rw [if_neg hfp] at hw
        have hw2 : w ∈ ([] : List (String × String)) := hw
        simp at hw2
    · rw [if_neg happ] at hw
      exact ih w hw

theorem applyLoop_error_of_bad (sel : List (String × String)) :
    ∀ ts : List ProposedTest,
      (∃ t ∈ ts, isApproved sel (pyStrip t.id) = true ∧
        strStartsWith (pathAsPosix (pyStrip t.file_path)) "tests/" = false) →
      (applyLoop sel ts).2.2.isSome = true := by
  intro ts
  induction ts with
  | nil => intro h; simp at h
  | cons t ts ih =>
    intro h
    show (applyLoop sel (t :: ts)).2.2.isSome = true
    simp only [applyLoop]
    by_cases happ : isApproved sel (pyStrip t.id) = true
    · rw [if_pos happ]
      by_cases hfp :
          strStartsWith (pathAsPosix (pyStrip t.file_path)) "tests/" = true
      · rw [if_pos hfp]
        show (applyLoop sel ts).2.2.isSome = true
        apply ih
        rcases h with ⟨x, hx, hxa, hxf⟩
        rcases List.mem_cons.1 hx with h1 | h1
        · subst h1
          rw [hfp] at hxf
          simp at hxf
        · exact ⟨x, h1, hxa, hxf⟩
      · rw [if_neg hfp]
        rfl
    · rw [if_neg happ]
      apply ih
      rcases h with ⟨x, hx, hxa, hxf⟩
      rcases List.mem_cons.1 hx with h1 | h1
      · subst h1
        exact absurd hxa happ
      · exact ⟨x, h1, hxa, hxf⟩

theorem applyLoop_no_error (sel : List (String × String)) :
    ∀ ts : List ProposedTest,
      (∀ t ∈ ts, isApproved sel (pyStrip t.id) = true →
        strStartsWith (pathAsPosix (pyStrip t.file_path)) "tests/" = true) →
      (applyLoop sel ts).2.2 = none := by
  intro ts
  induction ts with
  | nil => intro _; rfl
  | cons t ts ih =>
    intro h
    show (applyLoop sel (t :: ts)).2.2 = none
    simp only [applyLoop]
    by_cases happ : isApproved sel (pyStrip t.id) = true
    · rw [if_pos happ,
        if_pos (h t (List.mem_cons_self _ _) happ)]
      show (applyLoop sel ts).2.2 = none
      exact ih fun x hx => h x (List.mem_cons_of_mem _ hx)
    · rw [if_neg happ]
      exact ih fun x hx => h x (List.mem_cons_of_mem _ hx)

/-- C3, counterexample.  With two approved items, the first destined for
`tests/` and the second for `/etc/passwd`, the guard raises on the second
item but the first file has already been written: the operation does not
fail "without writing any file". -/
theorem C3_counterexample :
    apply_tests_from_progress applyProposedGuard applyProgressGuard =
      { writes := [("tests/a.py", "print(1)\n")]
        error := some "Refusing to write outside tests/: /etc/passwd"
        created_ids := ["T1"]
        audit_saved := false } ∧
    (apply_tests_from_progress applyProposedGuard applyProgressGuard).writes
      ≠ [] := by
  exact ⟨by decide, by decide⟩

/-- C3, amended.  Every file the apply operation writes lies under
`tests/`; when the guard raises, the audit JSON is not persisted; an
approved item whose posix path does not start with `tests/` makes the run
raise; and when every approved item is destined under `tests/` the run
completes without error. -/
theorem C3_apply_path_guard_amended (proposed : List ProposedTest)
    (progressText : String) :
    (∀ w ∈ (apply_tests_from_progress proposed progressText).writes,
      strStartsWith w.1 "tests/" = true) ∧
    ((apply_tests_from_progress proposed progressText).error.isSome = true →
      (apply_tests_from_progress proposed progressText).audit_saved = false) ∧
    ((∃ t ∈ proposed,
        isApproved (parse_progress_flags (pySplitlines progressText))
          (pyStrip t.id) = true ∧
        strStartsWith (pathAsPosix (pyStrip t.file_path)) "tests/" = false) →
      (apply_tests_from_progress proposed progressText).error.isSome = true) ∧
    ((∀ t ∈ proposed,
        isApproved (parse_progress_flags (pySplitlines progressText))
          (pyStrip t.id) = true →
        strStartsWith (pathAsPosix (pyStrip t.file_path)) "tests/" = true) →
      (apply_tests_from_progress proposed progressText).error = none) := by
  refine ⟨?_, ?_, ?_, ?_⟩
  · intro w hw
    exact applyLoop_writes_tests _ proposed w hw
  · intro h
    have h2 : (applyLoop (parse_progress_flags (pySplitlines progressText))
        proposed).2.2.isSome = true := h
    show (applyLoop (parse_progress_flags (pySplitlines progressText))
        proposed).2.2.isNone = false
    cases ho : (applyLoop (parse_progress_flags (pySplitlines progressText))
        proposed).2.2 with
    | none => rw [ho] at h2; simp at h2
    | some m => rfl
  · intro h
    exact applyLoop_error_of_bad _ proposed h
  · intro h
    show (applyLoop (parse_progress_flags (pySplitlines progressText))
        proposed).2.2 = none
    exact applyLoop_no_error _ proposed h

theorem C3_apply_path_guard_amended_witness :
    (∃ t ∈ applyProposedGuard,
      isApproved (parse_progress_flags (pySplitlines applyProgressGuard))
        (pyStrip t.id) = true ∧
      strStartsWith (pathAsPosix (pyStrip t.file_path)) "tests/" = false) ∧
    (apply_tests_from_progress applyProposedGuard
      applyProgressGuard).error.isSome = true :=
  ⟨by decide,
   (C3_apply_path_guard_amended applyProposedGuard applyProgressGuard).2.2.1
     (by decide)⟩

theorem dedupGo_mem :
    ∀ (seen l : List String) (x : String), x ∈ dedupGo seen l → x ∈ l := by
  intro seen l
  induction l generalizing seen with
  | nil => intro x hx; simp [dedupGo] at hx
  | cons a as ih =>
    intro x hx
    simp only [dedupGo] at hx
    by_cases hs : seen.contains a
    · rw [if_pos hs] at hx
      exact List.mem_cons_of_mem _ (ih seen x hx)
    · rw [if_neg hs] at hx
      rcases List.mem_cons.1 hx with h1 | h1
      · subst h1; exact List.mem_cons_self _ _
      · exact List.mem_cons_of_mem _ (ih (a :: seen) x h1)

theorem find_output_list_mem (raw : String) (globs : List String) :
    ∀ x ∈ find_output_list raw globs, x = "./" ∨
      ∃ rel, x = "./" ++ rel ∧ should_exclude rel globs = false := by
  intro x hx
  unfold find_output_list sortedSet at hx
  have hx2 := (List.Perm.mem_iff (List.perm_insertionSort _ _)).1 hx
  have hx3 := dedupGo_mem _ _ x hx2
  rcases List.mem_cons.1 hx3 with h1 | h1
  · exact Or.inl h1
  · rcases List.mem_filterMap.1 h1 with ⟨ln0, _, hln⟩
    simp only at hln
    by_cases h1a : (pyStrip ln0 == "" || pyStrip ln0 == ".") = true
    · rw [if_pos h1a] at hln
      simp at hln
    · rw [if_neg h1a] at hln
      by_cases h1b : should_exclude (lstripDotSlash (pyStrip ln0)) globs = true
      · rw [if_pos h1b] at hln
        simp at hln
      · rw [if_neg h1b] at hln
        injection hln with h2
        exact Or.inr ⟨lstripDotSlash (pyStrip ln0), h2.symm, by
          cases hv : should_exclude (lstripDotSlash (pyStrip ln0)) globs
          · rfl
          · exact absurd hv h1b⟩

theorem file_list_not_excluded (raw : String) (existsF isDirF : String → Bool)
    (globs : List String) :
    ∀ rel ∈ file_list raw existsF isDirF globs,
      should_exclude rel globs = false := by
  intro rel hrel
  unfold file_list at hrel
  have h2 := (List.Perm.mem_iff (List.perm_insertionSort _ _)).1 hrel
  have h3 := List.mem_filter.1 h2
  have h4 := h3.2
  simp only [Bool.and_eq_true, Bool.not_eq_true'] at h4
  exact h4.1.1

theorem strAppend_left_cancel (p a b : String) (h : p ++ a = p ++ b) :
    a = b := by
  apply strExt
  have h2 : p.data ++ a.data = p.data ++ b.data := by
    rw [← String.data_append, ← String.data_append, h]
  exact List.append_cancel_left h2

/-- C9.  Any relative path whose first two components are `docs` and
`artifacts` is excluded by `_should_exclude` before any glob is consulted,
so no configuration lets such a path into the fallback tree listing or the
enumerated file list. -/
theorem C9_docs_artifacts_self_exclusion (rel : String) (globs : List String)
    (h : (pathPartsFull rel).take 2 = ["docs", "artifacts"]) :
    should_exclude rel globs = true ∧
    (∀ raw : String, "./" ++ rel ∉ find_output_list raw globs) ∧
    (∀ (raw : String) (existsF isDirF : String → Bool),
      rel ∉ file_list raw existsF isDirF globs) := by
  have hex : should_exclude rel globs = true := by
    unfold should_exclude
    rw [h]
    rfl
  refine ⟨hex, ?_, ?_⟩
  · intro raw hmem
    rcases find_output_list_mem raw globs _ hmem with h1 | ⟨rel2, heq, hexcl⟩
    · have hrel : rel = "" := by
        have h2 : ("./" : String) ++ rel = "./" ++ "" := by
          rw [h1]; rfl
        exact strAppend_left_cancel _ _ _ h2
      subst hrel
      exact absurd h (by decide)
    · have hrel : rel = rel2 := strAppend_left_cancel _ _ _ heq
      subst hrel
      rw [hex] at hexcl
      simp at hexcl
  · intro raw existsF isDirF hmem
    have h1 := file_list_not_excluded raw existsF isDirF globs rel hmem
    rw [hex] at h1
    simp at h1

theorem C9_docs_artifacts_self_exclusion_witness :
    (pathPartsFull "docs/artifacts/repo_codebook.md").take 2 =
      ["docs", "artifacts"] ∧
    should_exclude "docs/artifacts/repo_codebook.md" [] = true ∧
    "./" ++ "docs/artifacts/repo_codebook.md" ∉
      find_output_list "./docs/artifacts/repo_codebook.md\n./src/app.py" [] :=
  ⟨by decide,
   (C9_docs_artifacts_self_exclusion "docs/artifacts/repo_codebook.md" []
     (by decide)).1,
   (C9_docs_artifacts_self_exclusion "docs/artifacts/repo_codebook.md" []
     (by decide)).2.1 "./docs/artifacts/repo_codebook.md\n./src/app.py"⟩

/-!
## Scaffolder lemmas
-/

theorem fsGet_set (fs : FS) (q c p : String) :
    fsGet (fsSet fs q c) p = if q == p then some c else fsGet fs p := by
  unfold fsGet fsSet
  by_cases hq : (q == p) = true
  · rw [if_pos hq,
      @List.find?_cons_of_pos _ (fun e => e.1 == p) (q, c) fs hq]
    rfl
  · rw [if_neg hq,
      @List.find?_cons_of_neg _ (fun e => e.1 == p) (q, c) fs hq]

theorem applyOp_get (ow : Bool) (fs : FS) (op : ScaffoldOp) (p : String) :
    fsGet (applyOp ow fs op) p = stepVal ow p (fsGet fs p) op := by
  cases op with
  | write q c =>
    show fsGet (if fsHas fs q && !ow then fs else fsSet fs q c) p =
      stepVal ow p (fsGet fs p) (.write q c)
    simp only [stepVal]
    by_cases hq : (q == p) = true
    · have hqp : q = p := by simpa using hq
      subst hqp
      rw [if_pos hq]
      cases hv : fsGet fs q with
      | none =>
        have hhas : fsHas fs q = false := by
          unfold fsHas
          rw [hv]
          rfl
        rw [hhas]
        show fsGet (fsSet fs q c) q = some c
        rw [fsGet_set, if_pos hq]
      | some x =>
        have hhas : fsHas fs q = true := by
          unfold fsHas
          rw [hv]
          rfl
        rw [hhas]
        cases ow with
        | false =>
          show fsGet fs q = some x
          exact hv
        | true =>
          show fsGet (fsSet fs q c) q = some c
          rw [fsGet_set, if_pos hq]
    · rw [if_neg hq]
      by_cases hcond : (fsHas fs q && !ow) = true
      · rw [if_pos hcond]
      · rw [if_neg hcond]
        rw [fsGet_set, if_neg hq]
  | touchInit d =>
    show fsGet (if fsHas fs (d ++ "/__init__.py") then fs
        else fsSet fs (d ++ "/__init__.py") "") p =
      stepVal ow p (fsGet fs p) (.touchInit d)
    simp only [stepVal]
    by_cases hq : ((d ++ "/__init__.py") == p) = true
    · have hqp : d ++ "/__init__.py" = p := by simpa using hq
      rw [if_pos hq]
      cases hv : fsGet fs p with
      | none =>
        have hhas : fsHas fs (d ++ "/__init__.py") = false := by
          unfold fsHas
          rw [hqp, hv]
          rfl
        rw [hhas]
        show fsGet (fsSet fs (d ++ "/__init__.py") "") p = some ""
        rw [fsGet_set, if_pos hq]
      | some x =>
        have hhas : fsHas fs (d ++ "/__init__.py") = true := by
          unfold fsHas
          rw [hqp, hv]
          rfl
        rw [hhas]
        exact hv
    · rw [if_neg hq]
      by_cases hcond : fsHas fs (d ++ "/__init__.py") = true
      · rw [if_pos hcond]
      · rw [if_neg hcond]
        rw [fsGet_set, if_neg hq]

theorem run_get (ow : Bool) (ops : List ScaffoldOp) :
    ∀ (fs : FS) (p : String),
      fsGet (runScaffold ow ops fs) p =
        ops.foldl (stepVal ow p) (fsGet fs p) := by
  induction ops with
  | nil => intro fs p; rfl
  | cons op ops ih =>
    intro fs p
    show fsGet (runScaffold ow ops (applyOp ow fs op)) p = _
    rw [ih (applyOp ow fs op) p, applyOp_get]
    rfl

theorem stepVal_isSome (ow : Bool) (p : String) (v : Option String)
    (op : ScaffoldOp) (h : v.isSome = true) :
    (stepVal ow p v op).isSome = true := by
  cases op with
  | write q c =>
    simp only [stepVal]
    by_cases hq : (q == p) = true
    · rw [if_pos hq]
      cases v with
      | none => simp at h
      | some x => cases ow <;> rfl
    · rw [if_neg hq]; exact h
  | touchInit d =>
    simp only [stepVal]
    by_cases hq : ((d ++ "/__init__.py") == p) = true
    · rw [if_pos hq]
      cases v with
      | none => simp at h
      | some x => rfl
    · rw [if_neg hq]; exact h

theorem fold_isSome (ow : Bool) (p : String) :
    ∀ (ops : List ScaffoldOp) (v : Option String), v.isSome = true →
      (ops.foldl (stepVal ow p) v).isSome = true := by
  intro ops
  induction ops with
  | nil => intro v h; exact h
  | cons op ops ih =>
    intro v h
    exact ih _ (stepVal_isSome ow p v op h)

theorem fold_keep_existing (p : String) :
    ∀ (ops : List ScaffoldOp) (x : String),
      ops.foldl (stepVal false p) (some x) = some x := by
  intro ops
  induction ops with
  | nil => intro x; rfl
  | cons op ops ih =>
    intro x
    have hstep : stepVal false p (some x) op = some x := by
      cases op with
      | write q c =>
        simp only [stepVal]
        by_cases hq : (q == p) = true
        · rw [if_pos hq]
          rfl
        · rw [if_neg hq]
      | touchInit d =>
        simp only [stepVal]
        by_cases hq : ((d ++ "/__init__.py") == p) = true
        · rw [if_pos hq]
        · rw [if_neg hq]
    show List.foldl (stepVal false p) (stepVal false p (some x) op) ops =
      some x
    rw [hstep]
    exact ih x

theorem fold_idem (ow : Bool) (p : String) :
    ∀ (ops : List ScaffoldOp) (v : Option String),
      ops.foldl (stepVal ow p) (ops.foldl (stepVal ow p) v) =
        ops.foldl (stepVal ow p) v := by
  intro ops
  induction ops with
  | nil => intro v; rfl
  | cons op ops ih =>
    intro v
    show List.foldl (stepVal ow p)
        (stepVal ow p (List.foldl (stepVal ow p) (stepVal ow p v op) ops) op)
        ops = List.foldl (stepVal ow p) (stepVal ow p v op) ops
    cases op with
    | write q c =>
      by_cases hq : (q == p) = true
      · cases ow with
        | true =>
          have hcst : ∀ w : Option String,
              stepVal true p w (.write q c) = some c := by
            intro w
            simp only [stepVal]
            rw [if_pos hq]
            cases w <;> rfl
          rw [hcst, hcst]
        | false =>
          have hs0 : (stepVal false p v (.write q c)).isSome = true := by
            simp only [stepVal]
            rw [if_pos hq]
            cases v <;> rfl
          have hsu : (List.foldl (stepVal false p)
              (stepVal false p v (.write q c)) ops).isSome = true :=
            fold_isSome false p ops _ hs0
          cases hu : List.foldl (stepVal false p)
              (stepVal false p v (.write q c)) ops with
          | none => rw [hu] at hsu; simp at hsu
          | some y =>
            have hstep : stepVal false p (some y) (.write q c) = some y := by
              simp only [stepVal]
              rw [if_pos hq]
              rfl
            rw [hstep, ← hu, ih]
      · have hid : ∀ w : Option String,
            stepVal ow p w (.write q c) = w := by
          intro w
          simp only [stepVal]
          rw [if_neg hq]
        rw [hid, hid, ih]
    | touchInit d =>
      by_cases hq : ((d ++ "/__init__.py") == p) = true
      · have hs0 : (stepVal ow p v (.touchInit d)).isSome = true := by
          simp only [stepVal]
          rw [if_pos hq]
          cases v <;> rfl
        have hsu : (List.foldl (stepVal ow p)
            (stepVal ow p v (.touchInit d)) ops).isSome = true :=
          fold_isSome ow p ops _ hs0
        cases hu : List.foldl (stepVal ow p)
            (stepVal ow p v (.touchInit d)) ops with
        | none => rw [hu] at hsu; simp at hsu
        | some y =>
          have hstep : stepVal ow p (some y) (.touchInit d) = some y := by
            simp only [stepVal]
            rw [if_pos hq]
          rw [hstep, ← hu, ih]
      · have hid : ∀ w : Option String,
            stepVal ow p w (.touchInit d) = w := by
          intro w
          simp only [stepVal]
          rw [if_neg hq]
        rw [hid, hid, ih]

theorem fold_write_det (p : String) :
    ∀ (ops : List ScaffoldOp), writesPath ops p = true →
      ∀ v w : Option String,
        ops.foldl (stepVal true p) v = ops.foldl (stepVal true p) w := by
  intro ops
  induction ops with
  | nil => intro h; simp [writesPath] at h
  | cons op ops ih =>
    intro h v w
    by_cases hrest : writesPath ops p = true
    · show List.foldl (stepVal true p) (stepVal true p v op) ops =
        List.foldl (stepVal true p) (stepVal true p w op) ops
      exact ih hrest _ _
    · cases op with
      | write q c =>
        have hq : (q == p) = true := by
          unfold writesPath at h
          rw [List.any_cons] at h
          rcases Bool.or_eq_true_iff.1 h with h1 | h1
          · simpa using h1
          · exact absurd h1 hrest
        have hcst : ∀ u : Option String,
            stepVal true p u (.write q c) = some c := by
          intro u
          simp only [stepVal]
          rw [if_pos hq]
          cases u <;> rfl
        show List.foldl (stepVal true p) (stepVal true p v (.write q c)) ops =
          List.foldl (stepVal true p) (stepVal true p w (.write q c)) ops
        rw [hcst, hcst]
      | touchInit d =>
        exfalso
        unfold writesPath at h
        rw [List.any_cons] at h
        rcases Bool.or_eq_true_iff.1 h with h1 | h1
        · simp at h1
        · exact hrest h1

/-- C8.  For both scaffolders: with overwrite off, a second run changes no
file and a single run leaves every pre-existing file untouched; with
overwrite on, a second run reproduces the same file contents, and the
content at every written destination is determined by the templates and
inputs alone, independent of the prior state of the target directory. -/
theorem C8_scaffolder_idempotence
    (ftmpl rtmpl : String → String)
    (service_name app_title python_version started_at : String)
    (fs fs2 : FS) (p : String) :
    ∀ ops ∈ [scaffold_fastapi_ops ftmpl service_name app_title python_version,
             scaffold_ralph_ops rtmpl started_at],
      fsGet (runScaffold false ops (runScaffold false ops fs)) p =
        fsGet (runScaffold false ops fs) p ∧
      (fsHas fs p = true → fsGet (runScaffold false ops fs) p = fsGet fs p) ∧
      fsGet (runScaffold true ops (runScaffold true ops fs)) p =
        fsGet (runScaffold true ops fs) p ∧
      (writesPath ops p = true →
        fsGet (runScaffold true ops fs) p =
          fsGet (runScaffold true ops fs2) p) := by
  intro ops _
  refine ⟨?_, ?_, ?_, ?_⟩
  · rw [run_get, run_get]
    exact fold_idem false p ops (fsGet fs p)
  · intro h
    rw [run_get]
    unfold fsHas at h
    cases hv : fsGet fs p with
    | none => rw [hv] at h; simp at h
    | some x => exact fold_keep_existing p ops x
  · rw [run_get, run_get]
    exact fold_idem true p ops (fsGet fs p)
  · intro h
    rw [run_get, run_get]
    exact fold_write_det p ops h _ _

theorem C8_scaffolder_idempotence_witness :
    (fsHas [("pyproject.toml", "old")] "pyproject.toml" = true ∧
     writesPath (scaffold_fastapi_ops (fun _ => "T") "svc" "App" "3.12")
       "pyproject.toml" = true) ∧
    (fsGet (runScaffold false
        (scaffold_fastapi_ops (fun _ => "T") "svc" "App" "3.12")
        [("pyproject.toml", "old")]) "pyproject.toml" =
      fsGet [("pyproject.toml", "old")] "pyproject.toml" ∧
    fsGet (runScaffold true
        (scaffold_fastapi_ops (fun _ => "T") "svc" "App" "3.12")
        [("pyproject.toml", "old")]) "pyproject.toml" =
      fsGet (runScaffold true
        (scaffold_fastapi_ops (fun _ => "T") "svc" "App" "3.12")
        [("other.txt", "z")]) "pyproject.toml") :=
  ⟨⟨by decide, by decide⟩,
   ⟨(C8_scaffolder_idempotence (fun _ => "T") (fun _ => "R")
       "svc" "App" "3.12" "now" [("pyproject.toml", "old")]
       [("other.txt", "z")] "pyproject.toml"
       (scaffold_fastapi_ops (fun _ => "T") "svc" "App" "3.12")
       (List.mem_cons_self _ _)).2.1 (by decide),
   (C8_scaffolder_idempotence (fun _ => "T") (fun _ => "R")
       "svc" "App" "3.12" "now" [("pyproject.toml", "old")]
       [("other.txt", "z")] "pyproject.toml"
       (scaffold_fastapi_ops (fun _ => "T") "svc" "App" "3.12")
       (List.mem_cons_self _ _)).2.2.2 (by decide)⟩⟩

/-!
## Glob lemmas for exclusion canonicalization
-/

theorem globFuel_nil (n : Nat) (s : List Char) :
    globFuel (n + 1) [] s = s.isEmpty := rfl

theorem globFuel_cons (n : Nat) (p : Char) (pr s : List Char) :
    globFuel (n + 1) (p :: pr) s =
      (if p == '*' then
        globFuel n pr s ||
          (match s with
           | [] => false
           | _ :: s2 => globFuel n (p :: pr) s2)
      else if p == '?' then
        match s with
        | [] => false
        | _ :: s2 => globFuel n pr s2
      else if p == '[' then
        match parseBracket pr with
        | none =>
          match s with
          | [] => false
          | c :: s2 => if c == '[' then globFuel n pr s2 else false
        | some (neg, cls, rest) =>
          match s with
          | [] => false
          | c :: s2 => (neg != classMatch cls c) && globFuel n rest s2
      else
        match s with
        | [] => false
        | c :: s2 => p == c && globFuel n pr s2) := rfl

theorem globFuel_lit (n : Nat) (p : Char) (pr : List Char) (c : Char)
    (s2 : List Char) (h1 : (p == '*') = false) (h2 : (p == '?') = false)
    (h3 : (p == '[') = false) :
    globFuel (n + 1) (p :: pr) (c :: s2) = (p == c && globFuel n pr s2) := by
  rw [globFuel_cons, if_neg (by simp [h1]), if_neg (by simp [h2]),
    if_neg (by simp [h3])]

theorem globFuel_star_one :
    ∀ (s : List Char) (n : Nat), s.length + 2 ≤ n →
      globFuel n ['*'] s = true := by
  intro s
  induction s with
  | nil =>
    intro n hn
    obtain ⟨m, rfl⟩ : ∃ m, n = m + 1 + 1 := ⟨n - 2, by omega⟩
    rw [globFuel_cons, if_pos (by decide), globFuel_nil]
    rfl
  | cons c s2 ih =>
    intro n hn
    obtain ⟨m, rfl⟩ : ∃ m, n = m + 1 := ⟨n - 1, by omega⟩
    rw [globFuel_cons, if_pos (by decide)]
    have hred : (match (c :: s2 : List Char) with
        | [] => false
        | _ :: s2 => globFuel m ('*' :: []) s2) = globFuel m ['*'] s2 := rfl
    rw [hred, ih m (by simp at hn ⊢; omega)]
    simp

theorem globFuel_star_two (s : List Char) (n : Nat)
    (hn : s.length + 3 ≤ n) :
    globFuel n ('*' :: '*' :: []) s = true := by
  obtain ⟨m, rfl⟩ : ∃ m, n = m + 1 := ⟨n - 1, by omega⟩
  rw [globFuel_cons, if_pos (by decide)]
  rw [globFuel_star_one s m (by omega)]
  simp

theorem globFuel_self :
    ∀ (p : List Char) (n : Nat), 2 * p.length < n →
      (∀ c ∈ p, (c == '*') = false ∧ (c == '?') = false ∧
        (c == '[') = false) →
      globFuel n p p = true := by
  intro p
  induction p with
  | nil =>
    intro n hn _
    obtain ⟨m, rfl⟩ : ∃ m, n = m + 1 := ⟨n - 1, by omega⟩
    rw [globFuel_nil]
    rfl
  | cons c pr ih =>
    intro n hn hm
    obtain ⟨m, rfl⟩ : ∃ m, n = m + 1 := ⟨n - 1, by omega⟩
    rcases hm c (List.mem_cons_self _ _) with ⟨h1, h2, h3⟩
    rw [globFuel_lit m c pr c pr h1 h2 h3]
    rw [ih m (by simp at hn ⊢; omega)
      (fun x hx => hm x (List.mem_cons_of_mem _ hx))]
    simp

theorem globFuel_sub :
    ∀ (base rest : List Char) (n : Nat),
      2 * base.length + rest.length + 4 ≤ n →
      (∀ c ∈ base, (c == '*') = false ∧ (c == '?') = false ∧
        (c == '[') = false) →
      globFuel n (base ++ '/' :: '*' :: '*' :: [])
        (base ++ '/' :: rest) = true := by
  intro base
  induction base with
  | nil =>
    intro rest n hn _
    obtain ⟨m, rfl⟩ : ∃ m, n = m + 1 := ⟨n - 1, by omega⟩
    simp only [List.nil_append]
    rw [globFuel_lit m '/' _ '/' rest (by decide) (by decide) (by decide)]
    rw [globFuel_star_two rest m (by omega)]
    rfl
  | cons c bs ih =>
    intro rest n hn hm
    obtain ⟨m, rfl⟩ : ∃ m, n = m + 1 := ⟨n - 1, by omega⟩
    rcases hm c (List.mem_cons_self _ _) with ⟨h1, h2, h3⟩
    simp only [List.cons_append]
    rw [globFuel_lit m c _ c _ h1 h2 h3]
    rw [ih rest m (by simp at hn ⊢; omega)
      (fun x hx => hm x (List.mem_cons_of_mem _ hx))]
    simp

theorem globMatchL_self (p : List Char)
    (hm : ∀ c ∈ p, (c == '*') = false ∧ (c == '?') = false ∧
      (c == '[') = false) :
    globMatchL p p = true :=
  globFuel_self p _ (by omega) hm

theorem globMatchL_sub (base rest : List Char)
    (hm : ∀ c ∈ base, (c == '*') = false ∧ (c == '?') = false ∧
      (c == '[') = false) :
    globMatchL (base ++ '/' :: '*' :: '*' :: [])
      (base ++ '/' :: rest) = true :=
  globFuel_sub base rest _ (by simp [List.length_append]; omega) hm

theorem noMeta_chars (s : String) (h : hasGlobMeta s = false) :
    ∀ c ∈ s.data, (c == '*') = false ∧ (c == '?') = false ∧
      (c == '[') = false := by
  intro c hc
  unfold hasGlobMeta at h
  rw [List.any_eq_false] at h
  have hnc := h c hc
  refine ⟨?_, ?_, ?_⟩
  · cases hcc : c == '*' with
    | false => rfl
    | true =>
      exfalso
      have : c = '*' := by simpa using hcc
      subst this
      exact hnc (by decide)
  · cases hcc : c == '?' with
    | false => rfl
    | true =>
      exfalso
      have : c = '?' := by simpa using hcc
      subst this
      exact hnc (by decide)
  · cases hcc : c == '[' with
    | false => rfl
    | true =>
      exfalso
      have : c = '[' := by simpa using hcc
      subst this
      exact hnc (by decide)

theorem dropPrefixL_pre_mem :
    ∀ (p s r : List Char), dropPrefixL p s = some r → ∀ c ∈ p, c ∈ s := by
  intro p
  induction p with
  | nil => intro s r _ c hc; simp at hc
  | cons a pr ih =>
    intro s r hd c hc
    cases s with
    | nil => simp [dropPrefixL] at hd
    | cons b s2 =>
      unfold dropPrefixL at hd
      by_cases hab : (a == b) = true
      · rw [if_pos hab] at hd
        rcases List.mem_cons.1 hc with h1 | h1
        · have hba : a = b := by simpa using hab
          rw [h1, hba]
          exact List.mem_cons_self _ _
        · exact List.mem_cons_of_mem _ (ih s2 r hd c h1)
      · rw [if_neg hab] at hd
        simp at hd

theorem strEndsWith_mem (s suf : String) (h : strEndsWith s suf = true) :
    ∀ c ∈ suf.data, c ∈ s.data := by
  intro c hc
  unfold strEndsWith at h
  cases hd : dropPrefixL suf.data.reverse s.data.reverse with
  | none => rw [hd] at h; simp at h
  | some r =>
    have := dropPrefixL_pre_mem suf.data.reverse s.data.reverse r hd c
      (List.mem_reverse.2 hc)
    exact List.mem_reverse.1 this

theorem noMeta_not_endsWith (entry : String)
    (hmeta : hasGlobMeta entry = false) (suf : String)
    (hsuf : '*' ∈ suf.data) : strEndsWith entry suf = false := by
  cases he : strEndsWith entry suf with
  | false => rfl
  | true =>
    exfalso
    have hmem := strEndsWith_mem entry suf he '*' hsuf
    unfold hasGlobMeta at hmeta
    rw [List.any_eq_false] at hmeta
    exact hmeta '*' hmem (by decide)

theorem rstripSlash_id (s : String) (h : strEndsWith s "/" = false) :
    rstripSlash s = s := by
  apply strExt
  show (s.data.reverse.dropWhile fun c => c == '/').reverse = s.data
  cases hr : s.data.reverse with
  | nil =>
    have : s.data = [] := by
      have := congrArg List.reverse hr
      simpa using this
    rw [this]
    rfl
  | cons c r =>
    have hc : (c == '/') = false := by
      cases hcc : c == '/' with
      | false => rfl
      | true =>
        exfalso
        have hce : c = '/' := by simpa using hcc
        subst hce
        unfold strEndsWith at h
        rw [show ("/" : String).data.reverse = ['/'] from rfl, hr] at h
        simp [dropPrefixL] at h
    rw [List.dropWhile_cons, if_neg (by simp [hc]), ← hr,
      List.reverse_reverse]

theorem strEndsWith_slash_head (s : String) (h : strEndsWith s "/" = true) :
    ∃ r, s.data.reverse = '/' :: r := by
  unfold strEndsWith at h
  cases hr : s.data.reverse with
  | nil =>
    rw [hr] at h
    simp [dropPrefixL] at h
  | cons b r =>
    rw [hr] at h
    by_cases hb : ('/' == b) = true
    · have hbe : b = '/' := by
        have : '/' = b := by simpa using hb
        exact this.symm
      exact ⟨r, by rw [hbe]⟩
    · exfalso
      rw [show ("/" : String).data.reverse = ['/'] from rfl] at h
      unfold dropPrefixL at h
      rw [if_neg hb] at h
      simp at h

theorem strEndsWith_slash_not_star (s : String)
    (h : strEndsWith s "/" = true) :
    strEndsWith s "/**" = false ∧ strEndsWith s "/*" = false := by
  rcases strEndsWith_slash_head s h with ⟨r, hr⟩
  constructor
  · show (dropPrefixL "/**".data.reverse s.data.reverse).isSome = false
    rw [hr]
    rfl
  · show (dropPrefixL "/*".data.reverse s.data.reverse).isSome = false
    rw [hr]
    rfl

theorem rstripSlash_sub (s : String) :
    ∀ c ∈ (rstripSlash s).data, c ∈ s.data := by
  intro c hc
  have h1 : c ∈ s.data.reverse.dropWhile fun x => x == '/' := by
    have h0 : c ∈ (s.data.reverse.dropWhile fun x => x == '/').reverse := hc
    exact List.mem_reverse.1 h0
  exact List.mem_reverse.1 (dropWhile_mem _ _ c h1)

theorem hasGlobMeta_rstripSlash (s : String) (h : hasGlobMeta s = false) :
    hasGlobMeta (rstripSlash s) = false := by
  unfold hasGlobMeta at h ⊢
  rw [List.any_eq_false] at h ⊢
  intro c hc
  exact h c (rstripSlash_sub s c hc)

theorem normalizeGlob_id (entry : String) (hstrip : pyStrip entry = entry)
    (hdot : strStartsWith entry "./" = false) :
    normalizeGlob entry = entry := by
  unfold normalizeGlob
  rw [hstrip, if_neg (by simp [hdot])]

theorem expand_entry (isDir : String → Bool) (entry : String)
    (hstrip : pyStrip entry = entry)
    (hdot : strStartsWith entry "./" = false)
    (hmeta : hasGlobMeta entry = false)
    (hslash : strEndsWith entry "/" = false)
    (hisdir : isDir entry = true)
    (hne : (entry == "") = false) :
    expand_ignore_pattern isDir entry = [entry, entry ++ "/**"] := by
  unfold expand_ignore_pattern
  rw [normalizeGlob_id entry hstrip hdot]
  rw [if_neg (by simp [hne] : ¬ (entry == "") = true)]
  rw [if_neg (by
    simp [noMeta_not_endsWith entry hmeta "/**" (by decide)] :
      ¬ (strEndsWith entry "/**") = true)]
  rw [if_neg (by
    simp [noMeta_not_endsWith entry hmeta "/*" (by decide)] :
      ¬ (strEndsWith entry "/*") = true)]
  rw [if_neg (by simp [hslash] : ¬ (strEndsWith entry "/") = true)]
  rw [if_pos (by simp [hmeta, hisdir])]
  rw [rstripSlash_id entry hslash]
  rw [if_neg (by simp [hne] : ¬ (entry == "") = true)]

theorem entry_globs_mem (isDir : String → Bool) (extra : List String)
    (entry : String) (hmem : entry ∈ extra)
    (hstrip : pyStrip entry = entry)
    (hdot : strStartsWith entry "./" = false)
    (hmeta : hasGlobMeta entry = false)
    (hslash : strEndsWith entry "/" = false)
    (hisdir : isDir entry = true)
    (hne : (entry == "") = false) :
    entry ∈ merge_exclude_globs isDir extra ∧
    entry ++ "/**" ∈ merge_exclude_globs isDir extra := by
  have hexp : ((expand_ignore_pattern isDir entry).filter
      fun e => e ≠ "") = [entry, entry ++ "/**"] := by
    rw [expand_entry isDir entry hstrip hdot hmeta hslash hisdir hne]
    have h1 : entry ≠ "" := by
      intro h0
      rw [h0] at hne
      simp at hne
    have h2 : entry ++ "/**" ≠ "" := by
      intro h0
      have := congrArg String.data h0
      rw [String.data_append] at this
      simp at this
    simp [h1, h2]
  have hflat : [entry, entry ++ "/**"] ⊆
      extra.flatMap fun raw =>
        let r := pyStrip raw
        if r == "" then []
        else (expand_ignore_pattern isDir r).filter fun e => e ≠ "" := by
    intro x hx
    rw [List.mem_flatMap]
    refine ⟨entry, hmem, ?_⟩
    show x ∈ (let r := pyStrip entry
      ; if r == "" then []
        else (expand_ignore_pattern isDir r).filter fun e => e ≠ "")
    rw [hstrip]
    show x ∈ (if (entry == "") = true then []
      else (expand_ignore_pattern isDir entry).filter fun e => e ≠ "")
    rw [if_neg (by simp [hne]), hexp]
    exact hx
  unfold merge_exclude_globs
  exact ⟨List.mem_append_right _ (hflat (List.mem_cons_self _ _)),
    List.mem_append_right _ (hflat (by simp))⟩

theorem expand_entry_slash (isDir : String → Bool) (entry : String)
    (hstrip : pyStrip entry = entry)
    (hdot : strStartsWith entry "./" = false)
    (hslash : strEndsWith entry "/" = true)
    (hbase : (rstripSlash entry == "") = false) :
    expand_ignore_pattern isDir entry =
      [rstripSlash entry, rstripSlash entry ++ "/**"] := by
  have hne : ¬ (entry == "") = true := by
    intro h0
    have he : entry = "" := by simpa using h0
    rw [he] at hslash
    exact absurd hslash (by decide)
  rcases strEndsWith_slash_not_star entry hslash with ⟨h1, h2⟩
  unfold expand_ignore_pattern
  rw [normalizeGlob_id entry hstrip hdot]
  rw [if_neg hne]
  rw [if_neg (by simp [h1] : ¬ (strEndsWith entry "/**") = true)]
  rw [if_neg (by simp [h2] : ¬ (strEndsWith entry "/*") = true)]
  rw [if_pos (by simp [hslash])]
  rw [if_neg (by simp [hbase] : ¬ (rstripSlash entry == "") = true)]

theorem entry_globs_mem_slash (isDir : String → Bool) (extra : List String)
    (entry : String) (hmem : entry ∈ extra)
    (hstrip : pyStrip entry = entry)
    (hdot : strStartsWith entry "./" = false)
    (hslash : strEndsWith entry "/" = true)
    (hbase : (rstripSlash entry == "") = false) :
    rstripSlash entry ∈ merge_exclude_globs isDir extra ∧
    rstripSlash entry ++ "/**" ∈ merge_exclude_globs isDir extra := by
  have hne : ¬ (entry == "") = true := by
    intro h0
    have he : entry = "" := by simpa using h0
    rw [he] at hslash
    exact absurd hslash (by decide)
  have hexp : ((expand_ignore_pattern isDir entry).filter
      fun e => e ≠ "") = [rstripSlash entry, rstripSlash entry ++ "/**"] := by
    rw [expand_entry_slash isDir entry hstrip hdot hslash hbase]
    have h1 : rstripSlash entry ≠ "" := by
      intro h0
      rw [h0] at hbase
      simp at hbase
    have h2 : rstripSlash entry ++ "/**" ≠ "" := by
      intro h0
      have := congrArg String.data h0
      rw [String.data_append] at this
      simp at this
    simp [h1, h2]
  have hflat : [rstripSlash entry, rstripSlash entry ++ "/**"] ⊆
      extra.flatMap fun raw =>
        let r := pyStrip raw
        if r == "" then []
        else (expand_ignore_pattern isDir r).filter fun e => e ≠ "" := by
    intro x hx
    rw [List.mem_flatMap]
    refine ⟨entry, hmem, ?_⟩
    show x ∈ (let r := pyStrip entry
      ; if r == "" then []
        else (expand_ignore_pattern isDir r).filter fun e => e ≠ "")
    rw [hstrip]
    show x ∈ (if (entry == "") = true then []
      else (expand_ignore_pattern isDir entry).filter fun e => e ≠ "")
    rw [if_neg hne, hexp]
    exact hx
  unfold merge_exclude_globs
  exact ⟨List.mem_append_right _ (hflat (List.mem_cons_self _ _)),
    List.mem_append_right _ (hflat (by simp))⟩

/-- C5.  A persisted ignore entry that denotes a directory — either by a
trailing slash, or by resolving to an existing directory under the
repository root (`isDir`) — is canonicalized to the pair
`base, base/**` (`base` being the entry with its trailing slashes
stripped), which excludes the directory path itself and every path beneath
it from both the fallback tree listing and the enumerated file list, under
any raw listing input. -/
theorem C5_exclusion_canonicalization (isDir : String → Bool)
    (extra : List String) (entry : String) (hmem : entry ∈ extra)
    (hstrip : pyStrip entry = entry)
    (hdot : strStartsWith entry "./" = false)
    (hmeta : hasGlobMeta entry = false)
    (hcase : strEndsWith entry "/" = true ∨
      (strEndsWith entry "/" = false ∧ isDir entry = true))
    (hne : (rstripSlash entry == "") = false)
    (hposix : pathAsPosix (rstripSlash entry) = rstripSlash entry) :
    should_exclude (rstripSlash entry)
      (merge_exclude_globs isDir extra) = true ∧
    (∀ rel tail : String,
      pathAsPosix rel = rstripSlash entry ++ "/" ++ tail →
      should_exclude rel (merge_exclude_globs isDir extra) = true) ∧
    (∀ rel : String, should_exclude rel (merge_exclude_globs isDir extra)
        = true → (rel == "") = false →
      ∀ raw : String,
        "./" ++ rel ∉ find_output_list raw (merge_exclude_globs isDir extra)) ∧
    (∀ (raw : String) (existsF isDirF : String → Bool),
      rstripSlash entry ∉
        file_list raw existsF isDirF (merge_exclude_globs isDir extra)) ∧
    (∀ (rel tail : String),
      pathAsPosix rel = rstripSlash entry ++ "/" ++ tail →
      ∀ (raw : String) (existsF isDirF : String → Bool),
        rel ∉ file_list raw existsF isDirF (merge_exclude_globs isDir extra)) := by
  have hmetab : hasGlobMeta (rstripSlash entry) = false :=
    hasGlobMeta_rstripSlash entry hmeta
  have hm12 : rstripSlash entry ∈ merge_exclude_globs isDir extra ∧
      rstripSlash entry ++ "/**" ∈ merge_exclude_globs isDir extra := by
    rcases hcase with hslash | ⟨hslash, hisdir⟩
    · exact entry_globs_mem_slash isDir extra entry hmem hstrip hdot hslash hne
    · have hid : rstripSlash entry = entry := rstripSlash_id entry hslash
      rw [hid]
      rw [hid] at hne
      exact entry_globs_mem isDir extra entry hmem hstrip hdot hmeta hslash
        hisdir hne
  rcases hm12 with ⟨hm1, hm2⟩
  have hex1 : should_exclude (rstripSlash entry)
      (merge_exclude_globs isDir extra) = true := by
    unfold should_exclude
    have hany : (merge_exclude_globs isDir extra).any
        (fun pat => globMatch pat (pathAsPosix (rstripSlash entry))) = true := by
      rw [List.any_eq_true]
      refine ⟨rstripSlash entry, hm1, ?_⟩
      unfold globMatch
      rw [hposix]
      exact globMatchL_self (rstripSlash entry).data
        (noMeta_chars (rstripSlash entry) hmetab)
    rw [hany]
    simp
  have hex2 : ∀ rel tail : String,
      pathAsPosix rel = rstripSlash entry ++ "/" ++ tail →
      should_exclude rel (merge_exclude_globs isDir extra) = true := by
    intro rel tail hrel
    unfold should_exclude
    have hany : (merge_exclude_globs isDir extra).any
        (fun pat => globMatch pat (pathAsPosix rel)) = true := by
      rw [List.any_eq_true]
      refine ⟨rstripSlash entry ++ "/**", hm2, ?_⟩
      unfold globMatch
      rw [hrel]
      have hd1 : (rstripSlash entry ++ "/**").data =
          (rstripSlash entry).data ++ '/' :: '*' :: '*' :: [] := by
        rw [String.data_append]
      have hd2 : (rstripSlash entry ++ "/" ++ tail).data =
          (rstripSlash entry).data ++ '/' :: tail.data := by
        rw [String.data_append, String.data_append]
        simp
      rw [hd1, hd2]
      exact globMatchL_sub (rstripSlash entry).data tail.data
        (noMeta_chars (rstripSlash entry) hmetab)
    rw [hany]
    simp
  refine ⟨hex1, hex2, ?_, ?_, ?_⟩
  · intro rel hrelex hrelne raw hmem2
    rcases find_output_list_mem raw _ _ hmem2 with h1 | ⟨rel2, heq, hexcl⟩
    · have : rel = "" := by
        have h2 : ("./" : String) ++ rel = "./" ++ "" := by rw [h1]; rfl
        exact strAppend_left_cancel _ _ _ h2
      rw [this] at hrelne
      simp at hrelne
    · have : rel = rel2 := strAppend_left_cancel _ _ _ heq
      subst this
      rw [hrelex] at hexcl
      simp at hexcl
  · intro raw existsF isDirF hmem2
    have h1 := file_list_not_excluded raw existsF isDirF _
      (rstripSlash entry) hmem2
    rw [hex1] at h1
    simp at h1
  · intro rel tail hrel raw existsF isDirF hmem2
    have h1 := file_list_not_excluded raw existsF isDirF _ rel hmem2
    rw [hex2 rel tail hrel] at h1
    simp at h1

theorem C5_exclusion_canonicalization_witness :
    (("build" : String) ∈ ["build", "dist/"] ∧
     ("dist/" : String) ∈ ["build", "dist/"] ∧
     pyStrip "build" = "build" ∧ pyStrip "dist/" = "dist/" ∧
     strStartsWith "build" "./" = false ∧
     strStartsWith "dist/" "./" = false ∧
     hasGlobMeta "build" = false ∧ hasGlobMeta "dist/" = false ∧
     strEndsWith "build" "/" = false ∧
     (fun s => s == "build") "build" = true ∧
     strEndsWith "dist/" "/" = true ∧
     ((rstripSlash "build" == "") = false) ∧
     ((rstripSlash "dist/" == "") = false) ∧
     pathAsPosix (rstripSlash "build") = rstripSlash "build" ∧
     pathAsPosix (rstripSlash "dist/") = rstripSlash "dist/" ∧
     pathAsPosix "build/out/a.txt" =
       rstripSlash "build" ++ "/" ++ "out/a.txt" ∧
     pathAsPosix "dist/bundle.js" =
       rstripSlash "dist/" ++ "/" ++ "bundle.js") ∧
    should_exclude (rstripSlash "build")
      (merge_exclude_globs (fun s => s == "build") ["build", "dist/"]) = true ∧
    should_exclude "build/out/a.txt"
      (merge_exclude_globs (fun s => s == "build") ["build", "dist/"]) = true ∧
    should_exclude (rstripSlash "dist/")
      (merge_exclude_globs (fun s => s == "build") ["build", "dist/"]) = true ∧
    should_exclude "dist/bundle.js"
      (merge_exclude_globs (fun s => s == "build") ["build", "dist/"]) = true ∧
    rstripSlash "build" ∉ file_list "build\nbuild/out/a.txt\nsrc/app.py"
      (fun _ => true) (fun s => s == "build")
      (merge_exclude_globs (fun s => s == "build") ["build", "dist/"]) :=
  ⟨by decide,
   (C5_exclusion_canonicalization (fun s => s == "build")
     ["build", "dist/"] "build" (by decide) (by decide) (by decide)
     (by decide) (Or.inr ⟨by decide, by decide⟩) (by decide) (by decide)).1,
   (C5_exclusion_canonicalization (fun s => s == "build")
     ["build", "dist/"] "build" (by decide) (by decide) (by decide)
     (by decide) (Or.inr ⟨by decide, by decide⟩) (by decide)
     (by decide)).2.1 "build/out/a.txt" "out/a.txt" (by decide),
   (C5_exclusion_canonicalization (fun s => s == "build")
     ["build", "dist/"] "dist/" (by decide) (by decide) (by decide)
     (by decide) (Or.inl (by decide)) (by decide) (by decide)).1,
   (C5_exclusion_canonicalization (fun s => s == "build")
     ["build", "dist/"] "dist/" (by decide) (by decide) (by decide)
     (by decide) (Or.inl (by decide)) (by decide)
     (by decide)).2.1 "dist/bundle.js" "bundle.js" (by decide),
   (C5_exclusion_canonicalization (fun s => s == "build")
     ["build", "dist/"] "build" (by decide) (by decide) (by decide)
     (by decide) (Or.inr ⟨by decide, by decide⟩) (by decide)
     (by decide)).2.2.2.1 "build\nbuild/out/a.txt\nsrc/app.py"
     (fun _ => true) (fun s => s == "build")⟩

end Skills
